import Mathlib

/-!
DB101 firmware: a shallow embedding of the terminal emulator (terminal_lib),
the FIFO library (fifo_lib), the joystick driver (joystick_driver) and the
navigation of the forms engine (forms_lib).

The definitions of the terminal follow `src/terminal_lib/terminal_lib.c` and
`terminal_lib.h` function by function.  The C structure `TERM_terminal_t`
becomes a Lean structure that is passed and returned explicitly.  The FIFO and
the joystick driver follow `src/fifo_lib/fifo_lib.c` and
`src/joystick_driver/joystick_driver.c` in the same way; their conventions are
given with their definitions.  Of the forms engine only the header
`forms_lib.h` is among the sources; its functions are modelled from the
specification and marked as such.

Conventions of the embedding:

* C arrays are total functions on `Nat`; only the indices inside the declared
  bounds belong to the C object.  `termBuffer[row]` (a pointer to one of the
  physical rows of `termBufferRows`) is the index of that physical row, and a
  pointer `pItem` into a physical row is a pair (physical row, column).
* `uint8_t` and `uint16_t` values are `Nat`, `int8_t escapeSequenceIndex` is
  `Int`.  Reductions modulo `2^w` are written where a value can leave its
  range; the cursor arithmetic is done on values bounded by the grid size.
* The calls into the display, font and backlight drivers (`LCD_*`,
  `TERMFONT_*`, `BACKLIGHT_SetRGB`) and the functions that only consist of
  such calls (`TERM_RemoveCursor`, `TERM_DisplayCursor`,
  `TERM_DisplayCharOnLCD`, `TERM_WriteBufferToLCD`, `TERM_Redraw`) never write
  a field of `TERM_terminal_t`; they are left out of the state transformer.
  Where a property is about the display calls themselves, they are listed by a
  function of their own (`enableWriteThroughOps`), and the accumulator indices
  that the interpreter reads are listed by `processCharReads`.
* A read through `pTerminal->escapeSequence + offset` at index 12 or more
  reads the bytes of the fields that follow the accumulator in
  `TERM_terminal_t` (`escPtr`).  The four bit-fields share one byte whose
  upper four bits no function writes; `flagPadding` is their value in the
  memory handed to `TERM_Init`.
-/

namespace Terminal

/-! ## Constants -/

/-- The escape (ESC) ASCII value, `#define TERMINAL_ESC 27`. -/
@[simp] def TERMINAL_ESC : Nat := 27

/-- Maximum number of characters making up one parameter. -/
@[simp] def TERM_MAXPARAMDIGITS : Nat := 4

/-- Size of the escape accumulator, `#define TERM_MAX_ESCAPE_LENGTH 12`. -/
@[simp] def TERM_MAX_ESCAPE_LENGTH : Nat := 12

/-- Modelled from the spec: `termfont_lib.h` is not among the sources; the grid
is "8 rows × 21 columns in the reference device" (also the file header of
`terminal_lib.c`: "full-screen 21x8 character terminal"). -/
@[simp] def TERMFONT_LINES_PER_SCREEN : Nat := 8

/-- Modelled from the spec: `termfont_lib.h` is not among the sources; the grid
is "8 rows × 21 columns in the reference device". -/
@[simp] def TERMFONT_CHARS_PER_LINE : Nat := 21

/-! ## Data model -/

/-- The graphic parameters of one character (`TERM_graphicAttributes_t`). -/
structure TERM_graphicAttributes_t where
  singleUnderline : Bool
  strikeThrough : Bool
  imageInverted : Bool
deriving DecidableEq, Repr

/-- One cell of the terminal buffer (`TERM_termbufferdata_t`). -/
structure TERM_termbufferdata_t where
  character : Nat
  attributes : TERM_graphicAttributes_t
deriving DecidableEq, Repr

/-- The constant `TERM_defaultAttributes = { false, false, false }`. -/
def TERM_defaultAttributes : TERM_graphicAttributes_t :=
  { singleUnderline := false, strikeThrough := false, imageInverted := false }

/-- The value written by every clearing loop: `character = ' '` and
`attributes = TERM_defaultAttributes`. -/
def blankCell : TERM_termbufferdata_t :=
  { character := 32, attributes := TERM_defaultAttributes }

/-- The terminal (`TERM_terminal_t`). -/
structure TERM_terminal_t where
  /-- Physical rows: `termBufferRows[physicalRow][column]`. -/
  termBufferRows : Nat → Nat → TERM_termbufferdata_t
  /-- Row pointers: `termBuffer[row]` is the physical row shown as `row`. -/
  termBuffer : Nat → Nat
  currentAttributes : TERM_graphicAttributes_t
  escapeSequence : Nat → Nat
  escapeSequenceIndex : Int
  escapeSequenceActive : Bool
  directLCDUpdate : Bool
  cursorVisible : Bool
  disableLineWrap : Bool
  savedRow : Nat
  savedColumn : Nat
  currentRow : Nat
  currentColumn : Nat
  tabstepsize : Nat
  verticaltabstepsize : Nat
  /-- The four bits of the flag byte that no bit-field occupies.  No function
  of the library writes them; they are what the memory held before
  `TERM_Init`. -/
  flagPadding : Nat

/-- Array store `a[i] = v`. -/
def setAt {α : Type} (a : Nat → α) (i : Nat) (v : α) : Nat → α :=
  fun j => if j = i then v else a j

/-- Store through a cell pointer: `pItem->character = ..; pItem->attributes = ..`
where `pItem` points at column `column` of physical row `phys`. -/
def writeCell (rows : Nat → Nat → TERM_termbufferdata_t) (phys column : Nat)
    (v : TERM_termbufferdata_t) : Nat → Nat → TERM_termbufferdata_t :=
  fun r c => if r = phys ∧ c = column then v else rows r c

/-- The body shared by all clearing loops, run `count` times:
`pItem->character = ' '; pItem->attributes = TERM_defaultAttributes; ++pItem;`
starting with `pItem` at column `column` of physical row `phys`. -/
def clearCells (rows : Nat → Nat → TERM_termbufferdata_t) (phys column : Nat) :
    Nat → Nat → Nat → TERM_termbufferdata_t
  | 0 => rows
  | count + 1 => clearCells (writeCell rows phys column blankCell) phys (column + 1) count

/-- Number of passes of `do { ...; --columnsLeft; } while (columnsLeft > 0)` for a
`uint8_t columnsLeft`: the body runs before the test, so a start value of 0
wraps to 255 and gives 256 passes. -/
def downCount (columnsLeft : Nat) : Nat :=
  if columnsLeft % 256 = 0 then 256 else columnsLeft % 256

/-- Number of passes of `do { ...; ++columnsLeft; } while (columnsLeft < limit)`:
the body runs at least once. -/
def upCount (columnsLeft limit : Nat) : Nat :=
  if columnsLeft < limit then limit - columnsLeft else 1

/-- The cell shown at logical position (`row`, `column`):
`pTerminal->termBuffer[row][column]`. -/
def cellAt (s : TERM_terminal_t) (row column : Nat) : TERM_termbufferdata_t :=
  s.termBufferRows (s.termBuffer row) column

/-! ## Initialisation and the public switches -/

/-- Function `TERM_Init`: every field of the terminal is assigned, so of the previous
content of `*pTerminal` only the padding bits of the flag byte remain, which
the assignments to the four one-bit fields leave as they are; `flagPadding` is
their value (four bits, taken modulo 16) in the memory that `pTerminal` points
to.  The row pointers are set
to the physical rows in order, all cells are blanked, the accumulator is
zeroed. -/
def TERM_Init (tab verticaltab : Nat) (cursorVisible : Bool) (flagPadding : Nat) :
    TERM_terminal_t :=
  { termBufferRows := fun _ _ => blankCell
    termBuffer := fun row => row
    currentAttributes :=
      { singleUnderline := false, strikeThrough := false, imageInverted := false }
    escapeSequence := fun _ => 0
    escapeSequenceIndex := 0
    escapeSequenceActive := false
    directLCDUpdate := false
    cursorVisible := cursorVisible
    disableLineWrap := false
    savedRow := 0
    savedColumn := 0
    currentRow := 0
    currentColumn := 0
    tabstepsize := tab
    verticaltabstepsize := verticaltab
    flagPadding := flagPadding % 16 }

/-- Function `TERM_EnableWriteThrough`. -/
def TERM_EnableWriteThrough (s : TERM_terminal_t) : TERM_terminal_t :=
  if s.directLCDUpdate = false then { s with directLCDUpdate := true } else s

/-- Function `TERM_DisableWriteThrough`. -/
def TERM_DisableWriteThrough (s : TERM_terminal_t) : TERM_terminal_t :=
  if s.directLCDUpdate = true then { s with directLCDUpdate := false } else s

/-- Function `TERM_EnableVisibleCursor`. -/
def TERM_EnableVisibleCursor (s : TERM_terminal_t) : TERM_terminal_t :=
  if s.cursorVisible = false then { s with cursorVisible := true } else s

/-- Function `TERM_DisableVisibleCursor`. -/
def TERM_DisableVisibleCursor (s : TERM_terminal_t) : TERM_terminal_t :=
  if s.cursorVisible = true then { s with cursorVisible := false } else s

/-- Function `TERM_GetCursorRow`. -/
def TERM_GetCursorRow (s : TERM_terminal_t) : Nat := s.currentRow

/-- Function `TERM_GetCursorColumn`. -/
def TERM_GetCursorColumn (s : TERM_terminal_t) : Nat := s.currentColumn

/-! ## Scrolling and clearing -/

/-- The row cycling loop of `TERM_ScrollTerminalOneLine`:
`do { *currentLine = *(currentLine + 1); ++currentLine; } while (--rowsLeft);`
with `currentLine` given as an index into `termBuffer`. -/
def cycleRows (tb : Nat → Nat) (currentLine : Nat) : Nat → Nat → Nat
  | 0 => tb
  | rowsLeft + 1 => cycleRows (setAt tb currentLine (tb (currentLine + 1))) (currentLine + 1) rowsLeft

/-- Function `TERM_ScrollTerminalOneLine`: cycle the row pointers, clear the physical row
that was on top and is now at the bottom, put the cursor at the start of the
last row. -/
def TERM_ScrollTerminalOneLine (s : TERM_terminal_t) : TERM_terminal_t :=
  let firstLine := s.termBuffer 0
  let rowsLeft := TERMFONT_LINES_PER_SCREEN - 1
  let tb := setAt (cycleRows s.termBuffer 0 rowsLeft) rowsLeft firstLine
  { s with
    termBuffer := tb
    termBufferRows := clearCells s.termBufferRows firstLine 0 TERMFONT_CHARS_PER_LINE
    currentColumn := 0
    currentRow := TERMFONT_LINES_PER_SCREEN - 1 }

/-- The outer `for (row = from; row < TERMFONT_LINES_PER_SCREEN; row++)` loop of
`TERM_ClearFromCursorToEnd`, `todo` rows still to do. -/
def clearToEndRows (s : TERM_terminal_t) (rowStop : Nat)
    (rows : Nat → Nat → TERM_termbufferdata_t) (row : Nat) :
    Nat → Nat → Nat → TERM_termbufferdata_t
  | 0 => rows
  | todo + 1 =>
    let columnsLeft := if row = rowStop then s.currentColumn else 0
    clearToEndRows s rowStop
      (clearCells rows (s.termBuffer row) columnsLeft (upCount columnsLeft TERMFONT_CHARS_PER_LINE))
      (row + 1) todo

/-- Function `TERM_ClearFromCursorToEnd`. -/
def TERM_ClearFromCursorToEnd (s : TERM_terminal_t) : TERM_terminal_t :=
  let rowStop := s.currentRow
  { s with
    termBufferRows :=
      clearToEndRows s rowStop s.termBufferRows rowStop (TERMFONT_LINES_PER_SCREEN - rowStop) }

/-- The outer `for (row = 0; row <= rowStop; row++)` loop of
`TERM_ClearFromCursorToStart`, `todo` rows still to do. -/
def clearToStartRows (s : TERM_terminal_t) (rowStop : Nat)
    (rows : Nat → Nat → TERM_termbufferdata_t) (row : Nat) :
    Nat → Nat → Nat → TERM_termbufferdata_t
  | 0 => rows
  | todo + 1 =>
    let columnsLeft := if row = rowStop then s.currentColumn + 1 else TERMFONT_CHARS_PER_LINE
    clearToStartRows s rowStop
      (clearCells rows (s.termBuffer row) 0 (downCount columnsLeft))
      (row + 1) todo

/-- Function `TERM_ClearFromCursorToStart`. -/
def TERM_ClearFromCursorToStart (s : TERM_terminal_t) : TERM_terminal_t :=
  let rowStop := s.currentRow
  { s with termBufferRows := clearToStartRows s rowStop s.termBufferRows 0 (rowStop + 1) }

/-- The outer `for (row = 0; row < TERMFONT_LINES_PER_SCREEN; row++)` loop of
`TERM_ClearWholeTerminal`, `todo` rows still to do. -/
def clearAllRows (s : TERM_terminal_t)
    (rows : Nat → Nat → TERM_termbufferdata_t) (row : Nat) :
    Nat → Nat → Nat → TERM_termbufferdata_t
  | 0 => rows
  | todo + 1 =>
    clearAllRows s
      (clearCells rows (s.termBuffer row) 0 (downCount TERMFONT_CHARS_PER_LINE))
      (row + 1) todo

/-- Function `TERM_ClearWholeTerminal`. -/
def TERM_ClearWholeTerminal (s : TERM_terminal_t) : TERM_terminal_t :=
  { s with termBufferRows := clearAllRows s s.termBufferRows 0 TERMFONT_LINES_PER_SCREEN }

/-- Function `TERM_ClearFromCursorToEndOfLine`. -/
def TERM_ClearFromCursorToEndOfLine (s : TERM_terminal_t) : TERM_terminal_t :=
  let columnsLeft := s.currentColumn
  { s with
    termBufferRows :=
      clearCells s.termBufferRows (s.termBuffer s.currentRow) columnsLeft
        (upCount columnsLeft TERMFONT_CHARS_PER_LINE) }

/-- Function `TERM_ClearFromCursorToStartOfLine`. -/
def TERM_ClearFromCursorToStartOfLine (s : TERM_terminal_t) : TERM_terminal_t :=
  { s with
    termBufferRows :=
      clearCells s.termBufferRows (s.termBuffer s.currentRow) 0 (downCount (s.currentColumn + 1)) }

/-- Function `TERM_ClearWholeLine`. -/
def TERM_ClearWholeLine (s : TERM_terminal_t) : TERM_terminal_t :=
  { s with
    termBufferRows :=
      clearCells s.termBufferRows (s.termBuffer s.currentRow) 0 (downCount TERMFONT_CHARS_PER_LINE) }

/-! ## Parameter extraction -/

/-- The byte of `TERM_terminal_t` that holds the four one-bit fields, allocated
from the least significant bit in the order of their declaration
(`escapeSequenceActive`, `directLCDUpdate`, `cursorVisible`, `disableLineWrap`),
with the four padding bits above them. -/
def flagByte (s : TERM_terminal_t) : Nat :=
  s.escapeSequenceActive.toNat + 2 * s.directLCDUpdate.toNat + 4 * s.cursorVisible.toNat +
    8 * s.disableLineWrap.toNat + 16 * (s.flagPadding % 16)

/-- Byte `str[i]` for the pointer `str = pTerminal->escapeSequence + offset`.
Offsets 0..11 are the accumulator.  Behind it the pointer reads the fields
that follow in `TERM_terminal_t`, one byte each and without gaps:
`escapeSequenceIndex` (as the byte of an `int8_t`) at 12, the flag byte at 13,
then `savedRow`, `savedColumn`, `currentRow`, `currentColumn`, `tabstepsize`
and `verticaltabstepsize` at 14..19.  Offsets from 20 on lie behind the
structure; they read as 0 here, and no reachable terminal reads further than
offset 15 (`reads_within_structure`). -/
def escPtr (s : TERM_terminal_t) (offset : Nat) : Nat → Nat :=
  fun i =>
    if offset + i < TERM_MAX_ESCAPE_LENGTH then s.escapeSequence (offset + i)
    else if offset + i = 12 then (s.escapeSequenceIndex % 256).toNat
    else if offset + i = 13 then flagByte s
    else if offset + i = 14 then s.savedRow
    else if offset + i = 15 then s.savedColumn
    else if offset + i = 16 then s.currentRow
    else if offset + i = 17 then s.currentColumn
    else if offset + i = 18 then s.tabstepsize
    else if offset + i = 19 then s.verticaltabstepsize
    else 0

/-- The `while` loop of `TERM_ExtractParameter`; `remaining` is
`TERM_MAXPARAMDIGITS - digitCount`, and `str` has been advanced `digitCount`
times.  Returns (`result`, `digitCount`). -/
def extractLoop (str : Nat → Nat) : Nat → Nat → Nat → Nat × Nat
  | 0, result, digitCount => (result, digitCount)
  | remaining + 1, result, digitCount =>
    if 48 ≤ str digitCount ∧ str digitCount ≤ 57 then
      extractLoop str remaining ((result * 10 + (str digitCount - 48)) % 65536) (digitCount + 1)
    else (result, digitCount)

/-- Function `TERM_ExtractParameter`: returns (`digitCount`, content of
`*resultStorage` afterwards); `resultStorage` is the content before the call. -/
def TERM_ExtractParameter (str : Nat → Nat) (resultStorage : Nat) : Nat × Nat :=
  let r := extractLoop str TERM_MAXPARAMDIGITS 0 0
  (r.2, if r.2 > 0 then r.1 else resultStorage)

/-- Content of an uninitialised `uint16_t` local before it is handed to
`TERM_ExtractParameter`.  Every caller either overwrites it when no digit was
found or does not read it in that case. -/
def uninitialised : Nat := 0

/-! ## Control characters -/

/-- Function `TERM_ProcessBackspace`. -/
def TERM_ProcessBackspace (s : TERM_terminal_t) : TERM_terminal_t :=
  if s.currentColumn > 0 then { s with currentColumn := s.currentColumn - 1 } else s

/-- Function `TERM_ProcessHorisontalTab`; the sum is computed in `int`. -/
def TERM_ProcessHorisontalTab (s : TERM_terminal_t) : TERM_terminal_t :=
  let column := s.currentColumn
  if column + s.tabstepsize > TERMFONT_CHARS_PER_LINE - 1 then
    { s with currentColumn := TERMFONT_CHARS_PER_LINE - 1 }
  else { s with currentColumn := column + s.tabstepsize }

/-- Function `TERM_ProcessNewLine`. -/
def TERM_ProcessNewLine (s : TERM_terminal_t) : TERM_terminal_t :=
  let row := s.currentRow
  if row = TERMFONT_LINES_PER_SCREEN - 1 then
    if s.disableLineWrap = false then
      { TERM_ScrollTerminalOneLine s with currentRow := row }
    else { s with currentRow := 0 }
  else { s with currentRow := (row + 1) % 256 }

/-- Function `TERM_ProcessVerticalTab`; the sum is computed in `int`. -/
def TERM_ProcessVerticalTab (s : TERM_terminal_t) : TERM_terminal_t :=
  let row := s.currentRow
  if row + s.verticaltabstepsize > TERMFONT_LINES_PER_SCREEN - 1 then
    { s with currentRow := TERMFONT_LINES_PER_SCREEN - 1 }
  else { s with currentRow := row + s.verticaltabstepsize }

/-- Function `TERM_ProcessFormFeed`. -/
def TERM_ProcessFormFeed (s : TERM_terminal_t) : TERM_terminal_t :=
  TERM_ClearWholeTerminal s

/-- Function `TERM_ProcessCarriageReturn`. -/
def TERM_ProcessCarriageReturn (s : TERM_terminal_t) : TERM_terminal_t :=
  { s with currentColumn := 0 }

/-- Function `TERM_ProcessControlCharacter`. -/
def TERM_ProcessControlCharacter (s : TERM_terminal_t) (graphicCharacter : Nat) :
    TERM_terminal_t :=
  if graphicCharacter = 8 then TERM_ProcessBackspace s
  else if graphicCharacter = 9 then TERM_ProcessHorisontalTab s
  else if graphicCharacter = 10 then TERM_ProcessNewLine s
  else if graphicCharacter = 11 then TERM_ProcessVerticalTab s
  else if graphicCharacter = 12 then TERM_ProcessFormFeed s
  else if graphicCharacter = 13 then TERM_ProcessCarriageReturn s
  else s

/-- Function `TERM_ProcessOrdinaryChar`. -/
def TERM_ProcessOrdinaryChar (s : TERM_terminal_t) (dataIn : Nat) : TERM_terminal_t :=
  if 32 ≤ dataIn ∧ dataIn ≤ 126 then
    let row := s.currentRow
    let column := s.currentColumn
    let s1 : TERM_terminal_t :=
      { s with
        termBufferRows :=
          writeCell s.termBufferRows (s.termBuffer row) column
            { character := dataIn, attributes := s.currentAttributes } }
    if s1.currentColumn < TERMFONT_CHARS_PER_LINE - 1 then
      { s1 with currentColumn := s1.currentColumn + 1 }
    else
      let s2 : TERM_terminal_t := { s1 with currentColumn := 0 }
      if s2.currentRow < TERMFONT_LINES_PER_SCREEN - 1 then
        { s2 with currentRow := s2.currentRow + 1 }
      else if s2.disableLineWrap = false then TERM_ScrollTerminalOneLine s2
      else { s2 with currentRow := 0 }
  else if 7 ≤ dataIn ∧ dataIn ≤ 13 then TERM_ProcessControlCharacter s dataIn
  else s

/-! ## Escape sequence handlers -/

/-- Function `TERM_ProcessCursorUp`. -/
def TERM_ProcessCursorUp (s : TERM_terminal_t) : TERM_terminal_t :=
  let p := TERM_ExtractParameter (escPtr s 0) uninitialised
  let distance := if p.1 = 0 then 1 else p.2
  let distance := if distance > s.currentRow then s.currentRow else distance
  { s with currentRow := s.currentRow - distance }

/-- Function `TERM_ProcessCursorDown`.  The bound
`TERMFONT_LINES_PER_SCREEN - 1 - currentRow` is computed in `int`; it is not
negative for a cursor inside the grid, which is the case in every state the
terminal reaches (`reachable_inv`). -/
def TERM_ProcessCursorDown (s : TERM_terminal_t) : TERM_terminal_t :=
  let p := TERM_ExtractParameter (escPtr s 0) uninitialised
  let distance := if p.1 = 0 then 1 else p.2
  let distance :=
    if distance > TERMFONT_LINES_PER_SCREEN - 1 - s.currentRow then
      TERMFONT_LINES_PER_SCREEN - 1 - s.currentRow
    else distance
  { s with currentRow := s.currentRow + distance }

/-- Function `TERM_ProcessCursorRight`.  The bound
`TERMFONT_CHARS_PER_LINE - 1 - currentColumn` is computed in `int`; it is not
negative for a cursor inside the grid (`reachable_inv`). -/
def TERM_ProcessCursorRight (s : TERM_terminal_t) : TERM_terminal_t :=
  let p := TERM_ExtractParameter (escPtr s 0) uninitialised
  let distance := if p.1 = 0 then 1 else p.2
  let distance :=
    if distance > TERMFONT_CHARS_PER_LINE - 1 - s.currentColumn then
      TERMFONT_CHARS_PER_LINE - 1 - s.currentColumn
    else distance
  { s with currentColumn := s.currentColumn + distance }

/-- Function `TERM_ProcessCursorLeft`. -/
def TERM_ProcessCursorLeft (s : TERM_terminal_t) : TERM_terminal_t :=
  let p := TERM_ExtractParameter (escPtr s 0) uninitialised
  let distance := if p.1 = 0 then 1 else p.2
  let distance := if distance > s.currentColumn then s.currentColumn else distance
  { s with currentColumn := s.currentColumn - distance }

/-- Function `TERM_ProcessCursorNextLine`. -/
def TERM_ProcessCursorNextLine (s : TERM_terminal_t) : TERM_terminal_t :=
  { TERM_ProcessCursorDown s with currentColumn := 0 }

/-- Function `TERM_ProcessCursorPreviousLine`. -/
def TERM_ProcessCursorPreviousLine (s : TERM_terminal_t) : TERM_terminal_t :=
  { TERM_ProcessCursorUp s with currentColumn := 0 }

/-- Function `TERM_ProcessCursorToColumn`. -/
def TERM_ProcessCursorToColumn (s : TERM_terminal_t) : TERM_terminal_t :=
  let p := TERM_ExtractParameter (escPtr s 0) uninitialised
  if p.1 ≠ 0 then
    let newColumn :=
      if p.2 < 1 then 1
      else if p.2 > TERMFONT_CHARS_PER_LINE then TERMFONT_CHARS_PER_LINE
      else p.2
    { s with currentColumn := newColumn - 1 }
  else s

/-- Function `TERM_ProcessCursorToPosition`. -/
def TERM_ProcessCursorToPosition (s : TERM_terminal_t) : TERM_terminal_t :=
  let p := TERM_ExtractParameter (escPtr s 0) uninitialised
  let newRow := if p.1 = 0 then 1 else p.2
  let q := TERM_ExtractParameter (escPtr s (p.1 + 1)) uninitialised
  let newColumn := if q.1 = 0 then 1 else q.2
  let newRow :=
    if newRow < 1 then 1
    else if newRow > TERMFONT_LINES_PER_SCREEN then TERMFONT_LINES_PER_SCREEN
    else newRow
  let newColumn :=
    if newColumn < 1 then 1
    else if newColumn > TERMFONT_CHARS_PER_LINE then TERMFONT_CHARS_PER_LINE
    else newColumn
  { s with currentRow := newRow - 1, currentColumn := newColumn - 1 }

/-- Function `TERM_ProcessHMode`. -/
def TERM_ProcessHMode (s : TERM_terminal_t) : TERM_terminal_t :=
  let p := TERM_ExtractParameter (escPtr s 0) uninitialised
  let parameter := if p.1 = 0 then 0 else p.2
  if parameter = 7 then { s with disableLineWrap := false } else s

/-- Function `TERM_ProcessLMode`. -/
def TERM_ProcessLMode (s : TERM_terminal_t) : TERM_terminal_t :=
  let p := TERM_ExtractParameter (escPtr s 0) uninitialised
  let parameter := if p.1 = 0 then 0 else p.2
  if parameter = 7 then { s with disableLineWrap := true } else s

/-- Function `TERM_ProcessTerminalReset`.  The source passes `tabstepsize` for both
the `tab` and the `verticaltab` argument of `TERM_Init`. -/
def TERM_ProcessTerminalReset (s : TERM_terminal_t) : TERM_terminal_t :=
  let wasOnScreen := s.directLCDUpdate
  let s1 := TERM_Init s.tabstepsize s.tabstepsize s.cursorVisible s.flagPadding
  if wasOnScreen then TERM_EnableWriteThrough s1 else s1

/-- Function `TERM_ProcessClearPartOfScreen`. -/
def TERM_ProcessClearPartOfScreen (s : TERM_terminal_t) : TERM_terminal_t :=
  let p := TERM_ExtractParameter (escPtr s 0) uninitialised
  let parameter := if p.1 = 0 then 0 else p.2
  if parameter = 0 then TERM_ClearFromCursorToEnd s
  else if parameter = 1 then TERM_ClearFromCursorToStart s
  else if parameter = 2 then TERM_ClearWholeTerminal s
  else s

/-- Function `TERM_ProcessClearPartOfLine`. -/
def TERM_ProcessClearPartOfLine (s : TERM_terminal_t) : TERM_terminal_t :=
  let p := TERM_ExtractParameter (escPtr s 0) uninitialised
  let parameter := if p.1 = 0 then 0 else p.2
  if parameter = 0 then TERM_ClearFromCursorToEndOfLine s
  else if parameter = 1 then TERM_ClearFromCursorToStartOfLine s
  else if parameter = 2 then TERM_ClearWholeLine s
  else s

/-- Function `TERM_ProcessSgrParameter`; the cases 40..49 only set the backlight. -/
def TERM_ProcessSgrParameter (s : TERM_terminal_t) (parameter : Nat) : TERM_terminal_t :=
  if parameter = 0 then { s with currentAttributes := TERM_defaultAttributes }
  else if parameter = 4 then
    { s with currentAttributes := { s.currentAttributes with singleUnderline := true } }
  else if parameter = 7 then
    { s with currentAttributes := { s.currentAttributes with imageInverted := true } }
  else if parameter = 9 then
    { s with currentAttributes := { s.currentAttributes with strikeThrough := true } }
  else if parameter = 24 then
    { s with currentAttributes := { s.currentAttributes with singleUnderline := false } }
  else if parameter = 27 then
    { s with currentAttributes := { s.currentAttributes with imageInverted := false } }
  else if parameter = 29 then
    { s with currentAttributes := { s.currentAttributes with strikeThrough := false } }
  else s

/-- The `do { ... } while (digitCount != 0)` loop of
`TERM_ProcessSelectGraphicRendition`, entered with the given `startIndex`.
Every pass that continues moves `startIndex` forward by at least 2 and a pass
starting at 20 or later finds no digit, so `passes` = 13 is never used up
(`sgrLoop_passes`). -/
def sgrLoop : Nat → TERM_terminal_t → Nat → TERM_terminal_t
  | 0, s, _ => s
  | passes + 1, s, startIndex =>
    let p := TERM_ExtractParameter (escPtr s startIndex) uninitialised
    let s1 := if p.1 > 0 then TERM_ProcessSgrParameter s p.2 else s
    if p.1 ≠ 0 then sgrLoop passes s1 (startIndex + p.1 + 1) else s1

/-- Function `TERM_ProcessSelectGraphicRendition`. -/
def TERM_ProcessSelectGraphicRendition (s : TERM_terminal_t) : TERM_terminal_t :=
  sgrLoop (TERM_MAX_ESCAPE_LENGTH + 1) s 0

/-- Function `TERM_ProcessSaveCursorPosition`. -/
def TERM_ProcessSaveCursorPosition (s : TERM_terminal_t) : TERM_terminal_t :=
  { s with savedRow := s.currentRow, savedColumn := s.currentColumn }

/-- Function `TERM_ProcessRestoreCursorPosition`. -/
def TERM_ProcessRestoreCursorPosition (s : TERM_terminal_t) : TERM_terminal_t :=
  { s with currentRow := s.savedRow, currentColumn := s.savedColumn }

/-- Function `TERM_ProcessEscapeSequence`: dispatch on the terminating letter. -/
def TERM_ProcessEscapeSequence (s : TERM_terminal_t) (data : Nat) : TERM_terminal_t :=
  if data = 65 then TERM_ProcessCursorUp s
  else if data = 66 then TERM_ProcessCursorDown s
  else if data = 67 then TERM_ProcessCursorRight s
  else if data = 68 then TERM_ProcessCursorLeft s
  else if data = 69 then TERM_ProcessCursorNextLine s
  else if data = 70 then TERM_ProcessCursorPreviousLine s
  else if data = 71 then TERM_ProcessCursorToColumn s
  else if data = 72 then TERM_ProcessCursorToPosition s
  else if data = 74 then TERM_ProcessClearPartOfScreen s
  else if data = 75 then TERM_ProcessClearPartOfLine s
  else if data = 102 then TERM_ProcessCursorToPosition s
  else if data = 104 then TERM_ProcessHMode s
  else if data = 108 then TERM_ProcessLMode s
  else if data = 109 then TERM_ProcessSelectGraphicRendition s
  else if data = 115 then TERM_ProcessSaveCursorPosition s
  else if data = 117 then TERM_ProcessRestoreCursorPosition s
  else s

/-! ## Character ingestion -/

/-- Function `TERM_ProcessEscSeqChar`.  It is only called with an index other
than -1, and the index is then in 0..11, so `toNat` is the index itself. -/
def TERM_ProcessEscSeqChar (s : TERM_terminal_t) (dataIn : Nat) : TERM_terminal_t :=
  if s.escapeSequenceIndex < TERM_MAX_ESCAPE_LENGTH then
    let s1 : TERM_terminal_t :=
      { s with escapeSequence := setAt s.escapeSequence s.escapeSequenceIndex.toNat dataIn }
    let s2 : TERM_terminal_t :=
      if s1.escapeSequenceIndex < TERM_MAX_ESCAPE_LENGTH - 1 then
        { s1 with escapeSequenceIndex := s1.escapeSequenceIndex + 1 }
      else s1
    if (97 ≤ dataIn ∧ dataIn ≤ 122) ∨ (65 ≤ dataIn ∧ dataIn ≤ 90) then
      TERM_ProcessEscapeSequence { s2 with escapeSequenceActive := false } dataIn
    else s2
  else s

/-- Function `TERM_ProcessChar`, the single entry point for incoming bytes. -/
def TERM_ProcessChar (s : TERM_terminal_t) (dataIn : Nat) : TERM_terminal_t :=
  if dataIn = TERMINAL_ESC then
    { s with escapeSequenceActive := true, escapeSequenceIndex := -1 }
  else if s.escapeSequenceActive = false then TERM_ProcessOrdinaryChar s dataIn
  else if s.escapeSequenceIndex = -1 then
    if dataIn = 91 then { s with escapeSequenceIndex := 0 }
    else if dataIn = 99 then TERM_ProcessTerminalReset s
    else { s with escapeSequenceActive := false }
  else TERM_ProcessEscSeqChar s dataIn

/-- The bytes of `bytes` handed to `TERM_ProcessChar` one at a time, in order. -/
def feed (s : TERM_terminal_t) (bytes : List Nat) : TERM_terminal_t :=
  bytes.foldl TERM_ProcessChar s

/-- The terminal states that can arise: `TERM_Init` followed by any calls of
`TERM_ProcessChar` on bytes and of the four public switches. -/
inductive Reachable : TERM_terminal_t → Prop
  | init (tab verticaltab : Nat) (cursorVisible : Bool) (flagPadding : Nat) :
      Reachable (TERM_Init tab verticaltab cursorVisible flagPadding)
  | processChar (s : TERM_terminal_t) (dataIn : Nat) :
      Reachable s → dataIn < 256 → Reachable (TERM_ProcessChar s dataIn)
  | enableWriteThrough (s : TERM_terminal_t) : Reachable s → Reachable (TERM_EnableWriteThrough s)
  | disableWriteThrough (s : TERM_terminal_t) : Reachable s → Reachable (TERM_DisableWriteThrough s)
  | enableVisibleCursor (s : TERM_terminal_t) : Reachable s → Reachable (TERM_EnableVisibleCursor s)
  | disableVisibleCursor (s : TERM_terminal_t) : Reachable s → Reachable (TERM_DisableVisibleCursor s)

/-- Decimal digits (most significant first) as ASCII bytes. -/
def asciiDigits (ds : List Nat) : List Nat := ds.map (fun d => d + 48)

/-- Value of a list of decimal digits, most significant first. -/
def decimalValue (ds : List Nat) : Nat := ds.foldl (fun acc d => acc * 10 + d) 0

/-! ## Invariants used by the proofs -/

/-- The cursor and the saved cursor lie inside the grid. -/
def CursorInv (s : TERM_terminal_t) : Prop :=
  s.currentRow < TERMFONT_LINES_PER_SCREEN ∧ s.currentColumn < TERMFONT_CHARS_PER_LINE ∧
  s.savedRow < TERMFONT_LINES_PER_SCREEN ∧ s.savedColumn < TERMFONT_CHARS_PER_LINE

/-- The row pointer table refers to each of the 8 physical rows once. -/
def RowsPerm (tb : Nat → Nat) : Prop :=
  (∀ r, r < TERMFONT_LINES_PER_SCREEN → tb r < TERMFONT_LINES_PER_SCREEN) ∧
  (∀ r r', r < TERMFONT_LINES_PER_SCREEN → r' < TERMFONT_LINES_PER_SCREEN → tb r = tb r' → r = r')

/-- Well-formed terminal: cursor invariant and distinct row pointers. -/
def TermInv (s : TERM_terminal_t) : Prop :=
  CursorInv s ∧ RowsPerm s.termBuffer

/-- An ASCII letter, the test that ends an escape sequence in
`TERM_ProcessEscSeqChar`. -/
def isLetter (b : Nat) : Prop := (97 ≤ b ∧ b ≤ 122) ∨ (65 ≤ b ∧ b ≤ 90)

instance (b : Nat) : Decidable (isLetter b) := by unfold isLetter; infer_instance

/-- The accumulator after the bytes `bs` have been stored one by one from
index `k` on. -/
def storeBytes (buf : Nat → Nat) (k : Nat) : List Nat → Nat → Nat
  | [] => buf
  | b :: bs => storeBytes (setAt buf k b) (k + 1) bs

/-- The terminal at the moment `TERM_ProcessEscapeSequence` is called for the
sequence `ESC [ body letter` (`body` at most 11 bytes): accumulator filled with
`body` and the letter, escape state ended. -/
def csiState (s : TERM_terminal_t) (body : List Nat) (letter : Nat) : TERM_terminal_t :=
  { s with
    escapeSequence := storeBytes s.escapeSequence 0 (body ++ [letter])
    escapeSequenceIndex := if body.length < 11 then (body.length : Int) + 1 else (body.length : Int)
    escapeSequenceActive := false }

/-- The value `v` limited to the range `lo..hi`. -/
def clamp (v lo hi : Nat) : Nat := if v < lo then lo else if v > hi then hi else v

/-- The physical rows after the characters `chars` have been stored, with
attributes `a`, in consecutive cells of physical row `phys` from `column` on. -/
def writeRun (rows : Nat → Nat → TERM_termbufferdata_t) (phys column : Nat)
    (a : TERM_graphicAttributes_t) : List Nat → Nat → Nat → TERM_termbufferdata_t
  | [] => rows
  | ch :: chs =>
    writeRun (writeCell rows phys column { character := ch, attributes := a }) phys (column + 1) a chs

/-! ## Reads of the escape accumulator -/

/-- The accumulator indices read by the loop test of `TERM_ExtractParameter`
when it is called with `str = pTerminal->escapeSequence + offset`.  The test is
`(*str >= '0') && (*str <= '9') && (digitCount < TERM_MAXPARAMDIGITS)`: `*str`
is read at every evaluation, also at the one that ends the loop, and before
`digitCount` is compared.  `remaining` is `TERM_MAXPARAMDIGITS - digitCount`. -/
def extractReadsLoop (s : TERM_terminal_t) (offset : Nat) : Nat → Nat → List Nat
  | 0, digitCount => [offset + digitCount]
  | remaining + 1, digitCount =>
    (offset + digitCount) ::
      (if 48 ≤ escPtr s offset digitCount ∧ escPtr s offset digitCount ≤ 57 then
        extractReadsLoop s offset remaining (digitCount + 1)
      else [])

/-- The accumulator indices read by one call
`TERM_ExtractParameter(pTerminal->escapeSequence + offset, ..)`. -/
def extractReads (s : TERM_terminal_t) (offset : Nat) : List Nat :=
  extractReadsLoop s offset TERM_MAXPARAMDIGITS 0

/-- The accumulator indices read by the loop of
`TERM_ProcessSelectGraphicRendition`, pass by pass as in `sgrLoop`. -/
def sgrReads : Nat → TERM_terminal_t → Nat → List Nat
  | 0, _, _ => []
  | passes + 1, s, startIndex =>
    let p := TERM_ExtractParameter (escPtr s startIndex) uninitialised
    let s1 := if p.1 > 0 then TERM_ProcessSgrParameter s p.2 else s
    extractReads s startIndex ++
      (if p.1 ≠ 0 then sgrReads passes s1 (startIndex + p.1 + 1) else [])

/-- The accumulator indices read while `TERM_ProcessEscapeSequence` interprets a
sequence: one `TERM_ExtractParameter` call at offset 0 in the handlers of
`A B C D E F G J K h l`, two calls in `TERM_ProcessCursorToPosition` (`H`, `f`),
the loop for `m`, none for `s`, `u` and letters without handler. -/
def escapeSequenceReads (s : TERM_terminal_t) (data : Nat) : List Nat :=
  if data = 65 ∨ data = 66 ∨ data = 67 ∨ data = 68 ∨ data = 69 ∨ data = 70 ∨ data = 71 ∨
      data = 74 ∨ data = 75 ∨ data = 104 ∨ data = 108 then
    extractReads s 0
  else if data = 72 ∨ data = 102 then
    extractReads s 0 ++
      extractReads s ((TERM_ExtractParameter (escPtr s 0) uninitialised).1 + 1)
  else if data = 109 then sgrReads (TERM_MAX_ESCAPE_LENGTH + 1) s 0
  else []

/-- The accumulator indices read while `TERM_ProcessChar` handles one byte: the
reads of the interpreter when the byte is a letter that completes a control
sequence (the call of `TERM_ProcessEscapeSequence` in `TERM_ProcessEscSeqChar`,
made as there with the byte stored, the index advanced and the escape flag
cleared), none otherwise. -/
def processCharReads (s : TERM_terminal_t) (dataIn : Nat) : List Nat :=
  if dataIn = TERMINAL_ESC then []
  else if s.escapeSequenceActive = false then []
  else if s.escapeSequenceIndex = -1 then []
  else if s.escapeSequenceIndex < TERM_MAX_ESCAPE_LENGTH then
    let s1 : TERM_terminal_t :=
      { s with escapeSequence := setAt s.escapeSequence s.escapeSequenceIndex.toNat dataIn }
    let s2 : TERM_terminal_t :=
      if s1.escapeSequenceIndex < TERM_MAX_ESCAPE_LENGTH - 1 then
        { s1 with escapeSequenceIndex := s1.escapeSequenceIndex + 1 }
      else s1
    if (97 ≤ dataIn ∧ dataIn ≤ 122) ∨ (65 ≤ dataIn ∧ dataIn ≤ 90) then
      escapeSequenceReads { s2 with escapeSequenceActive := false } dataIn
    else []
  else []

/-! ## Erase regions, quiet byte strings, display calls -/

/-- The cells that erase-in-display with parameter `p` blanks when the cursor
is at (`row`, `col`): from the cursor to the end, from the start to the cursor,
or all. -/
def edRegion (p row col r c : Nat) : Prop :=
  (p = 0 ∧ (row < r ∨ (r = row ∧ col ≤ c))) ∨ (p = 1 ∧ (r < row ∨ (r = row ∧ c ≤ col))) ∨ p = 2

instance (p row col r c : Nat) : Decidable (edRegion p row col r c) := by
  unfold edRegion; infer_instance

/-- The cells that erase-in-line with parameter `p` blanks when the cursor is at
(`row`, `col`). -/
def elRegion (p row col r c : Nat) : Prop :=
  r = row ∧ ((p = 0 ∧ col ≤ c) ∨ (p = 1 ∧ c ≤ col) ∨ p = 2)

instance (p row col r c : Nat) : Decidable (elRegion p row col r c) := by
  unfold elRegion; infer_instance

/-- Processing byte `dataIn` in state `s` calls
`TERM_ProcessSaveCursorPosition` (the byte `s` completes a control sequence) or
`TERM_ProcessTerminalReset` (the byte `c` right after ESC). -/
def savesOrResets (s : TERM_terminal_t) (dataIn : Nat) : Prop :=
  dataIn ≠ TERMINAL_ESC ∧ s.escapeSequenceActive = true ∧
    ((s.escapeSequenceIndex = -1 ∧ dataIn = 99) ∨
      (s.escapeSequenceIndex ≠ -1 ∧ s.escapeSequenceIndex < TERM_MAX_ESCAPE_LENGTH ∧
        dataIn = 115))

instance (s : TERM_terminal_t) (dataIn : Nat) : Decidable (savesOrResets s dataIn) := by
  unfold savesOrResets; infer_instance

/-- No byte of `bytes`, processed in order from state `s`, saves the cursor or
resets the terminal. -/
def quiet : TERM_terminal_t → List Nat → Prop
  | _, [] => True
  | s, b :: bs => ¬ savesOrResets s b ∧ quiet (TERM_ProcessChar s b) bs

instance quietDecidable : (s : TERM_terminal_t) → (bytes : List Nat) → Decidable (quiet s bytes)
  | _, [] => isTrue trivial
  | s, b :: bs => @instDecidableAnd _ _ inferInstance (quietDecidable (TERM_ProcessChar s b) bs)

/-- Scenario, step 1: `TERM_Init(tab=4, verticaltab=2, cursorVisible=true)` on
memory with the given padding bits, then the byte `A`. -/
def scenarioA (flagPadding : Nat) : TERM_terminal_t :=
  feed (TERM_Init 4 2 true flagPadding) [65]

/-- Scenario, step 2: then `ESC [ 2 J`. -/
def scenarioErased (flagPadding : Nat) : TERM_terminal_t :=
  feed (scenarioA flagPadding) [27, 91, 50, 74]

/-- Scenario, step 3: then `ESC [ 1 ; 1 H`. -/
def scenarioHome (flagPadding : Nat) : TERM_terminal_t :=
  feed (scenarioErased flagPadding) [27, 91, 49, 59, 49, 72]

/-- Scenario, step 4: then `ESC [ 4 m` and the byte `B`. -/
def scenarioB (flagPadding : Nat) : TERM_terminal_t :=
  feed (scenarioHome flagPadding) [27, 91, 52, 109, 66]

/-- A call into the display driver.  The terminal library flips the cursor with
`TERMFONT_FlipCursor(page, column)`. -/
inductive DisplayOp where
  | flipCursor (page column : Nat)
deriving DecidableEq, Repr

/-- The display calls of `TERM_DisplayCursor`.  The macros `LCD_ROW2PAGE` and
`TERMFONT_CHAR_WIDTH` are not among the sources and are parameters here; the
arguments are `uint8_t`. -/
def displayCursorOps (row2page : Nat → Nat) (charWidth : Nat) (s : TERM_terminal_t) :
    List DisplayOp :=
  if s.cursorVisible = true ∧ s.directLCDUpdate = true then
    [DisplayOp.flipCursor (row2page s.currentRow % 256) (s.currentColumn * charWidth % 256)]
  else []

/-- The display calls of `TERM_EnableWriteThrough`: `TERM_DisplayCursor` after
the flag has been set, nothing when write-through was already on. -/
def enableWriteThroughOps (row2page : Nat → Nat) (charWidth : Nat) (s : TERM_terminal_t) :
    List DisplayOp :=
  if s.directLCDUpdate = false then
    displayCursorOps row2page charWidth { s with directLCDUpdate := true }
  else []

/-! ## Rotated row tables, the digit test, agreement up to the display flags -/

/-- The row pointer table is the identity table of `TERM_Init` rotated by `k`
places: logical row `r` is physical row `(r + k) mod 8`. -/
def Rotation (tb : Nat → Nat) : Prop :=
  ∃ k, k < TERMFONT_LINES_PER_SCREEN ∧
    ∀ r, r < TERMFONT_LINES_PER_SCREEN → tb r = (r + k) % TERMFONT_LINES_PER_SCREEN

/-- The test for an ASCII digit '0'..'9'. -/
def isAsciiDigit (b : Nat) : Bool := decide (48 ≤ b ∧ b ≤ 57)

/-- Two terminals agree on every field except `directLCDUpdate` and
`cursorVisible`. -/
def agreeExceptDisplayFlags (s t : TERM_terminal_t) : Prop :=
  s.termBufferRows = t.termBufferRows ∧ s.termBuffer = t.termBuffer ∧
  s.currentAttributes = t.currentAttributes ∧ s.escapeSequence = t.escapeSequence ∧
  s.escapeSequenceIndex = t.escapeSequenceIndex ∧
  s.escapeSequenceActive = t.escapeSequenceActive ∧ s.disableLineWrap = t.disableLineWrap ∧
  s.savedRow = t.savedRow ∧ s.savedColumn = t.savedColumn ∧ s.currentRow = t.currentRow ∧
  s.currentColumn = t.currentColumn ∧ s.tabstepsize = t.tabstepsize ∧
  s.verticaltabstepsize = t.verticaltabstepsize ∧ s.flagPadding = t.flagPadding

/-- The bytes at offsets 12, 14 and 15 are no digits: the index byte, the saved
row and the saved column of a terminal whose index is in 0..11 and whose saved
cursor is inside the grid. -/
def NoDigitBehind (s : TERM_terminal_t) : Prop :=
  0 ≤ s.escapeSequenceIndex ∧ s.escapeSequenceIndex ≤ 11 ∧ s.savedRow < 8 ∧ s.savedColumn < 21

end Terminal

/-! ## The FIFO library (fifo_lib) -/

namespace Fifo

/-- The FIFO control block `FIFO_handle_struct` of `fifo_lib.h`, together with
the memory that its four buffer pointers point into.  A pointer is an address
(`Nat`), `memory` gives the byte stored at an address, a callback pointer is
`none` for `NULL` and `some f` for the function at address `f`.  `FIFO_size_t`
and `FIFO_data_t` are `uint8_t`: the counters are reduced modulo 256 where they
are incremented and decremented. -/
structure FIFO_handle_t where
  memory : Nat → Nat
  bufferStart : Nat
  bufferEnd : Nat
  head : Nat
  tail : Nat
  itemsFree : Nat
  itemsUsed : Nat
  ProducerCallback : Option Nat
  ConsumerCallback : Option Nat

/-- The store `*address = data`. -/
def store (memory : Nat → Nat) (address data : Nat) : Nat → Nat :=
  fun a => if a = address then data else memory a

/-- Function `FIFO_Init`: every field of the control block is assigned; `memory`
is the memory the buffer lies in, `buffer` its address, `size` its size. -/
def FIFO_Init (memory : Nat → Nat) (buffer size : Nat) : FIFO_handle_t :=
  { memory := memory
    bufferStart := buffer
    bufferEnd := buffer + size - 1
    head := buffer
    tail := buffer + size - 1
    itemsFree := size
    itemsUsed := 0
    ProducerCallback := none
    ConsumerCallback := none }

/-- Function `FIFO_RegisterProducer`. -/
def FIFO_RegisterProducer (handle : FIFO_handle_t) (ProducerCallback : Option Nat) :
    FIFO_handle_t :=
  { handle with ProducerCallback := ProducerCallback }

/-- Function `FIFO_RegisterConsumer`. -/
def FIFO_RegisterConsumer (handle : FIFO_handle_t) (ConsumerCallback : Option Nat) :
    FIFO_handle_t :=
  { handle with ConsumerCallback := ConsumerCallback }

/-- Function `FIFO_InternalPutData`.  `code f` is what a call of the function at
address `f` does to the control block it is handed (`none`: the call does not
return).  The result is `none` when the function does not return: no interrupt
handler runs in this sequential embedding, so the wait
`do {} while (handle->itemsFree == 0)` only ends when it is not entered with a
full FIFO. -/
def FIFO_InternalPutData (code : Nat → FIFO_handle_t → Option FIFO_handle_t)
    (handle : FIFO_handle_t) (data : Nat) : Option FIFO_handle_t :=
  if handle.itemsFree = 0 then none
  else
    let h1 : FIFO_handle_t := { handle with memory := store handle.memory handle.head data }
    let bufferEnd := h1.bufferEnd
    let h2 : FIFO_handle_t :=
      if h1.head = bufferEnd then { h1 with head := h1.bufferStart }
      else { h1 with head := h1.head + 1 }
    let shouldCallConsumer : Bool := decide (h2.itemsUsed = 0)
    let h3 : FIFO_handle_t :=
      { h2 with itemsFree := (h2.itemsFree + 255) % 256, itemsUsed := (h2.itemsUsed + 1) % 256 }
    if shouldCallConsumer = true then
      match h3.ConsumerCallback with
      | some f => code f h3
      | none => some h3
    else some h3

/-- Function `FIFO_InternalGetData`: returns the byte and the control block, or
`none` when the function does not return (entered with an empty FIFO, or the
producer callback does not return).  The byte is read through `tail` after the
producer callback has run. -/
def FIFO_InternalGetData (code : Nat → FIFO_handle_t → Option FIFO_handle_t)
    (handle : FIFO_handle_t) : Option (Nat × FIFO_handle_t) :=
  if handle.itemsUsed = 0 then none
  else
    let bufferEnd := handle.bufferEnd
    let h1 : FIFO_handle_t :=
      if handle.tail = bufferEnd then { handle with tail := handle.bufferStart }
      else { handle with tail := handle.tail + 1 }
    let shouldCallProducer : Bool := decide (h1.itemsFree = 0)
    let h2 : FIFO_handle_t :=
      { h1 with itemsFree := (h1.itemsFree + 1) % 256, itemsUsed := (h1.itemsUsed + 255) % 256 }
    let afterCallback : Option FIFO_handle_t :=
      if shouldCallProducer = true then
        match h2.ProducerCallback with
        | some f => code f h2
        | none => some h2
      else some h2
    match afterCallback with
    | some h3 => some (h3.memory h3.tail, h3)
    | none => none

/-- Function `FIFO_PutUint8`; the cast from `uint8_t` to `FIFO_data_t` changes
nothing. -/
def FIFO_PutUint8 (code : Nat → FIFO_handle_t → Option FIFO_handle_t)
    (handle : FIFO_handle_t) (data : Nat) : Option FIFO_handle_t :=
  FIFO_InternalPutData code handle data

/-- Function `FIFO_GetUint8`; the cast to `uint8_t` and the shift by 0 bits change
nothing. -/
def FIFO_GetUint8 (code : Nat → FIFO_handle_t → Option FIFO_handle_t)
    (handle : FIFO_handle_t) : Option (Nat × FIFO_handle_t) :=
  FIFO_InternalGetData code handle

/-- A single-byte operation on a FIFO. -/
inductive FifoOp where
  | put (data : Nat)
  | get
  deriving DecidableEq, Repr

/-- One operation on the FIFO: the control block afterwards and the byte a get
returned. -/
def fifoStep (code : Nat → FIFO_handle_t → Option FIFO_handle_t) (handle : FIFO_handle_t) :
    FifoOp → Option (FIFO_handle_t × Option Nat)
  | FifoOp.put data =>
    match FIFO_PutUint8 code handle data with
    | some h => some (h, none)
    | none => none
  | FifoOp.get =>
    match FIFO_GetUint8 code handle with
    | some r => some (r.2, some r.1)
    | none => none

/-- A sequence of operations run in order: the control block at the end and
the bytes the gets returned, in order. -/
def fifoRun (code : Nat → FIFO_handle_t → Option FIFO_handle_t) :
    FIFO_handle_t → List FifoOp → Option (FIFO_handle_t × List Nat)
  | handle, [] => some (handle, [])
  | handle, op :: ops =>
    match fifoStep code handle op with
    | none => none
    | some (h, out) =>
      match fifoRun code h ops with
      | none => none
      | some (h', outs) => some (h', out.toList ++ outs)

/-- The precondition on a sequence of operations: a put is only issued when
`itemsFree > 0`, a get only when `itemsUsed > 0`.  It constrains the
operations that are issued; after an operation that does not return none is. -/
def admissible (code : Nat → FIFO_handle_t → Option FIFO_handle_t) :
    FIFO_handle_t → List FifoOp → Bool
  | _, [] => true
  | handle, op :: ops =>
    (match op with
      | FifoOp.put _ => decide (0 < handle.itemsFree)
      | FifoOp.get => decide (0 < handle.itemsUsed)) &&
    (match fifoStep code handle op with
      | none => true
      | some (h, _) => admissible code h ops)

/-- The abstract queue of capacity `n` that the FIFO is compared with: a put
appends at the back when there is room, a get removes the front element. -/
def queueStep (n : Nat) (queue : List Nat) : FifoOp → Option (List Nat × Option Nat)
  | FifoOp.put data => if queue.length < n then some (queue ++ [data], none) else none
  | FifoOp.get =>
    match queue with
    | [] => none
    | x :: rest => some (rest, some x)

/-- A sequence of operations on the abstract queue: the queue at the end and
the elements the gets returned, in order. -/
def queueRun (n : Nat) : List Nat → List FifoOp → Option (List Nat × List Nat)
  | queue, [] => some (queue, [])
  | queue, op :: ops =>
    match queueStep n queue op with
    | none => none
    | some (q, out) =>
      match queueRun n q ops with
      | none => none
      | some (q', outs) => some (q', out.toList ++ outs)

/-- The bytes put by a sequence of operations, in order. -/
def putsOf : List FifoOp → List Nat
  | [] => []
  | FifoOp.put data :: ops => data :: putsOf ops
  | FifoOp.get :: ops => putsOf ops

/-- A program in which every callback inserts the byte `data` with
`FIFO_PutUint8` into the FIFO it is called with.  The insertion is made with
no callback of its own to call: in the scenarios it is used in,
`ConsumerCallback` is `NULL`. -/
def insertingProducer (data : Nat) : Nat → FIFO_handle_t → Option FIFO_handle_t :=
  fun _ handle => FIFO_PutUint8 (fun _ _ => none) handle data

/-- The FIFO `handle` holds the queue `queue`: a buffer of `n` bytes at `base`,
no callbacks, the counters are the queue length and the room left, and the
queue elements lie behind `tail` in order, wrapping at the end of the buffer,
with `head` behind the last of them. -/
def FifoInv (n base : Nat) (handle : FIFO_handle_t) (queue : List Nat) : Prop :=
  handle.bufferStart = base ∧ handle.bufferEnd = base + n - 1 ∧
  handle.ProducerCallback = none ∧ handle.ConsumerCallback = none ∧
  handle.itemsUsed = queue.length ∧ handle.itemsFree + queue.length = n ∧
  ∃ t, t < n ∧ handle.tail = base + t ∧ handle.head = base + (t + 1 + queue.length) % n ∧
    ∀ i, i < queue.length → handle.memory (base + (t + 1 + i) % n) = queue.getD i 0

end Fifo

/-! ## The joystick driver (joystick_driver) -/

namespace Joystick

/-- The structure `JOYSTICK_event_t` of `joystick_driver.h`: five `uint8_t` bit masks. -/
structure JOYSTICK_event_t where
  state : Nat
  clicked : Nat
  released : Nat
  held : Nat
  dclick : Nat
  deriving DecidableEq, Repr

/-- The variables of `joystick_driver.c`: the five private variables of the
file and the three `static` locals of `JOYSTICK_PollingHandler`.  The event
handler pointer is `none` for `NULL`; the two countdown arrays are functions of
the index. -/
structure JOYSTICK_driver_t where
  JOYSTICK_currentState : Nat
  JOYSTICK_currentHoldState : Nat
  JOYSTICK_pressAndHoldDelay : Nat
  JOYSTICK_doubleClickDelay : Nat
  JOYSTICK_EventHandler : Option Nat
  lastSample : Nat
  pressAndHoldCountdown : Nat → Nat
  doubleClickCountdown : Nat → Nat

/-- The initialisers of the variables: everything 0, no event handler. -/
def powerOn : JOYSTICK_driver_t :=
  { JOYSTICK_currentState := 0
    JOYSTICK_currentHoldState := 0
    JOYSTICK_pressAndHoldDelay := 0
    JOYSTICK_doubleClickDelay := 0
    JOYSTICK_EventHandler := none
    lastSample := 0
    pressAndHoldCountdown := fun _ => 0
    doubleClickCountdown := fun _ => 0 }

/-- Function `JOYSTICK_Init`, without the pin and interrupt set-up. -/
def JOYSTICK_Init (d : JOYSTICK_driver_t) (pressAndHoldDelay doubleClickDelay : Nat) :
    JOYSTICK_driver_t :=
  { d with
    JOYSTICK_pressAndHoldDelay := pressAndHoldDelay
    JOYSTICK_doubleClickDelay := doubleClickDelay }

/-- Function `JOYSTICK_SetEventHandler`. -/
def JOYSTICK_SetEventHandler (d : JOYSTICK_driver_t) (eventHandler : Option Nat) :
    JOYSTICK_driver_t :=
  { d with JOYSTICK_EventHandler := eventHandler }

/-- Function `JOYSTICK_ReleaseEventHandler`. -/
def JOYSTICK_ReleaseEventHandler (d : JOYSTICK_driver_t) : JOYSTICK_driver_t :=
  { d with JOYSTICK_EventHandler := none }

/-- Function `JOYSTICK_GetState`. -/
def JOYSTICK_GetState (d : JOYSTICK_driver_t) : Nat := d.JOYSTICK_currentState

/-- The assignment `array[i] = v`. -/
def assign (array : Nat → Nat) (i v : Nat) : Nat → Nat :=
  fun j => if j = i then v else array j

/-- The variables that the `for` loop of `JOYSTICK_PollingHandler` writes. -/
structure PollLoop where
  pressAndHoldCountdown : Nat → Nat
  doubleClickCountdown : Nat → Nat
  pressAndHoldMask : Nat
  doubleClickMask : Nat
  buttonMask : Nat

/-- The body of the `for` loop of `JOYSTICK_PollingHandler` for button bit `i`. -/
def pollButton (pressAndHoldDelay doubleClickDelay clickedButtons stillPressed i : Nat)
    (v : PollLoop) : PollLoop :=
  let v1 : PollLoop :=
    if v.doubleClickCountdown i > 0 then
      { v with doubleClickCountdown := assign v.doubleClickCountdown i (v.doubleClickCountdown i - 1) }
    else v
  let v2 : PollLoop :=
    if clickedButtons &&& v1.buttonMask ≠ 0 then
      let a : PollLoop :=
        { v1 with pressAndHoldCountdown := assign v1.pressAndHoldCountdown i pressAndHoldDelay }
      let b : PollLoop :=
        if a.doubleClickCountdown i > 0 then
          { a with doubleClickMask := a.doubleClickMask ||| a.buttonMask }
        else a
      { b with doubleClickCountdown := assign b.doubleClickCountdown i doubleClickDelay }
    else v1
  let v3 : PollLoop :=
    if stillPressed &&& v2.buttonMask ≠ 0 then
      if v2.pressAndHoldCountdown i > 0 then
        let a : PollLoop :=
          { v2 with
            pressAndHoldCountdown := assign v2.pressAndHoldCountdown i (v2.pressAndHoldCountdown i - 1) }
        if a.pressAndHoldCountdown i = 0 then
          { a with pressAndHoldMask := a.pressAndHoldMask ||| a.buttonMask }
        else a
      else v2
    else v2
  { v3 with buttonMask := (v3.buttonMask * 2) % 256 }

/-- The loop `for (uint8_t i = 0; i < 8; ++i)`, at index `i` with `remaining`
passes to go. -/
def pollButtons (pressAndHoldDelay doubleClickDelay clickedButtons stillPressed : Nat) :
    Nat → Nat → PollLoop → PollLoop
  | _, 0, v => v
  | i, remaining + 1, v =>
    pollButtons pressAndHoldDelay doubleClickDelay clickedButtons stillPressed (i + 1) remaining
      (pollButton pressAndHoldDelay doubleClickDelay clickedButtons stillPressed i v)

/-- Function `JOYSTICK_PollingHandler`.  The input `newState` is the masked sample
that the function reads at its start (`~JOYSTICK_PIN_REG` and the five joystick
bits); the result is the driver variables afterwards and the event passed to
the registered handler, if the handler is called.  `~x & y` on bytes is
`(255 ^^^ x) &&& y`. -/
def JOYSTICK_PollingHandler (d : JOYSTICK_driver_t) (newState : Nat) :
    JOYSTICK_driver_t × Option JOYSTICK_event_t :=
  if newState ≠ d.lastSample then ({ d with lastSample := newState }, none)
  else
    let changedButtons := d.JOYSTICK_currentState ^^^ newState
    let clickedButtons := changedButtons &&& newState
    let releasedButtons := changedButtons &&& d.JOYSTICK_currentState
    let stillPressed := (255 ^^^ changedButtons) &&& newState
    let v := pollButtons d.JOYSTICK_pressAndHoldDelay d.JOYSTICK_doubleClickDelay clickedButtons
      stillPressed 0 8
      { pressAndHoldCountdown := d.pressAndHoldCountdown
        doubleClickCountdown := d.doubleClickCountdown
        pressAndHoldMask := 0
        doubleClickMask := 0
        buttonMask := 1 }
    let d1 : JOYSTICK_driver_t :=
      { d with
        pressAndHoldCountdown := v.pressAndHoldCountdown
        doubleClickCountdown := v.doubleClickCountdown
        JOYSTICK_currentHoldState :=
          (d.JOYSTICK_currentHoldState ||| v.pressAndHoldMask) &&& (255 ^^^ releasedButtons)
        JOYSTICK_currentState := newState }
    if d1.JOYSTICK_EventHandler ≠ none ∧
        (changedButtons ||| v.pressAndHoldMask ||| v.doubleClickMask) ≠ 0 then
      (d1, some
        { state := newState
          clicked := clickedButtons
          released := releasedButtons
          held := v.pressAndHoldMask
          dclick := v.doubleClickMask })
    else (d1, none)

/-- What the application and the timer do with the driver, one call at a time. -/
inductive JoystickCall where
  | poll (sample : Nat)
  | init (pressAndHoldDelay doubleClickDelay : Nat)
  | setEventHandler (eventHandler : Option Nat)
  | releaseEventHandler
  deriving DecidableEq, Repr

/-- The driver variables after one call. -/
def call (d : JOYSTICK_driver_t) : JoystickCall → JOYSTICK_driver_t
  | JoystickCall.poll sample => (JOYSTICK_PollingHandler d sample).1
  | JoystickCall.init pressAndHoldDelay doubleClickDelay =>
    JOYSTICK_Init d pressAndHoldDelay doubleClickDelay
  | JoystickCall.setEventHandler eventHandler => JOYSTICK_SetEventHandler d eventHandler
  | JoystickCall.releaseEventHandler => JOYSTICK_ReleaseEventHandler d

/-- The driver variables after a sequence of calls. -/
def calls (d : JOYSTICK_driver_t) (cs : List JoystickCall) : JOYSTICK_driver_t :=
  cs.foldl call d

/-- The sample of the last `JOYSTICK_PollingHandler` call of a sequence of
calls, `previous` when there is none. -/
def lastPolled (previous : Nat) (cs : List JoystickCall) : Nat :=
  cs.foldl (fun p c => match c with
    | JoystickCall.poll sample => sample
    | _ => p) previous

end Joystick

/-! ## The forms engine (forms_lib) -/

namespace Forms

/-- The structure `FORMS_element_struct` of `forms_lib.h`, without the caption, the
custom data and the traits pointer.  The links `prev` and `next` are the
position of the element in the list `FORMS_form_t.elements`. -/
structure FORMS_element_t where
  startPage : Nat
  height : Nat
  focusedPage : Nat
  isActive : Bool
  hasFocus : Bool
  deriving DecidableEq, Repr

/-- The structure `FORMS_form_struct` of `forms_lib.h`.  The doubly linked list
(`firstElement`, `lastElement`, the links of the elements, `elementCount`) is
the list `elements`, first element first; the pointer `focusedElement` is an
index into that list, `none` for no focus. -/
structure FORMS_form_t where
  focusedElement : Option Nat
  firstVisiblePage : Nat
  height : Nat
  useScrollbar : Bool
  needsRecalculation : Bool
  isScrolling : Bool
  elements : List FORMS_element_t
  deriving DecidableEq, Repr

/-- Modelled from the spec: `FORMS_Init` (`forms_lib.c` is not among the sources).
"`Init(useScrollbar)`: empty element list, no focus, scroll offset 0." -/
def FORMS_Init (useScrollbar : Bool) : FORMS_form_t :=
  { focusedElement := none
    firstVisiblePage := 0
    height := 0
    useScrollbar := useScrollbar
    needsRecalculation := false
    isScrolling := false
    elements := [] }

/-- Modelled from the spec: `FORMS_InitElement` (`forms_lib.c` is not among the
sources).  "Prepares a detached element; does not touch any form." -/
def FORMS_InitElement (height focusedPage : Nat) (isActive : Bool) : FORMS_element_t :=
  { startPage := 0
    height := height
    focusedPage := focusedPage
    isActive := isActive
    hasFocus := false }

/-- Modelled from the spec: the `hasFocus` flags of the elements from list
position `k` on, when the element at position `focus` is the focused one ("at
most one element has `hasFocus = true` at a time"). -/
def markFocus : List FORMS_element_t → Nat → Option Nat → List FORMS_element_t
  | [], _, _ => []
  | e :: rest, k, focus =>
    { e with hasFocus := decide (focus = some k) } :: markFocus rest (k + 1) focus

/-- Modelled from the spec: `FORMS_AddBottomElement` (`forms_lib.c` is not among
the sources).  "Insert at head/tail of the form's list; triggers
`needsRecalculation`; if this is the first active element added, it becomes
focused automatically." -/
def FORMS_AddBottomElement (form : FORMS_form_t) (newElement : FORMS_element_t) :
    FORMS_form_t :=
  let focus :=
    if form.focusedElement = none ∧ newElement.isActive = true then some form.elements.length
    else form.focusedElement
  { form with
    elements := markFocus (form.elements ++ [newElement]) 0 focus
    focusedElement := focus
    needsRecalculation := true }

/-- Modelled from the spec: the position of the first active element among
`elements`, whose first element is at list position `k` ("skipping inactive
elements"). -/
def firstActiveFrom : List FORMS_element_t → Nat → Option Nat
  | [], _ => none
  | e :: rest, k => if e.isActive = true then some k else firstActiveFrom rest (k + 1)

/-- Modelled from the spec: `FORMS_NavigateDown` (`forms_lib.c` is not among the
sources).  "`NavigateUp`/`NavigateDown` → Focused(adjacent active element),
wrapping is not performed (navigation stops at the first/last active element,
further presses trigger pure scrolling instead of focus change)."  The spec
does not give the scroll distance; the model records the scrolling mode in
`isScrolling` and leaves `firstVisiblePage` as it is. -/
def FORMS_NavigateDown (form : FORMS_form_t) : FORMS_form_t :=
  match form.focusedElement with
  | none => form
  | some i =>
    match firstActiveFrom (form.elements.drop (i + 1)) (i + 1) with
    | some j =>
      { form with
        focusedElement := some j
        elements := markFocus form.elements 0 (some j)
        isScrolling := false }
    | none => { form with isScrolling := true }

/-- The form of the navigation scenario: `FORMS_Init`, then three active elements
of height 1 (with focused pages `p1`, `p2`, `p3`) appended one after the other
with `FORMS_AddBottomElement`. -/
def threeElementForm (useScrollbar : Bool) (p1 p2 p3 : Nat) : FORMS_form_t :=
  FORMS_AddBottomElement
    (FORMS_AddBottomElement
      (FORMS_AddBottomElement (FORMS_Init useScrollbar) (FORMS_InitElement 1 p1 true))
      (FORMS_InitElement 1 p2 true))
    (FORMS_InitElement 1 p3 true)

end Forms

namespace Terminal

/-! ## Basic facts about the loops -/

theorem setAt_apply {α : Type} (a : Nat → α) (i : Nat) (v : α) (j : Nat) :
    setAt a i v j = if j = i then v else a j := rfl

theorem writeCell_apply (rows : Nat → Nat → TERM_termbufferdata_t) (phys column : Nat)
    (v : TERM_termbufferdata_t) (r c : Nat) :
    writeCell rows phys column v r c = if r = phys ∧ c = column then v else rows r c := rfl

/-- Closed form of a clearing loop: exactly the `count` cells from `column` on in
physical row `phys` become blank. -/
theorem clearCells_apply (count : Nat) :
    ∀ (rows : Nat → Nat → TERM_termbufferdata_t) (phys column r c : Nat),
      clearCells rows phys column count r c =
        if r = phys ∧ column ≤ c ∧ c < column + count then blankCell else rows r c := by
  induction count with
  | zero =>
    intro rows phys column r c
    have h : ¬ (r = phys ∧ column ≤ c ∧ c < column + 0) := by omega
    rw [if_neg h]
    rfl
  | succ n ih =>
    intro rows phys column r c
    rw [clearCells, ih, writeCell_apply]
    by_cases h1 : r = phys
    · by_cases h2 : c = column
      · subst h1; subst h2; simp
      · have e1 : (column + 1 ≤ c ∧ c < column + 1 + n) ↔ (column ≤ c ∧ c < column + (n + 1)) := by
          omega
        simp [h1, h2, e1]
    · simp [h1]

/-- Closed form of the row cycling loop started at index 0. -/
theorem cycleRows_apply (n : Nat) :
    ∀ (tb : Nat → Nat) (start j : Nat),
      cycleRows tb start n j = if start ≤ j ∧ j < start + n then tb (j + 1) else tb j := by
  induction n with
  | zero =>
    intro tb start j
    have h : ¬ (start ≤ j ∧ j < start + 0) := by omega
    rw [if_neg h]
    rfl
  | succ n ih =>
    intro tb start j
    rw [cycleRows, ih]
    simp only [setAt_apply]
    by_cases h1 : j = start
    · subst h1
      simp
    · by_cases h2 : start + 1 ≤ j ∧ j < start + 1 + n
      · have h3 : start ≤ j ∧ j < start + (n + 1) := by omega
        have h4 : j + 1 ≠ start := by omega
        simp [h2, h3, h4]
      · have h3 : ¬ (start ≤ j ∧ j < start + (n + 1)) := by omega
        simp [h2, h3, h1]

/-- Row pointers after a scroll: every row takes the pointer of the row below,
the last row takes the pointer of the former first row. -/
theorem scroll_termBuffer (s : TERM_terminal_t) (j : Nat) :
    (TERM_ScrollTerminalOneLine s).termBuffer j =
      if j < 7 then s.termBuffer (j + 1) else if j = 7 then s.termBuffer 0 else s.termBuffer j := by
  simp only [TERM_ScrollTerminalOneLine, TERMFONT_LINES_PER_SCREEN, setAt_apply, cycleRows_apply]
  by_cases h : j = 7
  · simp [h]
  · by_cases h2 : j < 7
    · simp [h, h2]
    · simp [h, h2]

theorem scroll_rowsPerm (s : TERM_terminal_t) (h : RowsPerm s.termBuffer) :
    RowsPerm (TERM_ScrollTerminalOneLine s).termBuffer := by
  obtain ⟨hr, hi⟩ := h
  simp only [TERMFONT_LINES_PER_SCREEN] at hr hi
  constructor
  · intro r hr8
    simp only [TERMFONT_LINES_PER_SCREEN] at hr8 ⊢
    rw [scroll_termBuffer]
    split_ifs
    · exact hr _ (by omega)
    · exact hr _ (by omega)
    · omega
  · intro r r' hr8 hr8' heq
    simp only [TERMFONT_LINES_PER_SCREEN] at hr8 hr8'
    rw [scroll_termBuffer, scroll_termBuffer] at heq
    split_ifs at heq with a b c d e f
    · have := hi _ _ (by omega) (by omega) heq; omega
    · have := hi _ _ (by omega) (by omega) heq; omega
    · omega
    · have := hi _ _ (by omega) (by omega) heq; omega
    · omega
    · omega
    · omega
    · omega
    · omega

/-! ## Frame facts for the escape handlers -/

theorem sgrParameter_frame (s : TERM_terminal_t) (parameter : Nat) :
    TERM_ProcessSgrParameter s parameter =
      { s with currentAttributes := (TERM_ProcessSgrParameter s parameter).currentAttributes } := by
  unfold TERM_ProcessSgrParameter
  split_ifs <;> rfl

/-- The SGR loop writes no field other than `currentAttributes`. -/
theorem sgrLoop_frame (passes : Nat) :
    ∀ (s : TERM_terminal_t) (startIndex : Nat),
      sgrLoop passes s startIndex =
        { s with currentAttributes := (sgrLoop passes s startIndex).currentAttributes } := by
  induction passes with
  | zero => intro s startIndex; rfl
  | succ n ih =>
    intro s startIndex
    simp only [sgrLoop]
    split_ifs with h1 h2
    · rw [ih]
      rw [sgrParameter_frame]
    · exact absurd (Nat.pos_of_ne_zero h1) h2
    · omega
    · rfl

theorem sgr_frame (s : TERM_terminal_t) :
    TERM_ProcessSelectGraphicRendition s =
      { s with currentAttributes := (TERM_ProcessSelectGraphicRendition s).currentAttributes } :=
  sgrLoop_frame _ s 0

theorem clearPartOfScreen_frame (s : TERM_terminal_t) :
    TERM_ProcessClearPartOfScreen s =
      { s with termBufferRows := (TERM_ProcessClearPartOfScreen s).termBufferRows } := by
  unfold TERM_ProcessClearPartOfScreen
  simp only []
  split_ifs <;> rfl

theorem clearPartOfLine_frame (s : TERM_terminal_t) :
    TERM_ProcessClearPartOfLine s =
      { s with termBufferRows := (TERM_ProcessClearPartOfLine s).termBufferRows } := by
  unfold TERM_ProcessClearPartOfLine
  simp only []
  split_ifs <;> rfl

theorem hMode_frame (s : TERM_terminal_t) :
    TERM_ProcessHMode s = { s with disableLineWrap := (TERM_ProcessHMode s).disableLineWrap } := by
  unfold TERM_ProcessHMode
  simp only []
  split_ifs <;> rfl

theorem lMode_frame (s : TERM_terminal_t) :
    TERM_ProcessLMode s = { s with disableLineWrap := (TERM_ProcessLMode s).disableLineWrap } := by
  unfold TERM_ProcessLMode
  simp only []
  split_ifs <;> rfl

theorem cursorToColumn_frame (s : TERM_terminal_t) :
    TERM_ProcessCursorToColumn s =
      { s with currentColumn := (TERM_ProcessCursorToColumn s).currentColumn } := by
  unfold TERM_ProcessCursorToColumn
  simp only []
  split_ifs <;> rfl

theorem cursorUp_row_le (s : TERM_terminal_t) :
    (TERM_ProcessCursorUp s).currentRow ≤ s.currentRow := by
  simp only [TERM_ProcessCursorUp]
  omega

theorem cursorLeft_column_le (s : TERM_terminal_t) :
    (TERM_ProcessCursorLeft s).currentColumn ≤ s.currentColumn := by
  simp only [TERM_ProcessCursorLeft]
  omega

theorem cursorDown_row_lt (s : TERM_terminal_t) (h : s.currentRow < 8) :
    (TERM_ProcessCursorDown s).currentRow < 8 := by
  simp only [TERM_ProcessCursorDown, TERMFONT_LINES_PER_SCREEN]
  split_ifs <;> omega

theorem cursorRight_column_lt (s : TERM_terminal_t) (h : s.currentColumn < 21) :
    (TERM_ProcessCursorRight s).currentColumn < 21 := by
  simp only [TERM_ProcessCursorRight, TERMFONT_CHARS_PER_LINE]
  split_ifs <;> omega

theorem cursorToColumn_column_lt (s : TERM_terminal_t) (h : s.currentColumn < 21) :
    (TERM_ProcessCursorToColumn s).currentColumn < 21 := by
  simp only [TERM_ProcessCursorToColumn, TERMFONT_CHARS_PER_LINE]
  split_ifs <;> first | omega | (simp only []; omega)

theorem cursorToPosition_bounds (s : TERM_terminal_t) :
    (TERM_ProcessCursorToPosition s).currentRow < 8 ∧
      (TERM_ProcessCursorToPosition s).currentColumn < 21 := by
  simp only [TERM_ProcessCursorToPosition, TERMFONT_CHARS_PER_LINE, TERMFONT_LINES_PER_SCREEN]
  constructor <;> split_ifs <;> omega

/-- Case principle for the dispatch on the terminating letter. -/
theorem escapeSequence_cases (P : TERM_terminal_t → Prop) (s : TERM_terminal_t) (data : Nat)
    (hA : P (TERM_ProcessCursorUp s)) (hB : P (TERM_ProcessCursorDown s))
    (hC : P (TERM_ProcessCursorRight s)) (hD : P (TERM_ProcessCursorLeft s))
    (hE : P (TERM_ProcessCursorNextLine s)) (hF : P (TERM_ProcessCursorPreviousLine s))
    (hG : P (TERM_ProcessCursorToColumn s)) (hH : P (TERM_ProcessCursorToPosition s))
    (hJ : P (TERM_ProcessClearPartOfScreen s)) (hK : P (TERM_ProcessClearPartOfLine s))
    (hh : P (TERM_ProcessHMode s)) (hl : P (TERM_ProcessLMode s))
    (hm : P (TERM_ProcessSelectGraphicRendition s))
    (hs : P (TERM_ProcessSaveCursorPosition s)) (hu : P (TERM_ProcessRestoreCursorPosition s))
    (h0 : P s) : P (TERM_ProcessEscapeSequence s data) := by
  unfold TERM_ProcessEscapeSequence
  by_cases c1 : data = 65
  · rw [if_pos c1]; exact hA
  rw [if_neg c1]
  by_cases c2 : data = 66
  · rw [if_pos c2]; exact hB
  rw [if_neg c2]
  by_cases c3 : data = 67
  · rw [if_pos c3]; exact hC
  rw [if_neg c3]
  by_cases c4 : data = 68
  · rw [if_pos c4]; exact hD
  rw [if_neg c4]
  by_cases c5 : data = 69
  · rw [if_pos c5]; exact hE
  rw [if_neg c5]
  by_cases c6 : data = 70
  · rw [if_pos c6]; exact hF
  rw [if_neg c6]
  by_cases c7 : data = 71
  · rw [if_pos c7]; exact hG
  rw [if_neg c7]
  by_cases c8 : data = 72
  · rw [if_pos c8]; exact hH
  rw [if_neg c8]
  by_cases c9 : data = 74
  · rw [if_pos c9]; exact hJ
  rw [if_neg c9]
  by_cases c10 : data = 75
  · rw [if_pos c10]; exact hK
  rw [if_neg c10]
  by_cases c11 : data = 102
  · rw [if_pos c11]; exact hH
  rw [if_neg c11]
  by_cases c12 : data = 104
  · rw [if_pos c12]; exact hh
  rw [if_neg c12]
  by_cases c13 : data = 108
  · rw [if_pos c13]; exact hl
  rw [if_neg c13]
  by_cases c14 : data = 109
  · rw [if_pos c14]; exact hm
  rw [if_neg c14]
  by_cases c15 : data = 115
  · rw [if_pos c15]; exact hs
  rw [if_neg c15]
  by_cases c16 : data = 117
  · rw [if_pos c16]; exact hu
  rw [if_neg c16]
  exact h0

theorem escapeSequence_termBuffer (s : TERM_terminal_t) (data : Nat) :
    (TERM_ProcessEscapeSequence s data).termBuffer = s.termBuffer := by
  apply escapeSequence_cases (fun x => x.termBuffer = s.termBuffer)
  · rfl
  · rfl
  · rfl
  · rfl
  · rfl
  · rfl
  · show (TERM_ProcessCursorToColumn s).termBuffer = _
    rw [cursorToColumn_frame]
  · rfl
  · show (TERM_ProcessClearPartOfScreen s).termBuffer = _
    rw [clearPartOfScreen_frame]
  · show (TERM_ProcessClearPartOfLine s).termBuffer = _
    rw [clearPartOfLine_frame]
  · show (TERM_ProcessHMode s).termBuffer = _
    rw [hMode_frame]
  · show (TERM_ProcessLMode s).termBuffer = _
    rw [lMode_frame]
  · show (TERM_ProcessSelectGraphicRendition s).termBuffer = _
    rw [sgr_frame]
  · rfl
  · rfl
  · rfl

theorem escapeSequence_cursorInv (s : TERM_terminal_t) (data : Nat) (h : CursorInv s) :
    CursorInv (TERM_ProcessEscapeSequence s data) := by
  have h' := h
  unfold CursorInv at h'
  simp only [TERMFONT_LINES_PER_SCREEN, TERMFONT_CHARS_PER_LINE] at h'
  obtain ⟨h1, h2, h3, h4⟩ := h'
  apply escapeSequence_cases CursorInv
  · exact ⟨lt_of_le_of_lt (cursorUp_row_le s) h1, h2, h3, h4⟩
  · exact ⟨cursorDown_row_lt s h1, h2, h3, h4⟩
  · exact ⟨h1, cursorRight_column_lt s h2, h3, h4⟩
  · exact ⟨h1, lt_of_le_of_lt (cursorLeft_column_le s) h2, h3, h4⟩
  · exact ⟨cursorDown_row_lt s h1, (by show (0 : Nat) < 21; omega), h3, h4⟩
  · exact ⟨lt_of_le_of_lt (cursorUp_row_le s) h1, (by show (0 : Nat) < 21; omega), h3, h4⟩
  · refine ⟨?_, cursorToColumn_column_lt s h2, ?_, ?_⟩
    · rw [cursorToColumn_frame]; exact h1
    · rw [cursorToColumn_frame]; exact h3
    · rw [cursorToColumn_frame]; exact h4
  · exact ⟨(cursorToPosition_bounds s).1, (cursorToPosition_bounds s).2, h3, h4⟩
  · rw [clearPartOfScreen_frame]; exact h
  · rw [clearPartOfLine_frame]; exact h
  · rw [hMode_frame]; exact h
  · rw [lMode_frame]; exact h
  · rw [sgr_frame]; exact h
  · exact ⟨h1, h2, h1, h2⟩
  · exact ⟨h3, h4, h3, h4⟩
  · exact h

/-! ## The invariant is kept by every step -/

theorem scroll_cursorInv (s : TERM_terminal_t) (h : CursorInv s) :
    CursorInv (TERM_ScrollTerminalOneLine s) := by
  obtain ⟨_, _, h3, h4⟩ := h
  exact ⟨by show (7 : Nat) < 8; omega, by show (0 : Nat) < 21; omega, h3, h4⟩

theorem controlCharacter_cursorInv (s : TERM_terminal_t) (c : Nat) (h : CursorInv s) :
    CursorInv (TERM_ProcessControlCharacter s c) := by
  have h' := h
  unfold CursorInv at h'
  simp only [TERMFONT_LINES_PER_SCREEN, TERMFONT_CHARS_PER_LINE] at h'
  obtain ⟨h1, h2, h3, h4⟩ := h'
  unfold TERM_ProcessControlCharacter
  split_ifs
  · unfold TERM_ProcessBackspace
    split_ifs
    · exact ⟨h1, by show s.currentColumn - 1 < 21; omega, h3, h4⟩
    · exact h
  · unfold TERM_ProcessHorisontalTab
    simp only [TERMFONT_CHARS_PER_LINE]
    split_ifs
    · exact ⟨h1, by show (20 : Nat) < 21; omega, h3, h4⟩
    · exact ⟨h1, by show s.currentColumn + s.tabstepsize < 21; omega, h3, h4⟩
  · unfold TERM_ProcessNewLine
    simp only [TERMFONT_LINES_PER_SCREEN]
    split_ifs
    · exact ⟨by show s.currentRow < 8; omega, by show (0 : Nat) < 21; omega, h3, h4⟩
    · exact ⟨by show (0 : Nat) < 8; omega, h2, h3, h4⟩
    · exact ⟨by show (s.currentRow + 1) % 256 < 8; omega, h2, h3, h4⟩
  · unfold TERM_ProcessVerticalTab
    simp only [TERMFONT_LINES_PER_SCREEN]
    split_ifs
    · exact ⟨by show (7 : Nat) < 8; omega, h2, h3, h4⟩
    · exact ⟨by show s.currentRow + s.verticaltabstepsize < 8; omega, h2, h3, h4⟩
  · exact h
  · exact ⟨h1, by show (0 : Nat) < 21; omega, h3, h4⟩
  · exact h

theorem controlCharacter_rowsPerm (s : TERM_terminal_t) (c : Nat) (h : RowsPerm s.termBuffer) :
    RowsPerm (TERM_ProcessControlCharacter s c).termBuffer := by
  unfold TERM_ProcessControlCharacter
  split_ifs
  · unfold TERM_ProcessBackspace
    split_ifs
    · exact h
    · exact h
  · unfold TERM_ProcessHorisontalTab
    simp only []
    split_ifs
    · exact h
    · exact h
  · unfold TERM_ProcessNewLine
    simp only []
    split_ifs
    · exact scroll_rowsPerm s h
    · exact h
    · exact h
  · unfold TERM_ProcessVerticalTab
    simp only []
    split_ifs
    · exact h
    · exact h
  · exact h
  · exact h
  · exact h

theorem ordinaryChar_inv (s : TERM_terminal_t) (dataIn : Nat) (h : TermInv s) :
    TermInv (TERM_ProcessOrdinaryChar s dataIn) := by
  obtain ⟨hc, hp⟩ := h
  have hc' := hc
  unfold CursorInv at hc'
  simp only [TERMFONT_LINES_PER_SCREEN, TERMFONT_CHARS_PER_LINE] at hc'
  obtain ⟨h1, h2, h3, h4⟩ := hc'
  unfold TERM_ProcessOrdinaryChar
  simp only [TERMFONT_LINES_PER_SCREEN, TERMFONT_CHARS_PER_LINE]
  split_ifs
  · exact ⟨⟨h1, by show s.currentColumn + 1 < 21; omega, h3, h4⟩, hp⟩
  · exact ⟨⟨by show s.currentRow + 1 < 8; omega, by show (0 : Nat) < 21; omega, h3, h4⟩, hp⟩
  · exact ⟨⟨by show (7 : Nat) < 8; omega, by show (0 : Nat) < 21; omega, h3, h4⟩,
      scroll_rowsPerm _ hp⟩
  · exact ⟨⟨by show (0 : Nat) < 8; omega, by show (0 : Nat) < 21; omega, h3, h4⟩, hp⟩
  · exact ⟨controlCharacter_cursorInv s dataIn hc, controlCharacter_rowsPerm s dataIn hp⟩
  · exact ⟨hc, hp⟩

theorem init_inv (tab verticaltab : Nat) (cursorVisible : Bool) (flagPadding : Nat) :
    TermInv (TERM_Init tab verticaltab cursorVisible flagPadding) := by
  refine ⟨⟨?_, ?_, ?_, ?_⟩, ?_, ?_⟩
  · show (0 : Nat) < 8; omega
  · show (0 : Nat) < 21; omega
  · show (0 : Nat) < 8; omega
  · show (0 : Nat) < 21; omega
  · intro r hr; exact hr
  · intro r r' _ _ e; exact e

theorem terminalReset_inv (s : TERM_terminal_t) : TermInv (TERM_ProcessTerminalReset s) := by
  have hi := init_inv s.tabstepsize s.tabstepsize s.cursorVisible s.flagPadding
  unfold TERM_ProcessTerminalReset
  simp only []
  split_ifs
  · unfold TERM_EnableWriteThrough
    split_ifs
    · exact ⟨hi.1, hi.2⟩
    · exact hi
  · exact hi

/-- Normal form of `TERM_ProcessEscSeqChar` for an index below the capacity. -/
theorem escSeqChar_eq (s : TERM_terminal_t) (dataIn : Nat)
    (h : s.escapeSequenceIndex < 12) :
    TERM_ProcessEscSeqChar s dataIn =
      if isLetter dataIn then
        TERM_ProcessEscapeSequence
          { s with
            escapeSequence := setAt s.escapeSequence s.escapeSequenceIndex.toNat dataIn
            escapeSequenceIndex :=
              if s.escapeSequenceIndex < 11 then s.escapeSequenceIndex + 1
              else s.escapeSequenceIndex
            escapeSequenceActive := false } dataIn
      else
        { s with
          escapeSequence := setAt s.escapeSequence s.escapeSequenceIndex.toNat dataIn
          escapeSequenceIndex :=
            if s.escapeSequenceIndex < 11 then s.escapeSequenceIndex + 1
            else s.escapeSequenceIndex } := by
  unfold TERM_ProcessEscSeqChar isLetter
  simp only [TERM_MAX_ESCAPE_LENGTH]
  split_ifs <;> first | omega | rfl

theorem escSeqChar_inv (s : TERM_terminal_t) (dataIn : Nat) (h : TermInv s) :
    TermInv (TERM_ProcessEscSeqChar s dataIn) := by
  obtain ⟨hc, hp⟩ := h
  by_cases hi : s.escapeSequenceIndex < 12
  · rw [escSeqChar_eq s dataIn hi]
    by_cases hl : isLetter dataIn
    · rw [if_pos hl]
      exact ⟨escapeSequence_cursorInv _ _ hc, by rw [escapeSequence_termBuffer]; exact hp⟩
    · rw [if_neg hl]
      exact ⟨hc, hp⟩
  · unfold TERM_ProcessEscSeqChar
    rw [if_neg (by simpa using hi)]
    exact ⟨hc, hp⟩

theorem processChar_inv (s : TERM_terminal_t) (dataIn : Nat) (h : TermInv s) :
    TermInv (TERM_ProcessChar s dataIn) := by
  unfold TERM_ProcessChar
  split_ifs
  · exact h
  · exact ordinaryChar_inv s dataIn h
  · exact h
  · exact terminalReset_inv s
  · exact h
  · exact escSeqChar_inv s dataIn h

theorem feed_inv (bytes : List Nat) :
    ∀ s : TERM_terminal_t, TermInv s → TermInv (feed s bytes) := by
  induction bytes with
  | nil => intro s h; exact h
  | cons b bs ih => intro s h; exact ih _ (processChar_inv s b h)

theorem reachable_inv (s : TERM_terminal_t) (h : Reachable s) : TermInv s := by
  induction h with
  | init tab verticaltab cursorVisible flagPadding => exact init_inv _ _ _ _
  | processChar s dataIn _ _ ih => exact processChar_inv s dataIn ih
  | enableWriteThrough s _ ih =>
    unfold TERM_EnableWriteThrough
    split_ifs
    · exact ih
    · exact ih
  | disableWriteThrough s _ ih =>
    unfold TERM_DisableWriteThrough
    split_ifs
    · exact ih
    · exact ih
  | enableVisibleCursor s _ ih =>
    unfold TERM_EnableVisibleCursor
    split_ifs
    · exact ih
    · exact ih
  | disableVisibleCursor s _ ih =>
    unfold TERM_DisableVisibleCursor
    split_ifs
    · exact ih
    · exact ih

/-- C1. Cursor bounds invariant: whatever tab step, vertical-tab step and
cursor visibility `TERM_Init` is called with, and whatever bytes are then fed
one at a time to `TERM_ProcessChar`, after every byte (that is, after every
prefix of the byte sequence) the cursor satisfies `currentRow < 8` and
`currentColumn < 21`. -/
theorem cursor_bounds_after_every_byte (tab verticaltab : Nat) (cursorVisible : Bool) (flagPadding : Nat)
    (bytes : List Nat) (k : Nat) :
    TERM_GetCursorRow (feed (TERM_Init tab verticaltab cursorVisible flagPadding) (bytes.take k)) <
        TERMFONT_LINES_PER_SCREEN ∧
      TERM_GetCursorColumn (feed (TERM_Init tab verticaltab cursorVisible flagPadding) (bytes.take k)) <
        TERMFONT_CHARS_PER_LINE := by
  have h := feed_inv (bytes.take k) _ (init_inv tab verticaltab cursorVisible flagPadding)
  exact ⟨h.1.1, h.1.2.1⟩

/-! ## Accumulating a control sequence -/

theorem storeBytes_apply (bs : List Nat) :
    ∀ (buf : Nat → Nat) (k j : Nat),
      storeBytes buf k bs j =
        if k ≤ j ∧ j < k + bs.length then bs.getD (j - k) 0 else buf j := by
  induction bs with
  | nil =>
    intro buf k j
    have h : ¬ (k ≤ j ∧ j < k + ([] : List Nat).length) := by simp
    rw [if_neg h]
    rfl
  | cons b bs ih =>
    intro buf k j
    rw [storeBytes, ih, setAt_apply]
    by_cases h1 : j = k
    · subst h1
      simp
    · by_cases h2 : k + 1 ≤ j ∧ j < k + 1 + bs.length
      · have h3 : k ≤ j ∧ j < k + (b :: bs).length := by simp only [List.length_cons]; omega
        rw [if_pos h2, if_pos h3]
        have h4 : j - k = (j - (k + 1)) + 1 := by omega
        rw [h4, List.getD_cons_succ]
      · have h3 : ¬ (k ≤ j ∧ j < k + (b :: bs).length) := by
          simp only [List.length_cons]; omega
        rw [if_neg h2, if_neg h3, if_neg h1]

theorem storeBytes_append (bs : List Nat) :
    ∀ (buf : Nat → Nat) (k b : Nat),
      storeBytes buf k (bs ++ [b]) = setAt (storeBytes buf k bs) (k + bs.length) b := by
  induction bs with
  | nil => intro buf k b; rfl
  | cons c bs ih =>
    intro buf k b
    show storeBytes (setAt buf k c) (k + 1) (bs ++ [b]) = _
    rw [ih]
    simp only [storeBytes, List.length_cons]
    have : k + 1 + bs.length = k + (bs.length + 1) := by omega
    rw [this]

/-- Bytes that are neither letters nor ESC are stored in the accumulator while
there is room before the last slot. -/
theorem feed_accumulate (bs : List Nat) :
    ∀ (s : TERM_terminal_t) (k : Nat),
      s.escapeSequenceActive = true → s.escapeSequenceIndex = (k : Int) →
      k + bs.length ≤ 11 → (∀ b ∈ bs, ¬ isLetter b ∧ b ≠ 27) →
      feed s bs =
        { s with
          escapeSequence := storeBytes s.escapeSequence k bs
          escapeSequenceIndex := ((k + bs.length : Nat) : Int) } := by
  induction bs with
  | nil =>
    intro s k _ hi _ _
    show s = _
    cases s
    simp only [List.length_nil, Nat.add_zero, storeBytes] at *
    rw [hi]
  | cons b bs ih =>
    intro s k ha hi hlen hb
    simp only [List.length_cons] at hlen
    have hb1 := hb b (List.mem_cons_self _ _)
    have step : TERM_ProcessChar s b =
        { s with escapeSequence := setAt s.escapeSequence k b
                 escapeSequenceIndex := ((k + 1 : Nat) : Int) } := by
      unfold TERM_ProcessChar
      rw [if_neg (by simpa using hb1.2), if_neg (by simp [ha]), if_neg (by rw [hi]; omega)]
      rw [escSeqChar_eq s b (by rw [hi]; omega), if_neg hb1.1]
      rw [if_pos (by rw [hi]; omega), hi]
      simp
    show feed (TERM_ProcessChar s b) bs = _
    rw [step]
    rw [ih { s with escapeSequence := setAt s.escapeSequence k b
                    escapeSequenceIndex := ((k + 1 : Nat) : Int) } (k + 1) ha rfl (by omega)
      (fun x hx => hb x (List.mem_cons_of_mem _ hx))]
    simp only [storeBytes, List.length_cons]
    have : k + 1 + bs.length = k + (bs.length + 1) := by omega
    rw [this]

/-- A complete control sequence `ESC [ body letter` with at most 11 body bytes
(none of them a letter or ESC) hands the filled accumulator to
`TERM_ProcessEscapeSequence`, whatever the state before the ESC was. -/
theorem feed_csi (s : TERM_terminal_t) (body : List Nat) (letter : Nat)
    (hlen : body.length ≤ 11) (hbody : ∀ b ∈ body, ¬ isLetter b ∧ b ≠ 27)
    (hletter : isLetter letter) :
    feed s ([27, 91] ++ body ++ [letter]) =
      TERM_ProcessEscapeSequence (csiState s body letter) letter := by
  have h27 : letter ≠ 27 := by unfold isLetter at hletter; omega
  have e1 : feed s ([27, 91] ++ body ++ [letter]) =
      feed (feed (feed s [27, 91]) body) [letter] := by
    simp [feed, List.foldl_append]
  have e2 : feed s [27, 91] =
      { s with escapeSequenceActive := true, escapeSequenceIndex := ((0 : Nat) : Int) } := by
    simp [feed, TERM_ProcessChar]
  rw [e1, e2, feed_accumulate body _ 0 rfl rfl (by omega) hbody]
  show TERM_ProcessChar _ letter = _
  unfold TERM_ProcessChar
  rw [if_neg (by simpa using h27), if_neg (by simp), if_neg (by simp only []; omega)]
  rw [escSeqChar_eq _ letter (by simp only []; omega), if_pos hletter]
  unfold csiState
  rw [storeBytes_append]
  simp only [Nat.zero_add, Int.toNat_ofNat, Nat.cast_lt_ofNat]

/-! ## Parameter extraction on a filled accumulator -/

/-- What `TERM_ExtractParameter` returns on a run of at most four digits that is
followed by a byte that is not a digit. -/
theorem extract_digits (str : Nat → Nat) (ds : List Nat) (st : Nat)
    (hlen : ds.length ≤ 4) (hd : ∀ d ∈ ds, d < 10)
    (hstr : ∀ i, i < ds.length → str i = ds.getD i 0 + 48)
    (hstop : ¬ (48 ≤ str ds.length ∧ str ds.length ≤ 57)) :
    TERM_ExtractParameter str st =
      (ds.length, if ds.length > 0 then decimalValue ds else st) := by
  rcases ds with _ | ⟨a, _ | ⟨b, _ | ⟨c, _ | ⟨d, _ | ⟨e, tl⟩⟩⟩⟩⟩
  · simp only [List.length_nil] at hstop
    simp [TERM_ExtractParameter, extractLoop, hstop]
  · have s0 := hstr 0 (by simp)
    have ha := hd a (by simp)
    simp only [List.length_singleton] at hstop
    simp only [List.getD_cons_zero] at s0
    have e0 : 48 ≤ str 0 ∧ str 0 ≤ 57 := by omega
    simp only [TERM_ExtractParameter, TERM_MAXPARAMDIGITS, extractLoop, if_pos e0, if_neg hstop,
      decimalValue, List.foldl, List.length_singleton]
    rw [s0]
    refine Prod.ext ?_ ?_
    · simp
    · simp
      omega
  · have s0 := hstr 0 (by simp)
    have s1 := hstr 1 (by simp)
    have ha := hd a (by simp)
    have hb := hd b (by simp)
    simp only [List.length_cons, List.length_nil] at hstop
    simp only [List.getD_cons_zero, List.getD_cons_succ] at s0 s1
    have e0 : 48 ≤ str 0 ∧ str 0 ≤ 57 := by omega
    have e1 : 48 ≤ str 1 ∧ str 1 ≤ 57 := by omega
    simp only [TERM_ExtractParameter, TERM_MAXPARAMDIGITS, extractLoop, if_pos e0, if_pos e1,
      if_neg hstop, decimalValue, List.foldl, List.length_cons, List.length_nil]
    rw [s0, s1]
    refine Prod.ext ?_ ?_
    · simp
    · simp only [gt_iff_lt, Nat.zero_add, Nat.reduceAdd, Nat.ofNat_pos, if_true, Nat.zero_mul,
        Nat.add_sub_cancel]
      omega
  · have s0 := hstr 0 (by simp)
    have s1 := hstr 1 (by simp)
    have s2 := hstr 2 (by simp)
    have ha := hd a (by simp)
    have hb := hd b (by simp)
    have hc := hd c (by simp)
    simp only [List.length_cons, List.length_nil] at hstop
    simp only [List.getD_cons_zero, List.getD_cons_succ] at s0 s1 s2
    have e0 : 48 ≤ str 0 ∧ str 0 ≤ 57 := by omega
    have e1 : 48 ≤ str 1 ∧ str 1 ≤ 57 := by omega
    have e2 : 48 ≤ str 2 ∧ str 2 ≤ 57 := by omega
    simp only [TERM_ExtractParameter, TERM_MAXPARAMDIGITS, extractLoop, if_pos e0, if_pos e1,
      if_pos e2, if_neg hstop, decimalValue, List.foldl, List.length_cons, List.length_nil]
    rw [s0, s1, s2]
    refine Prod.ext ?_ ?_
    · simp
    · simp only [gt_iff_lt, Nat.zero_add, Nat.reduceAdd, Nat.ofNat_pos, if_true, Nat.zero_mul,
        Nat.add_sub_cancel]
      omega
  · have s0 := hstr 0 (by simp)
    have s1 := hstr 1 (by simp)
    have s2 := hstr 2 (by simp)
    have s3 := hstr 3 (by simp)
    have ha := hd a (by simp)
    have hb := hd b (by simp)
    have hc := hd c (by simp)
    have hd' := hd d (by simp)
    simp only [List.getD_cons_zero, List.getD_cons_succ] at s0 s1 s2 s3
    have e0 : 48 ≤ str 0 ∧ str 0 ≤ 57 := by omega
    have e1 : 48 ≤ str 1 ∧ str 1 ≤ 57 := by omega
    have e2 : 48 ≤ str 2 ∧ str 2 ≤ 57 := by omega
    have e3 : 48 ≤ str 3 ∧ str 3 ≤ 57 := by omega
    simp only [TERM_ExtractParameter, TERM_MAXPARAMDIGITS, extractLoop, if_pos e0, if_pos e1,
      if_pos e2, if_pos e3, decimalValue, List.foldl, List.length_cons, List.length_nil]
    rw [s0, s1, s2, s3]
    refine Prod.ext ?_ ?_
    · simp
    · simp only [gt_iff_lt, Nat.zero_add, Nat.reduceAdd, Nat.ofNat_pos, if_true, Nat.zero_mul,
        Nat.add_sub_cancel]
      omega
  · simp only [List.length_cons] at hlen
    omega

theorem asciiDigits_length (ds : List Nat) : (asciiDigits ds).length = ds.length := by
  simp [asciiDigits]

theorem getD_digits (pre ds rest : List Nat) (i : Nat) (h : i < ds.length) :
    (pre ++ asciiDigits ds ++ rest).getD (pre.length + i) 0 = ds.getD i 0 + 48 := by
  have h1 : pre.length + i < (pre ++ asciiDigits ds).length := by
    rw [List.length_append, asciiDigits_length]; omega
  have h2 : i < (asciiDigits ds).length := by rw [asciiDigits_length]; exact h
  rw [List.getD_append _ _ _ _ h1, List.getD_append_right _ _ _ _ (by omega)]
  rw [Nat.add_sub_cancel_left, List.getD_eq_getElem _ _ h2, List.getD_eq_getElem _ _ h]
  simp [asciiDigits]

theorem getD_stop (pre mid post : List Nat) (stop : Nat) :
    (pre ++ mid ++ stop :: post).getD (pre.length + mid.length) 0 = stop := by
  rw [List.getD_append_right _ _ _ _ (by rw [List.length_append])]
  rw [List.length_append, Nat.sub_self, List.getD_cons_zero]

theorem escPtr_csi (s : TERM_terminal_t) (body : List Nat) (letter offset i : Nat)
    (hlen : body.length ≤ 11) (h : offset + i ≤ body.length) :
    escPtr (csiState s body letter) offset i = (body ++ [letter]).getD (offset + i) 0 := by
  unfold escPtr csiState
  simp only [TERM_MAX_ESCAPE_LENGTH]
  rw [if_pos (by omega), storeBytes_apply]
  rw [if_pos (by rw [List.length_append, List.length_singleton]; omega)]
  rfl

/-- Extraction of the parameter that starts right after the bytes `pre` of a
control sequence: a run `ds` of at most four digits followed by the non-digit
byte `stop` yields the digit count and, when there is a digit, the value. -/
theorem extract_at (s : TERM_terminal_t) (body : List Nat) (letter : Nat)
    (pre ds post : List Nat) (stop st : Nat)
    (hsplit : body ++ [letter] = pre ++ asciiDigits ds ++ stop :: post)
    (hlen : body.length ≤ 11) (hds : ds.length ≤ 4) (hd : ∀ d ∈ ds, d < 10)
    (hstop : ¬ (48 ≤ stop ∧ stop ≤ 57)) :
    TERM_ExtractParameter (escPtr (csiState s body letter) pre.length) st =
      (ds.length, if ds.length > 0 then decimalValue ds else st) := by
  have hl : body.length + 1 = pre.length + ds.length + (post.length + 1) := by
    have := congrArg List.length hsplit
    simp only [List.length_append, List.length_cons, List.length_nil, asciiDigits_length] at this
    omega
  apply extract_digits _ ds st hds hd
  · intro i hi
    rw [escPtr_csi s body letter _ _ hlen (by omega), hsplit]
    exact getD_digits pre ds _ i hi
  · rw [escPtr_csi s body letter _ _ hlen (by omega), hsplit]
    have e := getD_stop pre (asciiDigits ds) post stop
    rw [asciiDigits_length] at e
    rw [e]
    exact hstop

theorem asciiDigits_plain (ds : List Nat) (hd : ∀ d ∈ ds, d < 10) :
    ∀ b ∈ asciiDigits ds, ¬ isLetter b ∧ b ≠ 27 := by
  intro b hb
  unfold asciiDigits at hb
  obtain ⟨d, hd1, rfl⟩ := List.mem_map.mp hb
  have := hd d hd1
  unfold isLetter
  omega

/-! ## Cursor positioning (CUP) -/

/-- C2. CUP round trip: from every terminal state (in particular every state
reachable from `TERM_Init`), for row and column parameters written with 1 to 4
decimal digits each (`rd`, `cd`, leading zeros allowed), feeding
`ESC [ r ; c H` or `ESC [ r ; c f` leaves `TERM_GetCursorRow` equal to
`clamp r 1 8 - 1` and `TERM_GetCursorColumn` equal to `clamp c 1 21 - 1`. -/
theorem cup_round_trip (s : TERM_terminal_t) (rd cd : List Nat) (terminator : Nat)
    (hr : 1 ≤ rd.length ∧ rd.length ≤ 4) (hc : 1 ≤ cd.length ∧ cd.length ≤ 4)
    (hrd : ∀ d ∈ rd, d < 10) (hcd : ∀ d ∈ cd, d < 10)
    (ht : terminator = 72 ∨ terminator = 102) :
    TERM_GetCursorRow
        (feed s ([27, 91] ++ asciiDigits rd ++ [59] ++ asciiDigits cd ++ [terminator])) =
        clamp (decimalValue rd) 1 TERMFONT_LINES_PER_SCREEN - 1 ∧
      TERM_GetCursorColumn
        (feed s ([27, 91] ++ asciiDigits rd ++ [59] ++ asciiDigits cd ++ [terminator])) =
        clamp (decimalValue cd) 1 TERMFONT_CHARS_PER_LINE - 1 := by
  have hletter : isLetter terminator := by unfold isLetter; omega
  have hbody : ∀ b ∈ asciiDigits rd ++ [59] ++ asciiDigits cd, ¬ isLetter b ∧ b ≠ 27 := by
    intro b hb
    simp only [List.mem_append, List.mem_singleton] at hb
    rcases hb with (hb | hb) | hb
    · exact asciiDigits_plain rd hrd b hb
    · subst hb; unfold isLetter; omega
    · exact asciiDigits_plain cd hcd b hb
  have hlen : (asciiDigits rd ++ [59] ++ asciiDigits cd).length ≤ 11 := by
    simp only [List.length_append, asciiDigits_length, List.length_singleton]; omega
  have e : [27, 91] ++ asciiDigits rd ++ [59] ++ asciiDigits cd ++ [terminator] =
      [27, 91] ++ (asciiDigits rd ++ [59] ++ asciiDigits cd) ++ [terminator] := by
    simp only [List.append_assoc]
  rw [e, feed_csi s _ terminator hlen hbody hletter]
  have hdisp : TERM_ProcessEscapeSequence
      (csiState s (asciiDigits rd ++ [59] ++ asciiDigits cd) terminator) terminator =
      TERM_ProcessCursorToPosition
        (csiState s (asciiDigits rd ++ [59] ++ asciiDigits cd) terminator) := by
    unfold TERM_ProcessEscapeSequence
    rcases ht with h | h <;> subst h <;> simp
  rw [hdisp]
  have p1 := extract_at s (asciiDigits rd ++ [59] ++ asciiDigits cd) terminator
    [] rd (asciiDigits cd ++ [terminator]) 59 uninitialised
    (by simp)
    hlen hr.2 hrd (by omega)
  have p2 := extract_at s (asciiDigits rd ++ [59] ++ asciiDigits cd) terminator
    (asciiDigits rd ++ [59]) cd [] terminator uninitialised
    (by simp)
    hlen hc.2 hcd (by omega)
  simp only [List.length_nil, List.length_append, asciiDigits_length, List.length_singleton]
    at p1 p2
  unfold TERM_ProcessCursorToPosition TERM_GetCursorRow TERM_GetCursorColumn clamp
  simp only [p1, p2]
  have h1 : ¬ rd.length = 0 := by omega
  have h2 : ¬ cd.length = 0 := by omega
  have h3 : rd.length > 0 := by omega
  have h4 : cd.length > 0 := by omega
  simp only [if_neg h1, if_neg h2, if_pos h3, if_pos h4, TERMFONT_LINES_PER_SCREEN,
    TERMFONT_CHARS_PER_LINE]
  exact ⟨trivial, trivial⟩

theorem cup_round_trip_witness :
    TERM_GetCursorRow
        (feed (TERM_Init 4 2 true 0)
          ([27, 91] ++ asciiDigits [1, 2] ++ [59] ++ asciiDigits [0, 0, 0, 5] ++ [72])) =
        clamp (decimalValue [1, 2]) 1 TERMFONT_LINES_PER_SCREEN - 1 ∧
      TERM_GetCursorColumn
        (feed (TERM_Init 4 2 true 0)
          ([27, 91] ++ asciiDigits [1, 2] ++ [59] ++ asciiDigits [0, 0, 0, 5] ++ [72])) =
        clamp (decimalValue [0, 0, 0, 5]) 1 TERMFONT_CHARS_PER_LINE - 1 :=
  cup_round_trip (TERM_Init 4 2 true 0) [1, 2] [0, 0, 0, 5] 72 (by decide) (by decide)
    (by decide) (by decide) (by decide)

/-! ## Relative cursor movement (CUU, CUD, CUF, CUB) -/

/-- The parameter seen by a handler when the sequence is `ESC [ n letter` with
`n` written with at most four digits (no digit at all: parameter omitted). -/
theorem extract_single (s : TERM_terminal_t) (nd : List Nat) (letter : Nat)
    (hlen : nd.length ≤ 4) (hd : ∀ d ∈ nd, d < 10) (hletter : isLetter letter) :
    TERM_ExtractParameter (escPtr (csiState s (asciiDigits nd) letter) 0) uninitialised =
      (nd.length, if nd.length > 0 then decimalValue nd else uninitialised) := by
  have h := extract_at s (asciiDigits nd) letter [] nd [] letter uninitialised (by simp)
    (by rw [asciiDigits_length]; omega) hlen hd (by unfold isLetter at hletter; omega)
  simpa using h

/-- C10. Clamped relative navigation: in every reachable terminal state with
cursor (row, col), for a distance `n` written with 1 to 4 decimal digits, or
omitted (then the distance is 1), `ESC[nA` gives row `row - min n row`,
`ESC[nB` gives row `min (row + n) 7`, `ESC[nC` gives column `min (col + n) 20`
and `ESC[nD` gives column `col - min n col`; the other coordinate and every
cell are unchanged.  So a distance beyond an edge lands exactly on it. -/
theorem relative_navigation_clamped (s : TERM_terminal_t) (hs : Reachable s) (nd : List Nat)
    (hlen : nd.length ≤ 4) (hd : ∀ d ∈ nd, d < 10) :
    (TERM_GetCursorRow (feed s ([27, 91] ++ asciiDigits nd ++ [65])) =
        s.currentRow - min (if nd.length = 0 then 1 else decimalValue nd) s.currentRow ∧
      TERM_GetCursorColumn (feed s ([27, 91] ++ asciiDigits nd ++ [65])) = s.currentColumn ∧
      ∀ r c, cellAt (feed s ([27, 91] ++ asciiDigits nd ++ [65])) r c = cellAt s r c) ∧
    (TERM_GetCursorRow (feed s ([27, 91] ++ asciiDigits nd ++ [66])) =
        min (s.currentRow + (if nd.length = 0 then 1 else decimalValue nd)) 7 ∧
      TERM_GetCursorColumn (feed s ([27, 91] ++ asciiDigits nd ++ [66])) = s.currentColumn ∧
      ∀ r c, cellAt (feed s ([27, 91] ++ asciiDigits nd ++ [66])) r c = cellAt s r c) ∧
    (TERM_GetCursorColumn (feed s ([27, 91] ++ asciiDigits nd ++ [67])) =
        min (s.currentColumn + (if nd.length = 0 then 1 else decimalValue nd)) 20 ∧
      TERM_GetCursorRow (feed s ([27, 91] ++ asciiDigits nd ++ [67])) = s.currentRow ∧
      ∀ r c, cellAt (feed s ([27, 91] ++ asciiDigits nd ++ [67])) r c = cellAt s r c) ∧
    (TERM_GetCursorColumn (feed s ([27, 91] ++ asciiDigits nd ++ [68])) =
        s.currentColumn - min (if nd.length = 0 then 1 else decimalValue nd) s.currentColumn ∧
      TERM_GetCursorRow (feed s ([27, 91] ++ asciiDigits nd ++ [68])) = s.currentRow ∧
      ∀ r c, cellAt (feed s ([27, 91] ++ asciiDigits nd ++ [68])) r c = cellAt s r c) := by
  have hinv := (reachable_inv s hs).1
  unfold CursorInv at hinv
  simp only [TERMFONT_LINES_PER_SCREEN, TERMFONT_CHARS_PER_LINE] at hinv
  obtain ⟨hrow, hcol, _, _⟩ := hinv
  have hbody := asciiDigits_plain nd hd
  have hl : (asciiDigits nd).length ≤ 11 := by rw [asciiDigits_length]; omega
  have lA : isLetter 65 := by decide
  have lB : isLetter 66 := by decide
  have lC : isLetter 67 := by decide
  have lD : isLetter 68 := by decide
  have dA : ∀ x, TERM_ProcessEscapeSequence x 65 = TERM_ProcessCursorUp x := by
    intro x; unfold TERM_ProcessEscapeSequence; simp
  have dB : ∀ x, TERM_ProcessEscapeSequence x 66 = TERM_ProcessCursorDown x := by
    intro x; unfold TERM_ProcessEscapeSequence; simp
  have dC : ∀ x, TERM_ProcessEscapeSequence x 67 = TERM_ProcessCursorRight x := by
    intro x; unfold TERM_ProcessEscapeSequence; simp
  have dD : ∀ x, TERM_ProcessEscapeSequence x 68 = TERM_ProcessCursorLeft x := by
    intro x; unfold TERM_ProcessEscapeSequence; simp
  rw [feed_csi s _ 65 hl hbody lA, feed_csi s _ 66 hl hbody lB, feed_csi s _ 67 hl hbody lC,
    feed_csi s _ 68 hl hbody lD, dA, dB, dC, dD]
  have cr : ∀ l, (csiState s (asciiDigits nd) l).currentRow = s.currentRow := fun _ => rfl
  have cc : ∀ l, (csiState s (asciiDigits nd) l).currentColumn = s.currentColumn := fun _ => rfl
  have pA := extract_single s nd 65 hlen hd lA
  have pB := extract_single s nd 66 hlen hd lB
  have pC := extract_single s nd 67 hlen hd lC
  have pD := extract_single s nd 68 hlen hd lD
  refine ⟨⟨?_, rfl, fun _ _ => rfl⟩, ⟨?_, rfl, fun _ _ => rfl⟩, ⟨?_, rfl, fun _ _ => rfl⟩,
    ⟨?_, rfl, fun _ _ => rfl⟩⟩
  · simp only [TERM_GetCursorRow, TERM_ProcessCursorUp, pA]
    show s.currentRow - _ = _
    by_cases h0 : nd.length = 0
    · simp only [h0, if_true, cr, cc]
      split_ifs <;> omega
    · have h1 : nd.length > 0 := by omega
      simp only [h0, h1, if_true, if_false, cr, cc]
      split_ifs <;> omega
  · simp only [TERM_GetCursorRow, TERM_ProcessCursorDown, pB, TERMFONT_LINES_PER_SCREEN]
    show s.currentRow + _ = _
    by_cases h0 : nd.length = 0
    · simp only [h0, if_true, cr, cc]
      show s.currentRow + (if 1 > 8 - 1 - s.currentRow then 8 - 1 - s.currentRow else 1) = _
      split_ifs <;> omega
    · have h1 : nd.length > 0 := by omega
      simp only [h0, h1, if_true, if_false, cr, cc]
      show s.currentRow + (if decimalValue nd > 8 - 1 - s.currentRow then 8 - 1 - s.currentRow
        else decimalValue nd) = _
      split_ifs <;> omega
  · simp only [TERM_GetCursorColumn, TERM_ProcessCursorRight, pC, TERMFONT_CHARS_PER_LINE]
    show s.currentColumn + _ = _
    by_cases h0 : nd.length = 0
    · simp only [h0, if_true, cr, cc]
      show s.currentColumn + (if 1 > 21 - 1 - s.currentColumn then 21 - 1 - s.currentColumn
        else 1) = _
      split_ifs <;> omega
    · have h1 : nd.length > 0 := by omega
      simp only [h0, h1, if_true, if_false, cr, cc]
      show s.currentColumn + (if decimalValue nd > 21 - 1 - s.currentColumn
        then 21 - 1 - s.currentColumn else decimalValue nd) = _
      split_ifs <;> omega
  · simp only [TERM_GetCursorColumn, TERM_ProcessCursorLeft, pD]
    show s.currentColumn - _ = _
    by_cases h0 : nd.length = 0
    · simp only [h0, if_true, cr, cc]
      split_ifs <;> omega
    · have h1 : nd.length > 0 := by omega
      simp only [h0, h1, if_true, if_false, cr, cc]
      split_ifs <;> omega

theorem reachable_feed (bytes : List Nat) :
    ∀ s : TERM_terminal_t, Reachable s → (∀ b ∈ bytes, b < 256) → Reachable (feed s bytes) := by
  induction bytes with
  | nil => intro s h _; exact h
  | cons b bs ih =>
    intro s h hb
    exact ih _ (Reachable.processChar s b h (hb b (List.mem_cons_self _ _)))
      (fun x hx => hb x (List.mem_cons_of_mem _ hx))

theorem relative_navigation_clamped_witness :
    Reachable (feed (TERM_Init 4 2 true 0) [27, 91, 53, 59, 53, 72]) ∧
      TERM_GetCursorRow
          (feed (feed (TERM_Init 4 2 true 0) [27, 91, 53, 59, 53, 72])
            ([27, 91] ++ asciiDigits [9] ++ [66])) =
        min ((feed (TERM_Init 4 2 true 0) [27, 91, 53, 59, 53, 72]).currentRow +
          (if [9].length = 0 then 1 else decimalValue [9])) 7 :=
  ⟨reachable_feed _ _ (Reachable.init 4 2 true 0) (by decide),
    (relative_navigation_clamped (feed (TERM_Init 4 2 true 0) [27, 91, 53, 59, 53, 72])
      (reachable_feed _ _ (Reachable.init 4 2 true 0) (by decide)) [9] (by decide)
      (by decide)).2.1.1⟩

/-! ## Stale accumulator bytes -/

/-- C3 (the code at the failing input). After `ESC[0;9m`, the sequence `ESC[0m`
leaves strikethrough set: the accumulator then holds `0 m 9 m`, and the SGR
loop goes on behind the terminating `m` and applies the old parameter 9. -/
theorem sgr_reset_applies_stale_parameter :
    (feed (TERM_Init 4 2 true 0) [27, 91, 48, 59, 57, 109]).currentAttributes =
        { singleUnderline := false, strikeThrough := true, imageInverted := false } ∧
      (feed (feed (TERM_Init 4 2 true 0) [27, 91, 48, 59, 57, 109])
          [27, 91, 48, 109]).currentAttributes =
        { singleUnderline := false, strikeThrough := true, imageInverted := false } := by
  decide

/-- C4 (the code at the failing input). After `ESC[1;9H`, the sequence `ESC[4m`
(`TERM_UNDER_LINE`) sets underline and also strikethrough, which no parameter
of the sequence names: the accumulator holds `4 m 9 H` and the SGR loop applies
the old byte 9 behind the terminating `m`. -/
theorem sgr_underline_applies_stale_parameter :
    (feed (TERM_Init 4 2 true 0) [27, 91, 49, 59, 57, 72]).currentAttributes =
        { singleUnderline := false, strikeThrough := false, imageInverted := false } ∧
      (feed (feed (TERM_Init 4 2 true 0) [27, 91, 49, 59, 57, 72])
          [27, 91, 52, 109]).currentAttributes =
        { singleUnderline := true, strikeThrough := true, imageInverted := false } := by
  decide

/-- C5 (the code at the failing input). After `ESC[1;15H`, the sequence `ESC[3H`
puts the cursor at row 2, column 14 instead of column 0, and after `ESC[12A`
the sequence `ESC[H` puts it at column 1: the column parameter is read from the
old bytes that follow the terminating letter in the accumulator. -/
theorem cup_default_reads_stale_column :
    (TERM_GetCursorRow
          (feed (feed (TERM_Init 4 2 true 0) [27, 91, 49, 59, 49, 53, 72]) [27, 91, 51, 72]) = 2 ∧
        TERM_GetCursorColumn
          (feed (feed (TERM_Init 4 2 true 0) [27, 91, 49, 59, 49, 53, 72]) [27, 91, 51, 72]) = 14) ∧
      (TERM_GetCursorRow
          (feed (feed (TERM_Init 4 2 true 0) [27, 91, 49, 50, 65]) [27, 91, 72]) = 0 ∧
        TERM_GetCursorColumn
          (feed (feed (TERM_Init 4 2 true 0) [27, 91, 49, 50, 65]) [27, 91, 72]) = 1) := by
  decide

/-! ## Terminal reset -/

/-- What `ESC c` does in buffered mode: the terminal is re-initialised with the
tab step used for both step sizes. -/
theorem reset_eq_init_with_tab_twice (s : TERM_terminal_t) (h : s.directLCDUpdate = false) :
    feed s [27, 99] = TERM_Init s.tabstepsize s.tabstepsize s.cursorVisible s.flagPadding := by
  show TERM_ProcessChar (TERM_ProcessChar s 27) 99 = _
  unfold TERM_ProcessChar
  simp [TERM_ProcessTerminalReset, h]

/-- C6 (the code at the failing input). After `TERM_Init` with tab step 4 and
vertical-tab step 2, `ESC c` leaves the vertical-tab step at 4, while
`TERM_Init` called with the current values would leave it at 2. -/
theorem reset_loses_vertical_tab_step :
    (feed (TERM_Init 4 2 true 0) [27, 99]).verticaltabstepsize = 4 ∧
      (TERM_Init (TERM_Init 4 2 true 0).tabstepsize (TERM_Init 4 2 true 0).verticaltabstepsize
        (TERM_Init 4 2 true 0).cursorVisible
        (TERM_Init 4 2 true 0).flagPadding).verticaltabstepsize = 2 ∧
      (TERM_Init 4 2 true 0).directLCDUpdate = false := by
  decide

/-! ## Printable characters -/

theorem scroll_cellAt_lt (t : TERM_terminal_t) (hp : RowsPerm t.termBuffer) (r c : Nat)
    (hr : r < 7) : cellAt (TERM_ScrollTerminalOneLine t) r c = cellAt t (r + 1) c := by
  unfold cellAt
  rw [scroll_termBuffer, if_pos hr]
  show clearCells t.termBufferRows (t.termBuffer 0) 0 TERMFONT_CHARS_PER_LINE _ _ = _
  rw [clearCells_apply]
  have hne : t.termBuffer (r + 1) ≠ t.termBuffer 0 := by
    intro e
    have := hp.2 (r + 1) 0 (by simp only [TERMFONT_LINES_PER_SCREEN]; omega)
      (by simp only [TERMFONT_LINES_PER_SCREEN]; omega) e
    omega
  rw [if_neg (fun h => hne h.1)]

theorem scroll_cellAt_last (t : TERM_terminal_t) (c : Nat) (hc : c < 21) :
    cellAt (TERM_ScrollTerminalOneLine t) 7 c = blankCell := by
  unfold cellAt
  rw [scroll_termBuffer, if_neg (by omega), if_pos rfl]
  show clearCells t.termBufferRows (t.termBuffer 0) 0 TERMFONT_CHARS_PER_LINE _ _ = _
  rw [clearCells_apply, if_pos ⟨rfl, Nat.zero_le _, by simp only [TERMFONT_CHARS_PER_LINE]; omega⟩]

/-- The logical cells after a store through `termBuffer[row][column]`, when the
row pointers are distinct: only position (`row`, `column`) changes. -/
theorem cellAt_writeCell (t : TERM_terminal_t) (hp : RowsPerm t.termBuffer) (row column : Nat)
    (v : TERM_termbufferdata_t) (r c : Nat) (hrow : row < 8) (hr : r < 8) :
    writeCell t.termBufferRows (t.termBuffer row) column v (t.termBuffer r) c =
      if r = row ∧ c = column then v else cellAt t r c := by
  rw [writeCell_apply]
  unfold cellAt
  by_cases h : r = row
  · subst h
    simp
  · have hne : t.termBuffer r ≠ t.termBuffer row := fun e =>
      h (hp.2 r row (by simpa using hr) (by simpa using hrow) e)
    simp [h, hne]

/-- The printable branch of `TERM_ProcessOrdinaryChar`, written out. -/
theorem processChar_printable (s : TERM_terminal_t) (b : Nat)
    (hesc : s.escapeSequenceActive = false) (hb : 32 ≤ b ∧ b ≤ 126) :
    TERM_ProcessChar s b =
      if s.currentColumn < 20 then
        { s with
          termBufferRows := writeCell s.termBufferRows (s.termBuffer s.currentRow) s.currentColumn
            { character := b, attributes := s.currentAttributes }
          currentColumn := s.currentColumn + 1 }
      else if s.currentRow < 7 then
        { s with
          termBufferRows := writeCell s.termBufferRows (s.termBuffer s.currentRow) s.currentColumn
            { character := b, attributes := s.currentAttributes }
          currentColumn := 0
          currentRow := s.currentRow + 1 }
      else if s.disableLineWrap = false then
        TERM_ScrollTerminalOneLine
          { s with
            termBufferRows := writeCell s.termBufferRows (s.termBuffer s.currentRow)
              s.currentColumn { character := b, attributes := s.currentAttributes }
            currentColumn := 0 }
      else
        { s with
          termBufferRows := writeCell s.termBufferRows (s.termBuffer s.currentRow) s.currentColumn
            { character := b, attributes := s.currentAttributes }
          currentColumn := 0
          currentRow := 0 } := by
  unfold TERM_ProcessChar
  rw [if_neg (by simp only [TERMINAL_ESC]; omega), if_pos hesc]
  unfold TERM_ProcessOrdinaryChar
  rw [if_pos hb]
  simp only [TERMFONT_CHARS_PER_LINE, TERMFONT_LINES_PER_SCREEN]

/-- While an escape sequence is being accumulated, bytes that are neither
letters nor ESC change nothing but the accumulator and its index, which stays
in 0..11, however many bytes arrive. -/
theorem feed_plain_bytes (bytes : List Nat) :
    ∀ (s : TERM_terminal_t), s.escapeSequenceActive = true →
      0 ≤ s.escapeSequenceIndex → s.escapeSequenceIndex ≤ 11 →
      (∀ b ∈ bytes, ¬ isLetter b ∧ b ≠ 27) →
      ∃ (buf : Nat → Nat) (idx : Int), 0 ≤ idx ∧ idx ≤ 11 ∧
        feed s bytes = { s with escapeSequence := buf, escapeSequenceIndex := idx } := by
  induction bytes with
  | nil =>
    intro s _ h0 h11 _
    exact ⟨s.escapeSequence, s.escapeSequenceIndex, h0, h11, rfl⟩
  | cons b bs ih =>
    intro s ha h0 h11 hb
    have hb1 := hb b (List.mem_cons_self _ _)
    have step : TERM_ProcessChar s b =
        { s with
          escapeSequence := setAt s.escapeSequence s.escapeSequenceIndex.toNat b
          escapeSequenceIndex :=
            if s.escapeSequenceIndex < 11 then s.escapeSequenceIndex + 1
            else s.escapeSequenceIndex } := by
      unfold TERM_ProcessChar
      rw [if_neg (by simpa using hb1.2), if_neg (by simp [ha]), if_neg (by omega)]
      rw [escSeqChar_eq s b (by omega), if_neg hb1.1]
    obtain ⟨buf, idx, i0, i11, e⟩ := ih
      { s with
        escapeSequence := setAt s.escapeSequence s.escapeSequenceIndex.toNat b
        escapeSequenceIndex :=
          if s.escapeSequenceIndex < 11 then s.escapeSequenceIndex + 1
          else s.escapeSequenceIndex }
      ha (by show (0 : Int) ≤ ite _ _ _; split_ifs <;> omega)
      (by show ite _ _ _ ≤ (11 : Int); split_ifs <;> omega)
      (fun x hx => hb x (List.mem_cons_of_mem _ hx))
    refine ⟨buf, idx, i0, i11, ?_⟩
    show feed (TERM_ProcessChar s b) bs = _
    rw [step, e]

/-- A terminating letter that no handler is registered for leaves the terminal
as it is. -/
theorem escapeSequence_unknown (x : TERM_terminal_t) (letter : Nat)
    (hunk : letter ∉ [65, 66, 67, 68, 69, 70, 71, 72, 74, 75, 102, 104, 108, 109, 115, 117]) :
    TERM_ProcessEscapeSequence x letter = x := by
  simp only [List.mem_cons, List.mem_singleton, List.not_mem_nil, or_false, not_or] at hunk
  obtain ⟨h1, h2, h3, h4, h5, h6, h7, h8, h9, h10, h11, h12, h13, h14, h15, h16⟩ := hunk
  unfold TERM_ProcessEscapeSequence
  rw [if_neg h1, if_neg h2, if_neg h3, if_neg h4, if_neg h5, if_neg h6, if_neg h7, if_neg h8,
    if_neg h9, if_neg h10, if_neg h11, if_neg h12, if_neg h13, if_neg h14, if_neg h15, if_neg h16]

/-- A printable byte is stored in the physical cell the cursor points at, and
the store survives the cursor advance (a scroll blanks another row). -/
theorem processChar_stores (t : TERM_terminal_t) (hinv : TermInv t)
    (hesc : t.escapeSequenceActive = false) (b : Nat) (hb : 32 ≤ b ∧ b ≤ 126) :
    (TERM_ProcessChar t b).termBufferRows (t.termBuffer t.currentRow) t.currentColumn =
      { character := b, attributes := t.currentAttributes } := by
  obtain ⟨hc, hp⟩ := hinv
  have hrow : t.currentRow < 8 := hc.1
  rw [processChar_printable t b hesc hb]
  split_ifs with h1 h2 h3
  · show writeCell _ _ _ _ _ _ = _
    rw [writeCell_apply, if_pos ⟨rfl, rfl⟩]
  · show writeCell _ _ _ _ _ _ = _
    rw [writeCell_apply, if_pos ⟨rfl, rfl⟩]
  · show clearCells (writeCell _ _ _ _) (t.termBuffer 0) 0 TERMFONT_CHARS_PER_LINE _ _ = _
    rw [clearCells_apply]
    have hne : t.termBuffer t.currentRow ≠ t.termBuffer 0 := by
      intro e
      have := hp.2 t.currentRow 0 hrow (by simp) e
      omega
    rw [if_neg (fun h => hne h.1), writeCell_apply, if_pos ⟨rfl, rfl⟩]
  · show writeCell _ _ _ _ _ _ = _
    rw [writeCell_apply, if_pos ⟨rfl, rfl⟩]

/-- Where a printable byte shows on the logical grid after it has been
processed: at the old cursor position, or one row higher when the store made
the terminal scroll. -/
theorem processChar_shows (t : TERM_terminal_t) (hinv : TermInv t)
    (hesc : t.escapeSequenceActive = false) (b : Nat) (hb : 32 ≤ b ∧ b ≤ 126) :
    cellAt (TERM_ProcessChar t b)
        (if t.currentRow = 7 ∧ t.currentColumn = 20 ∧ t.disableLineWrap = false then 6
          else t.currentRow) t.currentColumn =
      { character := b, attributes := t.currentAttributes } := by
  obtain ⟨hc, hp⟩ := hinv
  have hrow : t.currentRow < 8 := hc.1
  have hcol : t.currentColumn < 21 := hc.2.1
  have hw := fun r (hr : r < 8) => cellAt_writeCell t hp t.currentRow t.currentColumn
    { character := b, attributes := t.currentAttributes } r t.currentColumn hrow hr
  rw [processChar_printable t b hesc hb]
  by_cases h1 : t.currentColumn < 20
  · rw [if_pos h1, if_neg (by omega)]
    exact (hw _ hrow).trans (if_pos ⟨rfl, rfl⟩)
  · rw [if_neg h1]
    by_cases h2 : t.currentRow < 7
    · rw [if_pos h2, if_neg (by omega)]
      exact (hw _ hrow).trans (if_pos ⟨rfl, rfl⟩)
    · rw [if_neg h2]
      by_cases h3 : t.disableLineWrap = false
      · rw [if_pos h3, if_pos ⟨by omega, by omega, h3⟩]
        refine (scroll_cellAt_lt
          { t with
            termBufferRows := writeCell t.termBufferRows (t.termBuffer t.currentRow)
              t.currentColumn { character := b, attributes := t.currentAttributes }
            currentColumn := 0 } hp 6 t.currentColumn (by omega)).trans ?_
        have e7 : t.currentRow = 7 := by omega
        have e := hw 7 (by omega)
        rw [if_pos ⟨e7.symm, rfl⟩] at e
        exact e
      · rw [if_neg h3, if_neg (fun h => h3 h.2.2)]
        exact (hw _ hrow).trans (if_pos ⟨rfl, rfl⟩)

/-- C7. Escape robustness: in every reachable terminal state, for every string
of bytes that are neither letters nor ESC, of any length (also longer than the
12-byte accumulator), and every terminating letter without a handler, feeding
`ESC [ bytes letter` leaves all cells (physical rows and row pointers), the
cursor, the current attributes and the mode flags `directLCDUpdate`,
`cursorVisible`, `disableLineWrap` unchanged and ends the escape state; the
next printable byte is then processed as an ordinary character and stored,
with the current attributes, in the cell `termBuffer[row][column]` of the
cursor position held before the ESC; on the logical grid it shows at that
position, or at (6, 20) when the position was (7, 20) and the store made the
terminal scroll. -/
theorem escape_robustness (s : TERM_terminal_t) (hs : Reachable s) (bytes : List Nat)
    (letter : Nat) (hbytes : ∀ b ∈ bytes, ¬ isLetter b ∧ b ≠ 27) (hletter : isLetter letter)
    (hunk : letter ∉ [65, 66, 67, 68, 69, 70, 71, 72, 74, 75, 102, 104, 108, 109, 115, 117]) :
    (feed s ([27, 91] ++ bytes ++ [letter])).termBufferRows = s.termBufferRows ∧
    (feed s ([27, 91] ++ bytes ++ [letter])).termBuffer = s.termBuffer ∧
    (feed s ([27, 91] ++ bytes ++ [letter])).currentRow = s.currentRow ∧
    (feed s ([27, 91] ++ bytes ++ [letter])).currentColumn = s.currentColumn ∧
    (feed s ([27, 91] ++ bytes ++ [letter])).currentAttributes = s.currentAttributes ∧
    (feed s ([27, 91] ++ bytes ++ [letter])).directLCDUpdate = s.directLCDUpdate ∧
    (feed s ([27, 91] ++ bytes ++ [letter])).cursorVisible = s.cursorVisible ∧
    (feed s ([27, 91] ++ bytes ++ [letter])).disableLineWrap = s.disableLineWrap ∧
    (feed s ([27, 91] ++ bytes ++ [letter])).escapeSequenceActive = false ∧
    ∀ b, 32 ≤ b ∧ b ≤ 126 →
      TERM_ProcessChar (feed s ([27, 91] ++ bytes ++ [letter])) b =
        TERM_ProcessOrdinaryChar (feed s ([27, 91] ++ bytes ++ [letter])) b ∧
      (TERM_ProcessChar (feed s ([27, 91] ++ bytes ++ [letter])) b).termBufferRows
          (s.termBuffer s.currentRow) s.currentColumn =
        { character := b, attributes := s.currentAttributes } ∧
      cellAt (TERM_ProcessChar (feed s ([27, 91] ++ bytes ++ [letter])) b)
          (if s.currentRow = 7 ∧ s.currentColumn = 20 ∧ s.disableLineWrap = false then 6
            else s.currentRow) s.currentColumn =
        { character := b, attributes := s.currentAttributes } := by
  have hinv := reachable_inv s hs
  have h27 : letter ≠ 27 := by unfold isLetter at hletter; omega
  have e1 : feed s ([27, 91] ++ bytes ++ [letter]) =
      feed (feed (feed s [27, 91]) bytes) [letter] := by
    simp [feed, List.foldl_append]
  have e2 : feed s [27, 91] =
      { s with escapeSequenceActive := true, escapeSequenceIndex := 0 } := by
    simp [feed, TERM_ProcessChar]
  obtain ⟨buf, idx, i0, i11, e3⟩ := feed_plain_bytes bytes
    { s with escapeSequenceActive := true, escapeSequenceIndex := 0 } rfl (le_refl _)
    (by show (0 : Int) ≤ 11; omega) hbytes
  have e4 : feed s ([27, 91] ++ bytes ++ [letter]) =
      { s with
        escapeSequence := setAt buf idx.toNat letter
        escapeSequenceIndex := if idx < 11 then idx + 1 else idx
        escapeSequenceActive := false } := by
    rw [e1, e2, e3]
    show TERM_ProcessChar _ letter = _
    unfold TERM_ProcessChar
    rw [if_neg (by simpa using h27), if_neg (by simp), if_neg (by simp only []; omega)]
    rw [escSeqChar_eq _ letter (by simp only []; omega), if_pos hletter]
    rw [escapeSequence_unknown _ letter hunk]
  rw [e4]
  refine ⟨rfl, rfl, rfl, rfl, rfl, rfl, rfl, rfl, rfl, ?_⟩
  intro b hb
  refine ⟨?_, ?_, ?_⟩
  · unfold TERM_ProcessChar
    rw [if_neg (by simp only [TERMINAL_ESC]; omega), if_pos rfl]
  · exact processChar_stores
      { s with
        escapeSequence := setAt buf idx.toNat letter
        escapeSequenceIndex := if idx < 11 then idx + 1 else idx
        escapeSequenceActive := false } hinv rfl b hb
  · exact processChar_shows
      { s with
        escapeSequence := setAt buf idx.toNat letter
        escapeSequenceIndex := if idx < 11 then idx + 1 else idx
        escapeSequenceActive := false } hinv rfl b hb

theorem escape_robustness_witness :
    Reachable (feed (TERM_Init 4 2 true 0) [65, 66]) ∧
      (feed (feed (TERM_Init 4 2 true 0) [65, 66])
        ([27, 91] ++ [57, 57, 57, 57, 57, 57, 57, 57, 57, 57, 57, 57, 57, 57, 57, 57] ++
          [88])).currentColumn = (feed (TERM_Init 4 2 true 0) [65, 66]).currentColumn ∧
      (feed (feed (TERM_Init 4 2 true 0) [65, 66])
        ([27, 91] ++ [57, 57, 57, 57, 57, 57, 57, 57, 57, 57, 57, 57, 57, 57, 57, 57] ++
          [88])).escapeSequenceActive = false :=
  ⟨reachable_feed _ _ (Reachable.init 4 2 true 0) (by decide),
    (escape_robustness (feed (TERM_Init 4 2 true 0) [65, 66])
      (reachable_feed _ _ (Reachable.init 4 2 true 0) (by decide))
      [57, 57, 57, 57, 57, 57, 57, 57, 57, 57, 57, 57, 57, 57, 57, 57] 88
      (by decide) (by decide) (by decide)).2.2.2.1,
    (escape_robustness (feed (TERM_Init 4 2 true 0) [65, 66])
      (reachable_feed _ _ (Reachable.init 4 2 true 0) (by decide))
      [57, 57, 57, 57, 57, 57, 57, 57, 57, 57, 57, 57, 57, 57, 57, 57] 88
      (by decide) (by decide) (by decide)).2.2.2.2.2.2.2.2.1⟩

/-! ## Writing whole lines -/

theorem writeRun_apply (chars : List Nat) :
    ∀ (rows : Nat → Nat → TERM_termbufferdata_t) (phys column : Nat)
      (a : TERM_graphicAttributes_t) (r c : Nat),
      writeRun rows phys column a chars r c =
        if r = phys ∧ column ≤ c ∧ c < column + chars.length then
          { character := chars.getD (c - column) 0, attributes := a }
        else rows r c := by
  induction chars with
  | nil =>
    intro rows phys column a r c
    have h : ¬ (r = phys ∧ column ≤ c ∧ c < column + ([] : List Nat).length) := by simp
    rw [if_neg h]
    rfl
  | cons ch chs ih =>
    intro rows phys column a r c
    rw [writeRun, ih, writeCell_apply]
    by_cases h1 : r = phys
    · by_cases h2 : c = column
      · subst h1; subst h2
        simp
      · by_cases h3 : column + 1 ≤ c ∧ c < column + 1 + chs.length
        · have h4 : column ≤ c ∧ c < column + (ch :: chs).length := by
            simp only [List.length_cons]; omega
          have h5 : c - column = (c - (column + 1)) + 1 := by omega
          rw [if_pos ⟨h1, h3⟩, if_pos ⟨h1, h4⟩, h5, List.getD_cons_succ]
        · have h4 : ¬ (column ≤ c ∧ c < column + (ch :: chs).length) := by
            simp only [List.length_cons]; omega
          simp only [h2, h3, h4, and_false, if_false]
    · simp only [h1, false_and, if_false]

/-- Printable characters that fit before the last column are stored one after
the other and move the cursor right. -/
theorem feed_inrow (chars : List Nat) :
    ∀ (t : TERM_terminal_t), t.escapeSequenceActive = false →
      (∀ ch ∈ chars, 32 ≤ ch ∧ ch ≤ 126) → t.currentColumn + chars.length ≤ 20 →
      feed t chars =
        { t with
          termBufferRows :=
            writeRun t.termBufferRows (t.termBuffer t.currentRow) t.currentColumn
              t.currentAttributes chars
          currentColumn := t.currentColumn + chars.length } := by
  induction chars with
  | nil => intro t _ _ _; rfl
  | cons ch chs ih =>
    intro t hesc hpr hlen
    simp only [List.length_cons] at hlen
    have h1 := hpr ch (List.mem_cons_self _ _)
    show feed (TERM_ProcessChar t ch) chs = _
    rw [processChar_printable t ch hesc h1, if_pos (by omega)]
    rw [ih
      { t with
        termBufferRows := writeCell t.termBufferRows (t.termBuffer t.currentRow) t.currentColumn
          { character := ch, attributes := t.currentAttributes }
        currentColumn := t.currentColumn + 1 }
      hesc (fun x hx => hpr x (List.mem_cons_of_mem _ hx))
      (by show t.currentColumn + 1 + chs.length ≤ 20; omega)]
    simp only [writeRun, List.length_cons]
    have e : t.currentColumn + 1 + chs.length = t.currentColumn + (chs.length + 1) := by omega
    rw [e]

/-- Logical cells after a full line has been stored in the row of the cursor. -/
theorem line_cells (t : TERM_terminal_t) (hp : RowsPerm t.termBuffer) (hrow : t.currentRow < 8)
    (front : List Nat) (last : Nat) (hf : front.length = 20) (r c : Nat) (hr : r < 8)
    (hc : c < 21) :
    writeCell
        (writeRun t.termBufferRows (t.termBuffer t.currentRow) 0 t.currentAttributes front)
        (t.termBuffer t.currentRow) 20 { character := last, attributes := t.currentAttributes }
        (t.termBuffer r) c =
      if r = t.currentRow then
        { character := (front ++ [last]).getD c 0, attributes := t.currentAttributes }
      else cellAt t r c := by
  rw [writeCell_apply, writeRun_apply]
  by_cases h : r = t.currentRow
  · rw [h, if_pos rfl]
    by_cases h20 : c = 20
    · rw [if_pos ⟨rfl, h20⟩, h20, List.getD_append_right _ _ _ _ (by omega), hf]
      rfl
    · rw [if_neg (fun x => h20 x.2), if_pos ⟨rfl, Nat.zero_le _, by omega⟩]
      rw [List.getD_append _ _ _ _ (by omega)]
      rfl
  · have hne : t.termBuffer r ≠ t.termBuffer t.currentRow := fun e =>
      h (hp.2 r t.currentRow (by simpa using hr) (by simpa using hrow) e)
    rw [if_neg (fun x => hne x.1), if_neg (fun x => hne x.1), if_neg h]
    rfl

theorem feed_append (s : TERM_terminal_t) (xs ys : List Nat) :
    feed s (xs ++ ys) = feed (feed s xs) ys := by
  simp [feed, List.foldl_append]

/-- The state after a line of 21 printable characters written from column 0:
normal form by the position of the cursor row and the wrap flag. -/
theorem feed_line_eq (t : TERM_terminal_t) (hesc : t.escapeSequenceActive = false)
    (hcol : t.currentColumn = 0) (front : List Nat) (last : Nat) (hf : front.length = 20)
    (hpr : ∀ ch ∈ front ++ [last], 32 ≤ ch ∧ ch ≤ 126) :
    feed t (front ++ [last]) =
      if t.currentRow < 7 then
        { t with
          termBufferRows :=
            writeCell
              (writeRun t.termBufferRows (t.termBuffer t.currentRow) 0 t.currentAttributes front)
              (t.termBuffer t.currentRow) 20
              { character := last, attributes := t.currentAttributes }
          currentColumn := 0
          currentRow := t.currentRow + 1 }
      else if t.disableLineWrap = false then
        TERM_ScrollTerminalOneLine
          { t with
            termBufferRows :=
              writeCell
                (writeRun t.termBufferRows (t.termBuffer t.currentRow) 0 t.currentAttributes front)
                (t.termBuffer t.currentRow) 20
                { character := last, attributes := t.currentAttributes }
            currentColumn := 0 }
      else
        { t with
          termBufferRows :=
            writeCell
              (writeRun t.termBufferRows (t.termBuffer t.currentRow) 0 t.currentAttributes front)
              (t.termBuffer t.currentRow) 20
              { character := last, attributes := t.currentAttributes }
          currentColumn := 0
          currentRow := 0 } := by
  have hfront : ∀ ch ∈ front, 32 ≤ ch ∧ ch ≤ 126 := fun ch h =>
    hpr ch (List.mem_append_left _ h)
  have hlast : 32 ≤ last ∧ last ≤ 126 := hpr last (by simp)
  rw [feed_append, feed_inrow front t hesc hfront (by omega), hcol, hf]
  have e := processChar_printable
    { t with
      termBufferRows :=
        writeRun t.termBufferRows (t.termBuffer t.currentRow) 0 t.currentAttributes front
      currentColumn := 0 + 20 } last hesc hlast
  simp only [Nat.zero_add, Nat.lt_irrefl, if_false] at e
  exact e

/-- One more line of 21 printable characters, seen on the logical rows. -/
theorem feed_line (t : TERM_terminal_t) (hinv : TermInv t)
    (hesc : t.escapeSequenceActive = false) (hcol : t.currentColumn = 0)
    (hwrap : t.disableLineWrap = false) (line : List Nat)
    (hlen : line.length = 21) (hpr : ∀ ch ∈ line, 32 ≤ ch ∧ ch ≤ 126) :
    TermInv (feed t line) ∧ (feed t line).escapeSequenceActive = false ∧
      (feed t line).currentAttributes = t.currentAttributes ∧
      (feed t line).disableLineWrap = false ∧ (feed t line).currentColumn = 0 ∧
      (t.currentRow < 7 →
        (feed t line).currentRow = t.currentRow + 1 ∧
        ∀ r c, r < 8 → c < 21 →
          cellAt (feed t line) r c =
            if r = t.currentRow then
              { character := line.getD c 0, attributes := t.currentAttributes }
            else cellAt t r c) ∧
      (t.currentRow = 7 →
        (feed t line).currentRow = 7 ∧
        (∀ r c, r < 7 → c < 21 →
          cellAt (feed t line) r c =
            if r = 6 then { character := line.getD c 0, attributes := t.currentAttributes }
            else cellAt t (r + 1) c) ∧
        ∀ c, c < 21 → cellAt (feed t line) 7 c = blankCell) := by
  have hinv' := feed_inv line t hinv
  obtain ⟨hc, hp⟩ := hinv
  have hrow : t.currentRow < 8 := hc.1
  obtain ⟨front, last, rfl⟩ : ∃ front last, line = front ++ [last] := by
    rcases List.eq_nil_or_concat line with h | ⟨L, b, h⟩
    · rw [h] at hlen; simp at hlen
    · exact ⟨L, b, by rw [h, List.concat_eq_append]⟩
  have hf : front.length = 20 := by
    simp only [List.length_append, List.length_singleton] at hlen
    omega
  have e := feed_line_eq t hesc hcol front last hf hpr
  refine ⟨hinv', ?_, ?_, ?_, ?_, ?_, ?_⟩
  · rw [e]; split_ifs <;> exact hesc
  · rw [e]; split_ifs <;> rfl
  · rw [e]; split_ifs <;> exact hwrap
  · rw [e]; split_ifs <;> rfl
  · intro h7
    rw [e, if_pos h7]
    refine ⟨rfl, ?_⟩
    intro r c hr hc21
    exact line_cells t hp hrow front last hf r c hr hc21
  · intro h7
    rw [e, if_neg (by omega), if_pos hwrap]
    refine ⟨rfl, ?_, ?_⟩
    · intro r c hr hc21
      refine (scroll_cellAt_lt
        { t with
          termBufferRows :=
            writeCell
              (writeRun t.termBufferRows (t.termBuffer t.currentRow) 0 t.currentAttributes front)
              (t.termBuffer t.currentRow) 20
              { character := last, attributes := t.currentAttributes }
          currentColumn := 0 } hp r c hr).trans ?_
      have e2 := line_cells t hp hrow front last hf (r + 1) c (by omega) hc21
      have e6 : (r + 1 = t.currentRow) ↔ (r = 6) := by omega
      simp only [e6] at e2
      exact e2
    · intro c hc21
      exact scroll_cellAt_last _ c hc21

/-- State of a freshly initialised terminal after any number of full lines:
the cursor is at the start of row `min k 7`, the rows above it hold the last
lines in order, and once a scroll has happened the last row is blank. -/
theorem lines_fed (tab verticaltab : Nat) (cursorVisible : Bool) (flagPadding : Nat)
    (lines : List (List Nat)) :
    (∀ l ∈ lines, l.length = 21 ∧ ∀ ch ∈ l, 32 ≤ ch ∧ ch ≤ 126) →
    TermInv (feed (TERM_Init tab verticaltab cursorVisible flagPadding) lines.flatten) ∧
      (feed (TERM_Init tab verticaltab cursorVisible flagPadding) lines.flatten).escapeSequenceActive = false ∧
      (feed (TERM_Init tab verticaltab cursorVisible flagPadding) lines.flatten).currentAttributes =
        TERM_defaultAttributes ∧
      (feed (TERM_Init tab verticaltab cursorVisible flagPadding) lines.flatten).disableLineWrap = false ∧
      (feed (TERM_Init tab verticaltab cursorVisible flagPadding) lines.flatten).currentColumn = 0 ∧
      (feed (TERM_Init tab verticaltab cursorVisible flagPadding) lines.flatten).currentRow =
        min lines.length 7 ∧
      (∀ i c, i < min lines.length 7 → c < 21 →
        cellAt (feed (TERM_Init tab verticaltab cursorVisible flagPadding) lines.flatten) i c =
          { character := (lines.getD (lines.length - 7 + i) []).getD c 0,
            attributes := TERM_defaultAttributes }) ∧
      (8 ≤ lines.length → ∀ c, c < 21 →
        cellAt (feed (TERM_Init tab verticaltab cursorVisible flagPadding) lines.flatten) 7 c = blankCell) := by
  induction lines using List.reverseRecOn with
  | nil =>
    intro _
    refine ⟨init_inv _ _ _ _, rfl, rfl, rfl, rfl, rfl, ?_, ?_⟩
    · intro i c hi _
      simp at hi
    · intro h
      simp at h
  | append_singleton ls l ih =>
    intro hall
    have hls : ∀ x ∈ ls, x.length = 21 ∧ ∀ ch ∈ x, 32 ≤ ch ∧ ch ≤ 126 := fun x hx =>
      hall x (List.mem_append_left _ hx)
    have hl := hall l (by simp)
    obtain ⟨iinv, iesc, iattr, iwrap, icol, irow, icells, _⟩ := ih hls
    have efeed : feed (TERM_Init tab verticaltab cursorVisible flagPadding) (ls ++ [l]).flatten =
        feed (feed (TERM_Init tab verticaltab cursorVisible flagPadding) ls.flatten) l := by
      rw [List.flatten_append, feed_append]
      simp
    obtain ⟨finv, fesc, fattr, fwrap, fcol, flow, flast⟩ :=
      feed_line _ iinv iesc icol iwrap l hl.1 hl.2
    rw [efeed]
    have hlen : (ls ++ [l]).length = ls.length + 1 := by simp
    refine ⟨finv, fesc, fattr.trans iattr, fwrap, fcol, ?_, ?_, ?_⟩
    · by_cases h7 : ls.length < 7
      · rw [(flow (by omega)).1, irow, hlen]; omega
      · rw [(flast (by omega)).1, hlen]; omega
    · intro i c hi hc
      rw [hlen] at hi ⊢
      by_cases h7 : ls.length < 7
      · rw [(flow (by omega)).2 i c (by omega) hc, irow, iattr]
        have e0 : ls.length + 1 - 7 + i = i := by omega
        rw [e0]
        by_cases hik : i = min ls.length 7
        · rw [if_pos hik]
          have : i = ls.length := by omega
          rw [this, List.getD_append_right _ _ _ _ (le_refl _), Nat.sub_self,
            List.getD_cons_zero]
        · rw [if_neg hik, icells i c (by omega) hc]
          have e1 : ls.length - 7 + i = i := by omega
          rw [e1, List.getD_append _ _ _ _ (by omega)]
      · rw [(flast (by omega)).2.1 i c (by omega) hc, iattr]
        by_cases h6 : i = 6
        · rw [if_pos h6]
          have e0 : ls.length + 1 - 7 + i = ls.length := by omega
          rw [e0, List.getD_append_right _ _ _ _ (le_refl _), Nat.sub_self,
            List.getD_cons_zero]
        · rw [if_neg h6, icells (i + 1) c (by omega) hc]
          have e0 : ls.length + 1 - 7 + i = ls.length - 7 + (i + 1) := by omega
          rw [e0, List.getD_append _ _ _ _ (by omega)]
    · intro h8 c hc
      rw [hlen] at h8
      exact (flast (by omega)).2.2 c hc

/-- C8. Scrolling never loses or duplicates rows: from a freshly initialised
terminal, after `N ≥ 1` lines of exactly 21 printable characters each have been
written through `TERM_ProcessChar`: if `N < 8`, logical rows 0..N-1 hold lines
1..N (with default attributes) and the cursor is at (N, 0); if `N ≥ 8`, logical
rows 0..6 hold lines N-6..N in order, row 7 is blank with default attributes,
and the cursor is at (7, 0).  (Lines are numbered from 0 in `lines`.) -/
theorem scroll_keeps_rows (tab verticaltab : Nat) (cursorVisible : Bool) (flagPadding : Nat)
    (lines : List (List Nat)) (hN : 1 ≤ lines.length)
    (hlines : ∀ l ∈ lines, l.length = 21 ∧ ∀ ch ∈ l, 32 ≤ ch ∧ ch ≤ 126) :
    (lines.length < 8 →
      (∀ i c, i < lines.length → c < 21 →
        cellAt (feed (TERM_Init tab verticaltab cursorVisible flagPadding) lines.flatten) i c =
          { character := (lines.getD i []).getD c 0, attributes := TERM_defaultAttributes }) ∧
      TERM_GetCursorRow (feed (TERM_Init tab verticaltab cursorVisible flagPadding) lines.flatten) =
        lines.length ∧
      TERM_GetCursorColumn (feed (TERM_Init tab verticaltab cursorVisible flagPadding) lines.flatten) = 0) ∧
    (8 ≤ lines.length →
      (∀ i c, i < 7 → c < 21 →
        cellAt (feed (TERM_Init tab verticaltab cursorVisible flagPadding) lines.flatten) i c =
          { character := (lines.getD (lines.length - 7 + i) []).getD c 0,
            attributes := TERM_defaultAttributes }) ∧
      (∀ c, c < 21 →
        cellAt (feed (TERM_Init tab verticaltab cursorVisible flagPadding) lines.flatten) 7 c = blankCell) ∧
      TERM_GetCursorRow (feed (TERM_Init tab verticaltab cursorVisible flagPadding) lines.flatten) = 7 ∧
      TERM_GetCursorColumn (feed (TERM_Init tab verticaltab cursorVisible flagPadding) lines.flatten) = 0) := by
  obtain ⟨_, _, _, _, hcol, hrow, hcells, hblank⟩ :=
    lines_fed tab verticaltab cursorVisible flagPadding lines hlines
  constructor
  · intro h
    refine ⟨?_, ?_, hcol⟩
    · intro i c hi hc
      have e := hcells i c (by omega) hc
      have e0 : lines.length - 7 + i = i := by omega
      rw [e0] at e
      exact e
    · show (feed _ _).currentRow = _
      rw [hrow]; omega
  · intro h
    refine ⟨?_, hblank h, ?_, hcol⟩
    · intro i c hi hc
      exact hcells i c (by omega) hc
    · show (feed _ _).currentRow = _
      rw [hrow]; omega

set_option maxRecDepth 20000 in
theorem scroll_keeps_rows_witness :
    (1 ≤ [List.replicate 21 65, List.replicate 21 66, List.replicate 21 67,
        List.replicate 21 68, List.replicate 21 69, List.replicate 21 70,
        List.replicate 21 71, List.replicate 21 72, List.replicate 21 73].length) ∧
      (∀ c, c < 21 →
        cellAt (feed (TERM_Init 4 2 true 0)
          [List.replicate 21 65, List.replicate 21 66, List.replicate 21 67,
            List.replicate 21 68, List.replicate 21 69, List.replicate 21 70,
            List.replicate 21 71, List.replicate 21 72, List.replicate 21 73].flatten) 7 c =
          blankCell) ∧
      TERM_GetCursorRow (feed (TERM_Init 4 2 true 0)
          [List.replicate 21 65, List.replicate 21 66, List.replicate 21 67,
            List.replicate 21 68, List.replicate 21 69, List.replicate 21 70,
            List.replicate 21 71, List.replicate 21 72, List.replicate 21 73].flatten) = 7 :=
  ⟨by decide,
    ((scroll_keeps_rows 4 2 true 0
      [List.replicate 21 65, List.replicate 21 66, List.replicate 21 67,
        List.replicate 21 68, List.replicate 21 69, List.replicate 21 70,
        List.replicate 21 71, List.replicate 21 72, List.replicate 21 73]
      (by decide) (by decide)).2 (by decide)).2.1,
    ((scroll_keeps_rows 4 2 true 0
      [List.replicate 21 65, List.replicate 21 66, List.replicate 21 67,
        List.replicate 21 68, List.replicate 21 69, List.replicate 21 70,
        List.replicate 21 71, List.replicate 21 72, List.replicate 21 73]
      (by decide) (by decide)).2 (by decide)).2.2.1⟩

/-! ## The SGR loop never needs more than 13 passes -/

theorem extract_past_end (s : TERM_terminal_t) (k st : Nat) (hk : 20 ≤ k) :
    TERM_ExtractParameter (escPtr s k) st = (0, st) := by
  have h : escPtr s k 0 = 0 := by
    unfold escPtr
    simp only [TERM_MAX_ESCAPE_LENGTH]
    repeat rw [if_neg (by omega)]
  simp [TERM_ExtractParameter, extractLoop, h]

/-- Passes beyond the 13 that `TERM_ProcessSelectGraphicRendition` is given are
never used: every pass that continues moves `startIndex` forward by at least
2, so with `2 * passes + startIndex ≥ 20` the loop has ended by itself. -/
theorem sgrLoop_passes (passes : Nat) :
    ∀ (s : TERM_terminal_t) (startIndex more : Nat), 20 ≤ 2 * passes + startIndex →
      sgrLoop (passes + more) s startIndex = sgrLoop passes s startIndex := by
  induction passes with
  | zero =>
    intro s k more hk
    cases more with
    | zero => rfl
    | succ m =>
      rw [Nat.zero_add]
      show sgrLoop (m + 1) s k = s
      simp only [Nat.mul_zero, Nat.zero_add] at hk
      simp only [sgrLoop, extract_past_end s k _ hk]
      simp
  | succ n ih =>
    intro s k more hk
    have e : n + 1 + more = (n + more) + 1 := by omega
    rw [e]
    simp only [sgrLoop]
    split_ifs with h1 h2
    all_goals first
      | exact ih _ _ more (by omega)
      | rfl

/-! ## Reads behind the accumulator -/

/-- C12 (the code at the failing input). The sequence `ESC [ 1 0 ; 2 0 ; 3 0 ; 4 0 m`
has the form `ESC[nn;nn;nn;nnm` that `TERM_MAX_ESCAPE_LENGTH` is documented
for: its twelve bytes fill the accumulator and the `m` stands at index 11.
While it is interpreted, the accumulator is read at the indices 0..12: after
the parameter `40` the SGR loop starts one more `TERM_ExtractParameter` at
index 12, outside the 12-byte buffer. -/
theorem sgr_reads_past_accumulator :
    Reachable (feed (TERM_Init 4 2 true 0) [27, 91, 49, 48, 59, 50, 48, 59, 51, 48, 59, 52, 48]) ∧
    processCharReads
        (feed (TERM_Init 4 2 true 0) [27, 91, 49, 48, 59, 50, 48, 59, 51, 48, 59, 52, 48]) 109 =
      [0, 1, 2, 3, 4, 5, 6, 7, 8, 9, 10, 11, 12] :=
  ⟨reachable_feed _ _ (Reachable.init 4 2 true 0) (by decide), by decide⟩

/-! ## Erasing -/

theorem physRow_eq_iff (tb : Nat → Nat) (hp : RowsPerm tb) (r r' : Nat) (hr : r < 8)
    (hr' : r' < 8) : tb r = tb r' ↔ r = r' :=
  ⟨fun e => hp.2 r r' (by simpa using hr) (by simpa using hr') e, fun e => by rw [e]⟩

theorem cellAt_clearCells (t : TERM_terminal_t) (hp : RowsPerm t.termBuffer)
    (rows : Nat → Nat → TERM_termbufferdata_t) (row start n r c : Nat)
    (hrow : row < 8) (hr : r < 8) :
    clearCells rows (t.termBuffer row) start n (t.termBuffer r) c =
      if r = row ∧ start ≤ c ∧ c < start + n then blankCell else rows (t.termBuffer r) c := by
  rw [clearCells_apply]
  have e := physRow_eq_iff t.termBuffer hp r row hr hrow
  simp only [e]

theorem downCount_small (n : Nat) (h0 : 0 < n) (h : n < 256) : downCount n = n := by
  unfold downCount
  rw [Nat.mod_eq_of_lt h, if_neg (by omega)]

theorem upCount_lt (a b : Nat) (h : a < b) : upCount a b = b - a := by
  unfold upCount
  rw [if_pos h]

/-- Closed form of the row loop of `TERM_ClearFromCursorToEnd` on the logical
grid. -/
theorem clearToEndRows_cellAt (t : TERM_terminal_t) (hp : RowsPerm t.termBuffer)
    (hcol : t.currentColumn < 21) (rowStop : Nat) (todo : Nat) :
    ∀ (rows : Nat → Nat → TERM_termbufferdata_t) (row : Nat), row + todo ≤ 8 →
      ∀ r c, r < 8 → c < 21 →
        clearToEndRows t rowStop rows row todo (t.termBuffer r) c =
          if row ≤ r ∧ r < row + todo ∧ (if r = rowStop then t.currentColumn else 0) ≤ c then
            blankCell
          else rows (t.termBuffer r) c := by
  induction todo with
  | zero =>
    intro rows row _ r c _ _
    rw [if_neg (by omega)]
    rfl
  | succ n ih =>
    intro rows row hle r c hr hc
    simp only [clearToEndRows]
    rw [ih _ (row + 1) (by omega) r c hr hc, cellAt_clearCells t hp _ row _ _ r c (by omega) hr]
    have hcl : (if row = rowStop then t.currentColumn else 0) < 21 := by
      split_ifs <;> omega
    rw [upCount_lt _ _ (by simpa using hcl)]
    simp only [TERMFONT_CHARS_PER_LINE]
    by_cases hrr : r = row
    · subst hrr
      split_ifs <;> first | (exfalso; omega) | rfl
    · split_ifs <;> first | (exfalso; omega) | rfl

/-- Closed form of the row loop of `TERM_ClearFromCursorToStart` on the logical
grid. -/
theorem clearToStartRows_cellAt (t : TERM_terminal_t) (hp : RowsPerm t.termBuffer)
    (hcol : t.currentColumn < 21) (rowStop : Nat) (todo : Nat) :
    ∀ (rows : Nat → Nat → TERM_termbufferdata_t) (row : Nat), row + todo ≤ 8 →
      ∀ r c, r < 8 → c < 21 →
        clearToStartRows t rowStop rows row todo (t.termBuffer r) c =
          if row ≤ r ∧ r < row + todo ∧
              c < (if r = rowStop then t.currentColumn + 1 else 21) then
            blankCell
          else rows (t.termBuffer r) c := by
  induction todo with
  | zero =>
    intro rows row _ r c _ _
    rw [if_neg (by omega)]
    rfl
  | succ n ih =>
    intro rows row hle r c hr hc
    simp only [clearToStartRows]
    rw [ih _ (row + 1) (by omega) r c hr hc, cellAt_clearCells t hp _ row _ _ r c (by omega) hr]
    simp only [TERMFONT_CHARS_PER_LINE]
    have hcl : 0 < (if row = rowStop then t.currentColumn + 1 else 21) ∧
        (if row = rowStop then t.currentColumn + 1 else 21) < 256 := by
      split_ifs <;> omega
    rw [downCount_small _ hcl.1 hcl.2]
    by_cases hrr : r = row
    · subst hrr
      split_ifs <;> first | (exfalso; omega) | rfl
    · split_ifs <;> first | (exfalso; omega) | rfl

/-- Closed form of the row loop of `TERM_ClearWholeTerminal` on the logical
grid. -/
theorem clearAllRows_cellAt (t : TERM_terminal_t) (hp : RowsPerm t.termBuffer) (todo : Nat) :
    ∀ (rows : Nat → Nat → TERM_termbufferdata_t) (row : Nat), row + todo ≤ 8 →
      ∀ r c, r < 8 → c < 21 →
        clearAllRows t rows row todo (t.termBuffer r) c =
          if row ≤ r ∧ r < row + todo then blankCell else rows (t.termBuffer r) c := by
  induction todo with
  | zero =>
    intro rows row _ r c _ _
    rw [if_neg (by omega)]
    rfl
  | succ n ih =>
    intro rows row hle r c hr hc
    simp only [clearAllRows]
    rw [ih _ (row + 1) (by omega) r c hr hc, cellAt_clearCells t hp _ row _ _ r c (by omega) hr]
    simp only [TERMFONT_CHARS_PER_LINE]
    have e21 : downCount 21 = 21 := by decide
    simp only [e21]
    by_cases hrr : r = row
    · subst hrr
      split_ifs <;> first | (exfalso; omega) | rfl
    · split_ifs <;> first | (exfalso; omega) | rfl

/-- Effect of `TERM_ProcessClearPartOfScreen` when the extracted parameter is `p`. -/
theorem clearPartOfScreen_cells (x : TERM_terminal_t) (hinv : TermInv x) (p : Nat)
    (hpar : (if (TERM_ExtractParameter (escPtr x 0) uninitialised).1 = 0 then 0
      else (TERM_ExtractParameter (escPtr x 0) uninitialised).2) = p) :
    (TERM_ProcessClearPartOfScreen x).currentRow = x.currentRow ∧
    (TERM_ProcessClearPartOfScreen x).currentColumn = x.currentColumn ∧
    ∀ r c, r < 8 → c < 21 →
      cellAt (TERM_ProcessClearPartOfScreen x) r c =
        if edRegion p x.currentRow x.currentColumn r c then blankCell else cellAt x r c := by
  obtain ⟨hc, hp⟩ := hinv
  have hrow : x.currentRow < 8 := hc.1
  have hcol : x.currentColumn < 21 := hc.2.1
  unfold TERM_ProcessClearPartOfScreen
  simp only [hpar]
  by_cases h0 : p = 0
  · rw [if_pos h0]
    refine ⟨rfl, rfl, ?_⟩
    intro r c hr hc21
    show clearToEndRows x x.currentRow x.termBufferRows x.currentRow
      (TERMFONT_LINES_PER_SCREEN - x.currentRow) (x.termBuffer r) c = _
    rw [clearToEndRows_cellAt x hp hcol _ _ _ _ (by simp only [TERMFONT_LINES_PER_SCREEN]; omega)
      r c hr hc21]
    by_cases hrr : r = x.currentRow
    · have e1 : (x.currentRow ≤ r ∧ r < x.currentRow + (TERMFONT_LINES_PER_SCREEN - x.currentRow) ∧
          (if r = x.currentRow then x.currentColumn else 0) ≤ c) ↔
          edRegion p x.currentRow x.currentColumn r c := by
        unfold edRegion
        rw [if_pos hrr]
        simp only [TERMFONT_LINES_PER_SCREEN]
        omega
      simp only [e1]
      rfl
    · have e1 : (x.currentRow ≤ r ∧ r < x.currentRow + (TERMFONT_LINES_PER_SCREEN - x.currentRow) ∧
          (if r = x.currentRow then x.currentColumn else 0) ≤ c) ↔
          edRegion p x.currentRow x.currentColumn r c := by
        unfold edRegion
        rw [if_neg hrr]
        simp only [TERMFONT_LINES_PER_SCREEN]
        omega
      simp only [e1]
      rfl
  · rw [if_neg h0]
    by_cases h1 : p = 1
    · rw [if_pos h1]
      refine ⟨rfl, rfl, ?_⟩
      intro r c hr hc21
      show clearToStartRows x x.currentRow x.termBufferRows 0 (x.currentRow + 1)
        (x.termBuffer r) c = _
      rw [clearToStartRows_cellAt x hp hcol _ _ _ _ (by omega) r c hr hc21]
      by_cases hrr : r = x.currentRow
      · have e1 : (0 ≤ r ∧ r < 0 + (x.currentRow + 1) ∧
            c < (if r = x.currentRow then x.currentColumn + 1 else 21)) ↔
            edRegion p x.currentRow x.currentColumn r c := by
          unfold edRegion
          rw [if_pos hrr]
          omega
        simp only [e1]
        rfl
      · have e1 : (0 ≤ r ∧ r < 0 + (x.currentRow + 1) ∧
            c < (if r = x.currentRow then x.currentColumn + 1 else 21)) ↔
            edRegion p x.currentRow x.currentColumn r c := by
          unfold edRegion
          rw [if_neg hrr]
          omega
        simp only [e1]
        rfl
    · rw [if_neg h1]
      by_cases h2 : p = 2
      · rw [if_pos h2]
        refine ⟨rfl, rfl, ?_⟩
        intro r c hr hc21
        show clearAllRows x x.termBufferRows 0 TERMFONT_LINES_PER_SCREEN (x.termBuffer r) c = _
        rw [clearAllRows_cellAt x hp _ _ _ (by simp) r c hr hc21]
        have e1 : (0 ≤ r ∧ r < 0 + TERMFONT_LINES_PER_SCREEN) ↔
            edRegion p x.currentRow x.currentColumn r c := by
          unfold edRegion
          simp only [TERMFONT_LINES_PER_SCREEN]
          omega
        simp only [e1]
        rfl
      · rw [if_neg h2]
        refine ⟨rfl, rfl, ?_⟩
        intro r c _ _
        have e : ¬ edRegion p x.currentRow x.currentColumn r c := by
          unfold edRegion
          omega
        rw [if_neg e]

/-- Effect of `TERM_ProcessClearPartOfLine` when the extracted parameter is `p`. -/
theorem clearPartOfLine_cells (x : TERM_terminal_t) (hinv : TermInv x) (p : Nat)
    (hpar : (if (TERM_ExtractParameter (escPtr x 0) uninitialised).1 = 0 then 0
      else (TERM_ExtractParameter (escPtr x 0) uninitialised).2) = p) :
    (TERM_ProcessClearPartOfLine x).currentRow = x.currentRow ∧
    (TERM_ProcessClearPartOfLine x).currentColumn = x.currentColumn ∧
    ∀ r c, r < 8 → c < 21 →
      cellAt (TERM_ProcessClearPartOfLine x) r c =
        if elRegion p x.currentRow x.currentColumn r c then blankCell else cellAt x r c := by
  obtain ⟨hc, hp⟩ := hinv
  have hrow : x.currentRow < 8 := hc.1
  have hcol : x.currentColumn < 21 := hc.2.1
  unfold TERM_ProcessClearPartOfLine
  simp only [hpar]
  by_cases h0 : p = 0
  · rw [if_pos h0]
    refine ⟨rfl, rfl, ?_⟩
    intro r c hr hc21
    show clearCells x.termBufferRows (x.termBuffer x.currentRow) x.currentColumn
      (upCount x.currentColumn TERMFONT_CHARS_PER_LINE) (x.termBuffer r) c = _
    rw [cellAt_clearCells x hp _ _ _ _ r c hrow hr, upCount_lt _ _ (by simpa using hcol)]
    have e : (r = x.currentRow ∧ x.currentColumn ≤ c ∧
        c < x.currentColumn + (TERMFONT_CHARS_PER_LINE - x.currentColumn)) ↔
        elRegion p x.currentRow x.currentColumn r c := by
      unfold elRegion
      simp only [TERMFONT_CHARS_PER_LINE]
      omega
    simp only [e]
    rfl
  · rw [if_neg h0]
    by_cases h1 : p = 1
    · rw [if_pos h1]
      refine ⟨rfl, rfl, ?_⟩
      intro r c hr hc21
      show clearCells x.termBufferRows (x.termBuffer x.currentRow) 0
        (downCount (x.currentColumn + 1)) (x.termBuffer r) c = _
      rw [cellAt_clearCells x hp _ _ _ _ r c hrow hr, downCount_small _ (by omega) (by omega)]
      have e : (r = x.currentRow ∧ 0 ≤ c ∧ c < 0 + (x.currentColumn + 1)) ↔
          elRegion p x.currentRow x.currentColumn r c := by
        unfold elRegion
        omega
      simp only [e]
      rfl
    · rw [if_neg h1]
      by_cases h2 : p = 2
      · rw [if_pos h2]
        refine ⟨rfl, rfl, ?_⟩
        intro r c hr hc21
        show clearCells x.termBufferRows (x.termBuffer x.currentRow) 0
          (downCount TERMFONT_CHARS_PER_LINE) (x.termBuffer r) c = _
        rw [cellAt_clearCells x hp _ _ _ _ r c hrow hr,
          downCount_small _ (by simp) (by simp)]
        have e : (r = x.currentRow ∧ 0 ≤ c ∧ c < 0 + TERMFONT_CHARS_PER_LINE) ↔
            elRegion p x.currentRow x.currentColumn r c := by
          unfold elRegion
          simp only [TERMFONT_CHARS_PER_LINE]
          omega
        simp only [e]
        rfl
      · rw [if_neg h2]
        refine ⟨rfl, rfl, ?_⟩
        intro r c _ _
        have e : ¬ elRegion p x.currentRow x.currentColumn r c := by
          unfold elRegion
          omega
        rw [if_neg e]

/-- The state handed to the interpreter is well formed when the state before
the sequence was. -/
theorem csiState_inv (s : TERM_terminal_t) (body : List Nat) (letter : Nat) (h : TermInv s) :
    TermInv (csiState s body letter) := ⟨h.1, h.2⟩

/-- C13. Erase in display erases exactly its region: in every reachable
terminal state with cursor (row, col), for the parameter `p` of `ESC [ p J`
(written with at most 4 digits; omitted means 0): with `p = 0` (`ESC[J`,
`ESC[0J`) exactly the cells at or after the cursor in row-major order become
blank (character 32, default attributes), with `p = 1` exactly the cells at or
before the cursor, with `p = 2` every cell, with any other value none; every
cell of the grid outside that region keeps its character and attributes, and
the cursor position is unchanged. -/
theorem erase_in_display (s : TERM_terminal_t) (hs : Reachable s) (pd : List Nat)
    (hlen : pd.length ≤ 4) (hd : ∀ d ∈ pd, d < 10) :
    TERM_GetCursorRow (feed s ([27, 91] ++ asciiDigits pd ++ [74])) = s.currentRow ∧
    TERM_GetCursorColumn (feed s ([27, 91] ++ asciiDigits pd ++ [74])) = s.currentColumn ∧
    ∀ r c, r < 8 → c < 21 →
      cellAt (feed s ([27, 91] ++ asciiDigits pd ++ [74])) r c =
        if edRegion (if pd.length = 0 then 0 else decimalValue pd)
            s.currentRow s.currentColumn r c then blankCell
        else cellAt s r c := by
  have hinv := reachable_inv s hs
  have lJ : isLetter 74 := by decide
  have hl : (asciiDigits pd).length ≤ 11 := by rw [asciiDigits_length]; omega
  rw [feed_csi s _ 74 hl (asciiDigits_plain pd hd) lJ]
  have dJ : ∀ x, TERM_ProcessEscapeSequence x 74 = TERM_ProcessClearPartOfScreen x := by
    intro x; unfold TERM_ProcessEscapeSequence; simp
  rw [dJ]
  have pJ := extract_single s pd 74 hlen hd lJ
  have hpar : (if (TERM_ExtractParameter (escPtr (csiState s (asciiDigits pd) 74) 0)
        uninitialised).1 = 0 then 0
      else (TERM_ExtractParameter (escPtr (csiState s (asciiDigits pd) 74) 0) uninitialised).2) =
      (if pd.length = 0 then 0 else decimalValue pd) := by
    rw [pJ]
    by_cases h0 : pd.length = 0
    · simp [h0]
    · have h1 : pd.length > 0 := by omega
      simp [h0, h1]
  exact clearPartOfScreen_cells (csiState s (asciiDigits pd) 74) (csiState_inv s _ _ hinv) _ hpar

theorem erase_in_display_witness :
    Reachable (feed (TERM_Init 4 2 true 0) [65, 66, 67, 10, 68, 69]) ∧
      ∀ r c, r < 8 → c < 21 →
        cellAt (feed (feed (TERM_Init 4 2 true 0) [65, 66, 67, 10, 68, 69])
            ([27, 91] ++ asciiDigits [1] ++ [74])) r c =
          if edRegion (if [1].length = 0 then 0 else decimalValue [1])
              (feed (TERM_Init 4 2 true 0) [65, 66, 67, 10, 68, 69]).currentRow
              (feed (TERM_Init 4 2 true 0) [65, 66, 67, 10, 68, 69]).currentColumn r c
            then blankCell
          else cellAt (feed (TERM_Init 4 2 true 0) [65, 66, 67, 10, 68, 69]) r c :=
  ⟨reachable_feed _ _ (Reachable.init 4 2 true 0) (by decide),
    (erase_in_display (feed (TERM_Init 4 2 true 0) [65, 66, 67, 10, 68, 69])
      (reachable_feed _ _ (Reachable.init 4 2 true 0) (by decide)) [1] (by decide)
      (by decide)).2.2⟩

/-- C14. Erase in line is restricted to the current row: in every reachable
terminal state with cursor (row, col), for the parameter `p` of `ESC [ p K`
(written with at most 4 digits; omitted means 0): with `p = 0` (`ESC[K`,
`ESC[0K`) exactly the cells (row, col..20) become blank, with `p = 1` exactly
the cells (row, 0..col), with `p = 2` exactly the 21 cells of the row; every
cell of every other row, every other cell of the current row and the cursor
position are unchanged. -/
theorem erase_in_line (s : TERM_terminal_t) (hs : Reachable s) (pd : List Nat)
    (hlen : pd.length ≤ 4) (hd : ∀ d ∈ pd, d < 10) :
    TERM_GetCursorRow (feed s ([27, 91] ++ asciiDigits pd ++ [75])) = s.currentRow ∧
    TERM_GetCursorColumn (feed s ([27, 91] ++ asciiDigits pd ++ [75])) = s.currentColumn ∧
    ∀ r c, r < 8 → c < 21 →
      cellAt (feed s ([27, 91] ++ asciiDigits pd ++ [75])) r c =
        if elRegion (if pd.length = 0 then 0 else decimalValue pd)
            s.currentRow s.currentColumn r c then blankCell
        else cellAt s r c := by
  have hinv := reachable_inv s hs
  have lK : isLetter 75 := by decide
  have hl : (asciiDigits pd).length ≤ 11 := by rw [asciiDigits_length]; omega
  rw [feed_csi s _ 75 hl (asciiDigits_plain pd hd) lK]
  have dK : ∀ x, TERM_ProcessEscapeSequence x 75 = TERM_ProcessClearPartOfLine x := by
    intro x; unfold TERM_ProcessEscapeSequence; simp
  rw [dK]
  have pK := extract_single s pd 75 hlen hd lK
  have hpar : (if (TERM_ExtractParameter (escPtr (csiState s (asciiDigits pd) 75) 0)
        uninitialised).1 = 0 then 0
      else (TERM_ExtractParameter (escPtr (csiState s (asciiDigits pd) 75) 0) uninitialised).2) =
      (if pd.length = 0 then 0 else decimalValue pd) := by
    rw [pK]
    by_cases h0 : pd.length = 0
    · simp [h0]
    · have h1 : pd.length > 0 := by omega
      simp [h0, h1]
  exact clearPartOfLine_cells (csiState s (asciiDigits pd) 75) (csiState_inv s _ _ hinv) _ hpar

theorem erase_in_line_witness :
    Reachable (feed (TERM_Init 4 2 true 0) [65, 66, 67, 10, 68, 69]) ∧
      ∀ r c, r < 8 → c < 21 →
        cellAt (feed (feed (TERM_Init 4 2 true 0) [65, 66, 67, 10, 68, 69])
            ([27, 91] ++ asciiDigits [1] ++ [75])) r c =
          if elRegion (if [1].length = 0 then 0 else decimalValue [1])
              (feed (TERM_Init 4 2 true 0) [65, 66, 67, 10, 68, 69]).currentRow
              (feed (TERM_Init 4 2 true 0) [65, 66, 67, 10, 68, 69]).currentColumn r c
            then blankCell
          else cellAt (feed (TERM_Init 4 2 true 0) [65, 66, 67, 10, 68, 69]) r c :=
  ⟨reachable_feed _ _ (Reachable.init 4 2 true 0) (by decide),
    (erase_in_line (feed (TERM_Init 4 2 true 0) [65, 66, 67, 10, 68, 69])
      (reachable_feed _ _ (Reachable.init 4 2 true 0) (by decide)) [1] (by decide)
      (by decide)).2.2⟩

/-! ## A concrete scenario -/

/-- What `TERM_Init` stores depends on the padding bits only modulo 16. -/
theorem init_padding_mod (tab verticaltab : Nat) (cursorVisible : Bool) (flagPadding : Nat) :
    TERM_Init tab verticaltab cursorVisible (flagPadding % 16) =
      TERM_Init tab verticaltab cursorVisible flagPadding := by
  unfold TERM_Init
  rw [Nat.mod_mod]

/-- After `ESC[2J` every cell of the scenario is blank, whatever the padding
bits are. -/
theorem scenario_erased_blank (flagPadding : Nat) :
    ∀ r, r < 8 → ∀ c, c < 21 → cellAt (scenarioErased flagPadding) r c = blankCell := by
  intro r hr c hc
  have hs : Reachable (scenarioA flagPadding) :=
    reachable_feed _ _ (Reachable.init 4 2 true flagPadding) (by decide)
  have hinv := reachable_inv _ hs
  have e : scenarioErased flagPadding =
      feed (scenarioA flagPadding) ([27, 91] ++ asciiDigits [2] ++ [74]) := rfl
  rw [e, feed_csi _ _ 74 (by decide) (asciiDigits_plain [2] (by decide)) (by decide)]
  have dJ : ∀ x, TERM_ProcessEscapeSequence x 74 = TERM_ProcessClearPartOfScreen x := by
    intro x; unfold TERM_ProcessEscapeSequence; simp
  rw [dJ]
  have pJ := extract_single (scenarioA flagPadding) [2] 74 (by decide) (by decide) (by decide)
  have hpar : (if (TERM_ExtractParameter (escPtr (csiState (scenarioA flagPadding)
        (asciiDigits [2]) 74) 0) uninitialised).1 = 0 then 0
      else (TERM_ExtractParameter (escPtr (csiState (scenarioA flagPadding) (asciiDigits [2]) 74)
        0) uninitialised).2) = 2 := by
    rw [pJ]
    decide
  rw [(clearPartOfScreen_cells _ (csiState_inv _ _ _ hinv) 2 hpar).2.2 r c hr hc]
  exact if_pos (Or.inr (Or.inr rfl))

set_option maxRecDepth 1000000 in
set_option maxHeartbeats 4000000 in
/-- The cursor positions and the cell (0,0) of the scenario, evaluated for each
of the sixteen values of the padding bits of the flag byte. -/
theorem scenario_evaluated :
    ∀ flagPadding, flagPadding < 16 →
    (cellAt (scenarioA flagPadding) 0 0).character = 65 ∧
    (TERM_GetCursorRow (scenarioA flagPadding) = 0 ∧
      TERM_GetCursorColumn (scenarioA flagPadding) = 1) ∧
    (TERM_GetCursorRow (scenarioErased flagPadding) = 0 ∧
      TERM_GetCursorColumn (scenarioErased flagPadding) = 1) ∧
    (TERM_GetCursorRow (scenarioHome flagPadding) = 0 ∧
      TERM_GetCursorColumn (scenarioHome flagPadding) = 0) ∧
    cellAt (scenarioB flagPadding) 0 0 =
      { character := 66,
        attributes := { singleUnderline := true, strikeThrough := false, imageInverted := false } } ∧
    (TERM_GetCursorRow (scenarioB flagPadding) = 0 ∧
      TERM_GetCursorColumn (scenarioB flagPadding) = 1) := by
  decide

/-- C11. Concrete scenario: after `TERM_Init(tab=4, verticaltab=2,
cursorVisible=true)`, on memory with any padding bits in the flag byte,
feeding `A` leaves cell (0,0) holding `A` and the cursor at (0,1); then
`ESC[2J` leaves every cell blank and the cursor still at (0,1); then
`ESC[1;1H` moves the cursor to (0,0); then `ESC[4m` followed by `B` leaves
cell (0,0) holding `B` with underline set, strikethrough and inverted clear,
and the cursor at (0,1). -/
theorem concrete_scenario (flagPadding : Nat) :
    (cellAt (scenarioA flagPadding) 0 0).character = 65 ∧
    (TERM_GetCursorRow (scenarioA flagPadding) = 0 ∧
      TERM_GetCursorColumn (scenarioA flagPadding) = 1) ∧
    (∀ r, r < 8 → ∀ c, c < 21 → cellAt (scenarioErased flagPadding) r c = blankCell) ∧
    (TERM_GetCursorRow (scenarioErased flagPadding) = 0 ∧
      TERM_GetCursorColumn (scenarioErased flagPadding) = 1) ∧
    (TERM_GetCursorRow (scenarioHome flagPadding) = 0 ∧
      TERM_GetCursorColumn (scenarioHome flagPadding) = 0) ∧
    cellAt (scenarioB flagPadding) 0 0 =
      { character := 66,
        attributes := { singleUnderline := true, strikeThrough := false, imageInverted := false } } ∧
    (TERM_GetCursorRow (scenarioB flagPadding) = 0 ∧
      TERM_GetCursorColumn (scenarioB flagPadding) = 1) := by
  have h := scenario_evaluated (flagPadding % 16) (Nat.mod_lt _ (by decide))
  simp only [scenarioB, scenarioHome, scenarioErased, scenarioA, init_padding_mod] at h
  obtain ⟨h1, h2, h3, h4, h5, h6⟩ := h
  exact ⟨h1, h2, scenario_erased_blank flagPadding, h3, h4, h5, h6⟩

/-! ## Control characters and ignored bytes -/

/-- C16. Unsupported ordinary bytes are ignored: in every terminal state with no
escape sequence active, a byte that is not ESC, not printable (0x20..0x7E) and
not one of the control codes 8..13 (BEL, any other C0 code, 0x7F, any byte from
0x80 on) leaves the whole terminal state as it is: every cell, the cursor, the
current attributes, the saved cursor and all mode flags. -/
theorem unsupported_bytes_ignored (s : TERM_terminal_t) (hesc : s.escapeSequenceActive = false)
    (b : Nat) (h27 : b ≠ 27) (hnp : ¬ (32 ≤ b ∧ b ≤ 126)) (hnc : ¬ (8 ≤ b ∧ b ≤ 13)) :
    TERM_ProcessChar s b = s := by
  unfold TERM_ProcessChar
  rw [if_neg (by simpa using h27), if_pos hesc]
  unfold TERM_ProcessOrdinaryChar
  rw [if_neg hnp]
  by_cases h7 : 7 ≤ b ∧ b ≤ 13
  · rw [if_pos h7]
    unfold TERM_ProcessControlCharacter
    rw [if_neg (by omega), if_neg (by omega), if_neg (by omega), if_neg (by omega),
      if_neg (by omega), if_neg (by omega)]
  · rw [if_neg h7]

theorem unsupported_bytes_ignored_witness :
    TERM_ProcessChar (feed (TERM_Init 4 2 true 0) [65, 66]) 7 = feed (TERM_Init 4 2 true 0) [65, 66] ∧
      TERM_ProcessChar (feed (TERM_Init 4 2 true 0) [65, 66]) 200 =
        feed (TERM_Init 4 2 true 0) [65, 66] :=
  ⟨unsupported_bytes_ignored _ (by decide) 7 (by decide) (by decide) (by decide),
    unsupported_bytes_ignored _ (by decide) 200 (by decide) (by decide) (by decide)⟩

/-- C17. Aborted escape: from every terminal state (in particular every
reachable one), for every byte `b` other than `[`, `c` and ESC, feeding ESC
followed by `b` leaves every cell, the cursor, the attributes and the mode
flags unchanged (`b` is consumed and not written, also when printable) and
ends the escape state; the byte after `b`, unless it is ESC and starts a new
sequence, is processed by `TERM_ProcessOrdinaryChar`. -/
theorem aborted_escape (s : TERM_terminal_t) (b : Nat) (h91 : b ≠ 91) (h99 : b ≠ 99)
    (h27 : b ≠ 27) :
    (feed s [27, b]).termBufferRows = s.termBufferRows ∧
    (feed s [27, b]).termBuffer = s.termBuffer ∧
    (feed s [27, b]).currentRow = s.currentRow ∧
    (feed s [27, b]).currentColumn = s.currentColumn ∧
    (feed s [27, b]).currentAttributes = s.currentAttributes ∧
    (feed s [27, b]).directLCDUpdate = s.directLCDUpdate ∧
    (feed s [27, b]).cursorVisible = s.cursorVisible ∧
    (feed s [27, b]).disableLineWrap = s.disableLineWrap ∧
    (feed s [27, b]).escapeSequenceActive = false ∧
    ∀ next, next ≠ 27 →
      TERM_ProcessChar (feed s [27, b]) next = TERM_ProcessOrdinaryChar (feed s [27, b]) next := by
  have e : feed s [27, b] =
      { s with escapeSequenceActive := false, escapeSequenceIndex := -1 } := by
    show TERM_ProcessChar (TERM_ProcessChar s 27) b = _
    unfold TERM_ProcessChar
    simp [h27, h91, h99]
  rw [e]
  refine ⟨rfl, rfl, rfl, rfl, rfl, rfl, rfl, rfl, rfl, ?_⟩
  intro next hn
  unfold TERM_ProcessChar
  rw [if_neg (by simpa using hn), if_pos rfl]

theorem aborted_escape_witness :
    (feed (feed (TERM_Init 4 2 true 0) [72, 105]) [27, 65]).termBufferRows =
        (feed (TERM_Init 4 2 true 0) [72, 105]).termBufferRows ∧
      (feed (feed (TERM_Init 4 2 true 0) [72, 105]) [27, 65]).escapeSequenceActive = false :=
  ⟨(aborted_escape (feed (TERM_Init 4 2 true 0) [72, 105]) 65 (by decide) (by decide)
      (by decide)).1,
    (aborted_escape (feed (TERM_Init 4 2 true 0) [72, 105]) 65 (by decide) (by decide)
      (by decide)).2.2.2.2.2.2.2.2.1⟩

/-! ## Save and restore cursor -/

/-- Case principle for the dispatch on a terminating letter other than `s`. -/
theorem escapeSequence_cases_not_save (P : TERM_terminal_t → Prop) (s : TERM_terminal_t)
    (data : Nat) (hdata : data ≠ 115)
    (hA : P (TERM_ProcessCursorUp s)) (hB : P (TERM_ProcessCursorDown s))
    (hC : P (TERM_ProcessCursorRight s)) (hD : P (TERM_ProcessCursorLeft s))
    (hE : P (TERM_ProcessCursorNextLine s)) (hF : P (TERM_ProcessCursorPreviousLine s))
    (hG : P (TERM_ProcessCursorToColumn s)) (hH : P (TERM_ProcessCursorToPosition s))
    (hJ : P (TERM_ProcessClearPartOfScreen s)) (hK : P (TERM_ProcessClearPartOfLine s))
    (hh : P (TERM_ProcessHMode s)) (hl : P (TERM_ProcessLMode s))
    (hm : P (TERM_ProcessSelectGraphicRendition s))
    (hu : P (TERM_ProcessRestoreCursorPosition s))
    (h0 : P s) : P (TERM_ProcessEscapeSequence s data) := by
  unfold TERM_ProcessEscapeSequence
  by_cases c1 : data = 65
  · rw [if_pos c1]; exact hA
  rw [if_neg c1]
  by_cases c2 : data = 66
  · rw [if_pos c2]; exact hB
  rw [if_neg c2]
  by_cases c3 : data = 67
  · rw [if_pos c3]; exact hC
  rw [if_neg c3]
  by_cases c4 : data = 68
  · rw [if_pos c4]; exact hD
  rw [if_neg c4]
  by_cases c5 : data = 69
  · rw [if_pos c5]; exact hE
  rw [if_neg c5]
  by_cases c6 : data = 70
  · rw [if_pos c6]; exact hF
  rw [if_neg c6]
  by_cases c7 : data = 71
  · rw [if_pos c7]; exact hG
  rw [if_neg c7]
  by_cases c8 : data = 72
  · rw [if_pos c8]; exact hH
  rw [if_neg c8]
  by_cases c9 : data = 74
  · rw [if_pos c9]; exact hJ
  rw [if_neg c9]
  by_cases c10 : data = 75
  · rw [if_pos c10]; exact hK
  rw [if_neg c10]
  by_cases c11 : data = 102
  · rw [if_pos c11]; exact hH
  rw [if_neg c11]
  by_cases c12 : data = 104
  · rw [if_pos c12]; exact hh
  rw [if_neg c12]
  by_cases c13 : data = 108
  · rw [if_pos c13]; exact hl
  rw [if_neg c13]
  by_cases c14 : data = 109
  · rw [if_pos c14]; exact hm
  rw [if_neg c14, if_neg hdata]
  by_cases c16 : data = 117
  · rw [if_pos c16]; exact hu
  rw [if_neg c16]
  exact h0

/-- Only the `s` handler writes the saved cursor. -/
theorem escapeSequence_saved (x : TERM_terminal_t) (data : Nat) (hdata : data ≠ 115) :
    (TERM_ProcessEscapeSequence x data).savedRow = x.savedRow ∧
      (TERM_ProcessEscapeSequence x data).savedColumn = x.savedColumn := by
  apply escapeSequence_cases_not_save
    (fun y => y.savedRow = x.savedRow ∧ y.savedColumn = x.savedColumn) x data hdata
  · exact ⟨rfl, rfl⟩
  · exact ⟨rfl, rfl⟩
  · exact ⟨rfl, rfl⟩
  · exact ⟨rfl, rfl⟩
  · exact ⟨rfl, rfl⟩
  · exact ⟨rfl, rfl⟩
  · show (TERM_ProcessCursorToColumn x).savedRow = _ ∧ (TERM_ProcessCursorToColumn x).savedColumn = _
    rw [cursorToColumn_frame]; exact ⟨rfl, rfl⟩
  · exact ⟨rfl, rfl⟩
  · show (TERM_ProcessClearPartOfScreen x).savedRow = _ ∧
      (TERM_ProcessClearPartOfScreen x).savedColumn = _
    rw [clearPartOfScreen_frame]; exact ⟨rfl, rfl⟩
  · show (TERM_ProcessClearPartOfLine x).savedRow = _ ∧
      (TERM_ProcessClearPartOfLine x).savedColumn = _
    rw [clearPartOfLine_frame]; exact ⟨rfl, rfl⟩
  · show (TERM_ProcessHMode x).savedRow = _ ∧ (TERM_ProcessHMode x).savedColumn = _
    rw [hMode_frame]; exact ⟨rfl, rfl⟩
  · show (TERM_ProcessLMode x).savedRow = _ ∧ (TERM_ProcessLMode x).savedColumn = _
    rw [lMode_frame]; exact ⟨rfl, rfl⟩
  · show (TERM_ProcessSelectGraphicRendition x).savedRow = _ ∧
      (TERM_ProcessSelectGraphicRendition x).savedColumn = _
    rw [sgr_frame]; exact ⟨rfl, rfl⟩
  · exact ⟨rfl, rfl⟩
  · exact ⟨rfl, rfl⟩

theorem ordinaryChar_saved (s : TERM_terminal_t) (dataIn : Nat) :
    (TERM_ProcessOrdinaryChar s dataIn).savedRow = s.savedRow ∧
      (TERM_ProcessOrdinaryChar s dataIn).savedColumn = s.savedColumn := by
  unfold TERM_ProcessOrdinaryChar
  simp only []
  split_ifs
  · exact ⟨rfl, rfl⟩
  · exact ⟨rfl, rfl⟩
  · exact ⟨rfl, rfl⟩
  · exact ⟨rfl, rfl⟩
  · unfold TERM_ProcessControlCharacter
    split_ifs
    · unfold TERM_ProcessBackspace; split_ifs <;> exact ⟨rfl, rfl⟩
    · unfold TERM_ProcessHorisontalTab; simp only []; split_ifs <;> exact ⟨rfl, rfl⟩
    · unfold TERM_ProcessNewLine; simp only []; split_ifs <;> exact ⟨rfl, rfl⟩
    · unfold TERM_ProcessVerticalTab; simp only []; split_ifs <;> exact ⟨rfl, rfl⟩
    · exact ⟨rfl, rfl⟩
    · exact ⟨rfl, rfl⟩
    · exact ⟨rfl, rfl⟩
  · exact ⟨rfl, rfl⟩

/-- A byte that neither completes a save sequence nor resets the terminal
leaves the saved cursor as it is. -/
theorem processChar_saved (s : TERM_terminal_t) (dataIn : Nat) (h : ¬ savesOrResets s dataIn) :
    (TERM_ProcessChar s dataIn).savedRow = s.savedRow ∧
      (TERM_ProcessChar s dataIn).savedColumn = s.savedColumn := by
  unfold savesOrResets at h
  simp only [TERMINAL_ESC, TERM_MAX_ESCAPE_LENGTH] at h
  unfold TERM_ProcessChar
  by_cases h27 : dataIn = 27
  · rw [if_pos (by simpa using h27)]
    exact ⟨rfl, rfl⟩
  rw [if_neg (by simpa using h27)]
  by_cases ha : s.escapeSequenceActive = false
  · rw [if_pos ha]
    exact ordinaryChar_saved s dataIn
  rw [if_neg ha]
  have ha' : s.escapeSequenceActive = true := by simpa using ha
  by_cases hi : s.escapeSequenceIndex = -1
  · rw [if_pos hi]
    by_cases h91 : dataIn = 91
    · rw [if_pos h91]; exact ⟨rfl, rfl⟩
    rw [if_neg h91]
    have h99 : dataIn ≠ 99 := fun e => h ⟨h27, ha', Or.inl ⟨hi, e⟩⟩
    rw [if_neg h99]
    exact ⟨rfl, rfl⟩
  rw [if_neg hi]
  by_cases h12 : s.escapeSequenceIndex < 12
  · rw [escSeqChar_eq s dataIn h12]
    have h115 : dataIn ≠ 115 := fun e => h ⟨h27, ha', Or.inr ⟨hi, h12, e⟩⟩
    by_cases hl : isLetter dataIn
    · rw [if_pos hl]
      exact escapeSequence_saved _ dataIn h115
    · rw [if_neg hl]
      exact ⟨rfl, rfl⟩
  · unfold TERM_ProcessEscSeqChar
    rw [if_neg (by simpa using h12)]
    exact ⟨rfl, rfl⟩

theorem quiet_saved (bytes : List Nat) :
    ∀ s : TERM_terminal_t, quiet s bytes →
      (feed s bytes).savedRow = s.savedRow ∧ (feed s bytes).savedColumn = s.savedColumn := by
  induction bytes with
  | nil => intro s _; exact ⟨rfl, rfl⟩
  | cons b bs ih =>
    intro s hq
    obtain ⟨h1, h2⟩ := hq
    have e := processChar_saved s b h1
    have e2 := ih _ h2
    exact ⟨e2.1.trans e.1, e2.2.trans e.2⟩

/-- C18. Save/restore cursor round trip: from every terminal state (in
particular every reachable one) with cursor (r, c), after `ESC[s`, then any
byte string whose processing neither completes another `ESC[...s` sequence nor
performs a terminal reset (`quiet`), then `ESC[u`, the cursor is again
(r, c). -/
theorem save_restore_round_trip (s : TERM_terminal_t) (mid : List Nat)
    (hq : quiet (feed s [27, 91, 115]) mid) :
    TERM_GetCursorRow (feed (feed (feed s [27, 91, 115]) mid) [27, 91, 117]) = s.currentRow ∧
      TERM_GetCursorColumn (feed (feed (feed s [27, 91, 115]) mid) [27, 91, 117]) =
        s.currentColumn := by
  have es : feed s [27, 91, 115] = TERM_ProcessSaveCursorPosition (csiState s [] 115) := by
    have e := feed_csi s [] 115 (by simp) (by simp) (by decide)
    have d : TERM_ProcessEscapeSequence (csiState s [] 115) 115 =
        TERM_ProcessSaveCursorPosition (csiState s [] 115) := by
      unfold TERM_ProcessEscapeSequence; simp
    rw [d] at e
    exact e
  have eu : ∀ t : TERM_terminal_t,
      feed t [27, 91, 117] = TERM_ProcessRestoreCursorPosition (csiState t [] 117) := by
    intro t
    have e := feed_csi t [] 117 (by simp) (by simp) (by decide)
    have d : TERM_ProcessEscapeSequence (csiState t [] 117) 117 =
        TERM_ProcessRestoreCursorPosition (csiState t [] 117) := by
      unfold TERM_ProcessEscapeSequence; simp
    rw [d] at e
    exact e
  have hsaved := quiet_saved mid _ hq
  rw [eu]
  show (feed (feed s [27, 91, 115]) mid).savedRow = _ ∧
    (feed (feed s [27, 91, 115]) mid).savedColumn = _
  rw [hsaved.1, hsaved.2, es]
  exact ⟨rfl, rfl⟩

theorem save_restore_round_trip_witness :
    quiet (feed (feed (TERM_Init 4 2 true 0) [65, 66, 67]) [27, 91, 115])
        [72, 105, 10, 27, 91, 53, 59, 53, 72, 27, 91, 50, 74, 13] ∧
      TERM_GetCursorColumn
          (feed (feed (feed (feed (TERM_Init 4 2 true 0) [65, 66, 67]) [27, 91, 115])
            [72, 105, 10, 27, 91, 53, 59, 53, 72, 27, 91, 50, 74, 13]) [27, 91, 117]) =
        (feed (TERM_Init 4 2 true 0) [65, 66, 67]).currentColumn :=
  ⟨by decide,
    (save_restore_round_trip (feed (TERM_Init 4 2 true 0) [65, 66, 67])
      [72, 105, 10, 27, 91, 53, 59, 53, 72, 27, 91, 50, 74, 13] (by decide)).2⟩

/-! ## Tab steps -/

/-- Tab steps as the two handlers apply them: in every terminal state with no
escape sequence active whose fields `tabstepsize` and `verticaltabstepsize`
hold `t` and `v`, byte 9 sets the column to `min (column + t) 20` and leaves
the row unchanged, byte 11 sets the row to `min (row + v) 7` and leaves the
column unchanged; neither changes a cell, and the sums are those of the
natural numbers: they do not wrap modulo 256. -/
theorem tab_steps_clamped (s : TERM_terminal_t) (hesc : s.escapeSequenceActive = false)
    (t v : Nat) (ht : s.tabstepsize = t) (hv : s.verticaltabstepsize = v) :
    ((TERM_ProcessChar s 9).currentColumn = min (s.currentColumn + t) 20 ∧
      (TERM_ProcessChar s 9).currentRow = s.currentRow ∧
      (TERM_ProcessChar s 9).termBufferRows = s.termBufferRows ∧
      (TERM_ProcessChar s 9).termBuffer = s.termBuffer) ∧
    ((TERM_ProcessChar s 11).currentRow = min (s.currentRow + v) 7 ∧
      (TERM_ProcessChar s 11).currentColumn = s.currentColumn ∧
      (TERM_ProcessChar s 11).termBufferRows = s.termBufferRows ∧
      (TERM_ProcessChar s 11).termBuffer = s.termBuffer) := by
  have e9 : TERM_ProcessChar s 9 = TERM_ProcessHorisontalTab s := by
    unfold TERM_ProcessChar
    rw [if_neg (by decide), if_pos hesc]
    unfold TERM_ProcessOrdinaryChar
    rw [if_neg (by decide), if_pos (by decide)]
    unfold TERM_ProcessControlCharacter
    rw [if_neg (by decide), if_pos rfl]
  have e11 : TERM_ProcessChar s 11 = TERM_ProcessVerticalTab s := by
    unfold TERM_ProcessChar
    rw [if_neg (by decide), if_pos hesc]
    unfold TERM_ProcessOrdinaryChar
    rw [if_neg (by decide), if_pos (by decide)]
    unfold TERM_ProcessControlCharacter
    rw [if_neg (by decide), if_neg (by decide), if_neg (by decide), if_pos rfl]
  rw [e9, e11]
  unfold TERM_ProcessHorisontalTab TERM_ProcessVerticalTab
  simp only [TERMFONT_CHARS_PER_LINE, TERMFONT_LINES_PER_SCREEN, ht, hv]
  constructor
  · split_ifs with h
    · exact ⟨by show (21 - 1 : Nat) = _; omega, rfl, rfl, rfl⟩
    · exact ⟨by show s.currentColumn + t = _; omega, rfl, rfl, rfl⟩
  · split_ifs with h
    · exact ⟨by show (8 - 1 : Nat) = _; omega, rfl, rfl, rfl⟩
    · exact ⟨by show s.currentRow + v = _; omega, rfl, rfl, rfl⟩

/-- C19 fails on the code for the vertical-tab step.  `TERM_Init(4, 2, true)`
initialises the terminal with tab step 4 and vertical-tab step 2.  After the
bytes `ESC c` (a reachable state, no escape sequence active, cursor at row 0,
column 0) the field `verticaltabstepsize` holds 4, because
`TERM_ProcessTerminalReset` hands `tabstepsize` to `TERM_Init` for both steps.
Byte 11 (VT) then moves the cursor from row 0 to row 4, where the step the
terminal was initialised with gives `min (0 + 2) 7 = 2`.  Byte 9 (TAB) still
moves by the step 4 of the initialisation. -/
theorem vertical_tab_after_reset_uses_tab_step :
    Reachable (feed (TERM_Init 4 2 true 0) [27, 99]) ∧
    (TERM_Init 4 2 true 0).tabstepsize = 4 ∧
    (TERM_Init 4 2 true 0).verticaltabstepsize = 2 ∧
    (feed (TERM_Init 4 2 true 0) [27, 99]).escapeSequenceActive = false ∧
    (feed (TERM_Init 4 2 true 0) [27, 99]).currentRow = 0 ∧
    (feed (TERM_Init 4 2 true 0) [27, 99]).currentColumn = 0 ∧
    (feed (TERM_Init 4 2 true 0) [27, 99]).verticaltabstepsize = 4 ∧
    (TERM_ProcessChar (feed (TERM_Init 4 2 true 0) [27, 99]) 11).currentRow = 4 ∧
    (TERM_ProcessChar (feed (TERM_Init 4 2 true 0) [27, 99]) 11).currentRow ≠
      min ((feed (TERM_Init 4 2 true 0) [27, 99]).currentRow + 2) 7 ∧
    (TERM_ProcessChar (feed (TERM_Init 4 2 true 0) [27, 99]) 9).currentColumn =
      min ((feed (TERM_Init 4 2 true 0) [27, 99]).currentColumn + 4) 20 :=
  ⟨reachable_feed _ _ (Reachable.init 4 2 true 0) (by decide), by decide, by decide, by decide,
    by decide, by decide, by decide, by decide, by decide, by decide⟩

/-! ## Write-through -/

/-- C20. Idempotent write-through enable: for every terminal state,
`TERM_EnableWriteThrough` applied twice yields the same terminal state as
applied once, and the second call makes no call into the display driver (no
cursor flip), whatever `LCD_ROW2PAGE` and `TERMFONT_CHAR_WIDTH` are. -/
theorem enable_write_through_idempotent (s : TERM_terminal_t) :
    TERM_EnableWriteThrough (TERM_EnableWriteThrough s) = TERM_EnableWriteThrough s ∧
      ∀ (row2page : Nat → Nat) (charWidth : Nat),
        enableWriteThroughOps row2page charWidth (TERM_EnableWriteThrough s) = [] := by
  have h : (TERM_EnableWriteThrough s).directLCDUpdate = true := by
    unfold TERM_EnableWriteThrough
    split_ifs with h1
    · rfl
    · simpa using h1
  have hx : ∀ x : TERM_terminal_t, x.directLCDUpdate = true → TERM_EnableWriteThrough x = x := by
    intro x hx
    unfold TERM_EnableWriteThrough
    rw [if_neg (by simp [hx])]
  constructor
  · exact hx _ h
  · intro row2page charWidth
    unfold enableWriteThroughOps
    rw [if_neg (by simp [h])]


/-! ## Scrolling by one line -/

/-- C25: `TERM_ScrollTerminalOneLine` on a terminal whose row-pointer table is a
permutation of the 8 physical rows: logical row i of the result holds the
former logical row i+1 (character and attributes) for i = 0..6, logical row 7
is 21 blank cells (space, default attributes), the cursor is at (7, 0), the
table is again a permutation and nothing but the cells, the table and the
cursor is written.  The former rows 1..7 all survive, so only the former row 0
is lost. -/
theorem scroll_one_line (s : TERM_terminal_t) (hp : RowsPerm s.termBuffer) :
    (∀ i c, i ≤ 6 → cellAt (TERM_ScrollTerminalOneLine s) i c = cellAt s (i + 1) c) ∧
    (∀ c, c < TERMFONT_CHARS_PER_LINE →
      cellAt (TERM_ScrollTerminalOneLine s) 7 c =
        { character := 32, attributes := TERM_defaultAttributes }) ∧
    (TERM_ScrollTerminalOneLine s).currentRow = 7 ∧
    (TERM_ScrollTerminalOneLine s).currentColumn = 0 ∧
    RowsPerm (TERM_ScrollTerminalOneLine s).termBuffer ∧
    TERM_ScrollTerminalOneLine s =
      { s with
        termBuffer := (TERM_ScrollTerminalOneLine s).termBuffer
        termBufferRows := (TERM_ScrollTerminalOneLine s).termBufferRows
        currentRow := 7
        currentColumn := 0 } := by
  refine ⟨fun i c hi => scroll_cellAt_lt s hp i c (by omega), fun c hc => ?_, rfl, rfl,
    scroll_rowsPerm s hp, rfl⟩
  exact scroll_cellAt_last s c (by simpa using hc)

theorem scroll_one_line_witness :
    RowsPerm (feed (TERM_Init 4 2 true 0) [65, 13, 10, 66]).termBuffer ∧
    cellAt (TERM_ScrollTerminalOneLine (feed (TERM_Init 4 2 true 0) [65, 13, 10, 66])) 0 0 =
      cellAt (feed (TERM_Init 4 2 true 0) [65, 13, 10, 66]) 1 0 :=
  ⟨(reachable_inv _ (reachable_feed _ _ (Reachable.init 4 2 true 0) (by decide))).2,
    (scroll_one_line (feed (TERM_Init 4 2 true 0) [65, 13, 10, 66])
      (reachable_inv _ (reachable_feed _ _ (Reachable.init 4 2 true 0) (by decide))).2).1 0 0
      (by decide)⟩

/-! ## The row pointer table is a rotation -/

theorem scroll_rotation (s : TERM_terminal_t) (h : Rotation s.termBuffer) :
    Rotation (TERM_ScrollTerminalOneLine s).termBuffer := by
  obtain ⟨k, hk, hr⟩ := h
  simp only [TERMFONT_LINES_PER_SCREEN] at hk hr
  refine ⟨(k + 1) % 8, by simp only [TERMFONT_LINES_PER_SCREEN]; omega, ?_⟩
  intro r hr8
  simp only [TERMFONT_LINES_PER_SCREEN] at hr8 ⊢
  rw [scroll_termBuffer]
  split_ifs
  · rw [hr _ (by omega)]; omega
  · rw [hr _ (by omega)]; omega
  · omega

/-- Every property of the row pointer table that holds for the identity table
and survives a scroll survives `TERM_ProcessChar`: no other code writes the
table. -/
theorem processChar_termBuffer (P : (Nat → Nat) → Prop) (hid : P (fun row => row))
    (hscroll : ∀ t : TERM_terminal_t, P t.termBuffer → P (TERM_ScrollTerminalOneLine t).termBuffer)
    (s : TERM_terminal_t) (dataIn : Nat) (h : P s.termBuffer) :
    P (TERM_ProcessChar s dataIn).termBuffer := by
  have hctl : P (TERM_ProcessControlCharacter s dataIn).termBuffer := by
    unfold TERM_ProcessControlCharacter
    split_ifs
    · unfold TERM_ProcessBackspace
      split_ifs
      · exact h
      · exact h
    · unfold TERM_ProcessHorisontalTab
      simp only []
      split_ifs
      · exact h
      · exact h
    · unfold TERM_ProcessNewLine
      simp only []
      split_ifs
      · exact hscroll s h
      · exact h
      · exact h
    · unfold TERM_ProcessVerticalTab
      simp only []
      split_ifs
      · exact h
      · exact h
    · exact h
    · exact h
    · exact h
  have hord : P (TERM_ProcessOrdinaryChar s dataIn).termBuffer := by
    unfold TERM_ProcessOrdinaryChar
    simp only []
    split_ifs
    · exact h
    · exact h
    · exact hscroll _ h
    · exact h
    · exact hctl
    · exact h
  have hreset : P (TERM_ProcessTerminalReset s).termBuffer := by
    unfold TERM_ProcessTerminalReset
    simp only []
    split_ifs
    · unfold TERM_EnableWriteThrough
      split_ifs
      · exact hid
      · exact hid
    · exact hid
  have hesc : P (TERM_ProcessEscSeqChar s dataIn).termBuffer := by
    by_cases hi : s.escapeSequenceIndex < 12
    · rw [escSeqChar_eq s dataIn hi]
      by_cases hl : isLetter dataIn
      · rw [if_pos hl, escapeSequence_termBuffer]; exact h
      · rw [if_neg hl]; exact h
    · unfold TERM_ProcessEscSeqChar
      rw [if_neg (by simpa using hi)]
      exact h
  unfold TERM_ProcessChar
  split_ifs
  · exact h
  · exact hord
  · exact h
  · exact hreset
  · exact h
  · exact hesc

theorem reachable_rotation (s : TERM_terminal_t) (h : Reachable s) : Rotation s.termBuffer := by
  induction h with
  | init tab verticaltab cursorVisible flagPadding =>
    exact ⟨0, by simp, fun r hr => by
      simp only [TERMFONT_LINES_PER_SCREEN] at hr ⊢
      show r = (r + 0) % 8
      omega⟩
  | processChar s dataIn _ _ ih =>
    exact processChar_termBuffer Rotation
      ⟨0, by simp, fun r hr => by
        simp only [TERMFONT_LINES_PER_SCREEN] at hr ⊢
        omega⟩
      scroll_rotation s dataIn ih
  | enableWriteThrough s _ ih =>
    unfold TERM_EnableWriteThrough
    split_ifs
    · exact ih
    · exact ih
  | disableWriteThrough s _ ih =>
    unfold TERM_DisableWriteThrough
    split_ifs
    · exact ih
    · exact ih
  | enableVisibleCursor s _ ih =>
    unfold TERM_EnableVisibleCursor
    split_ifs
    · exact ih
    · exact ih
  | disableVisibleCursor s _ ih =>
    unfold TERM_DisableVisibleCursor
    split_ifs
    · exact ih
    · exact ih

/-- C29: in every reachable terminal state the row pointer table `termBuffer`
is the identity table rotated by some `k` (logical row `r` is physical row
`(r + k) mod 8`); every physical row is the target of exactly one logical row;
two distinct logical rows never share a physical row; and a store through
`termBuffer[r][c]` leaves every cell of every other logical row as it was. -/
theorem row_table_is_permutation (s : TERM_terminal_t) (hs : Reachable s) :
    Rotation s.termBuffer ∧
    (∀ p, p < TERMFONT_LINES_PER_SCREEN →
      ∃! r, r < TERMFONT_LINES_PER_SCREEN ∧ s.termBuffer r = p) ∧
    (∀ r r', r < TERMFONT_LINES_PER_SCREEN → r' < TERMFONT_LINES_PER_SCREEN → r ≠ r' →
      s.termBuffer r ≠ s.termBuffer r') ∧
    (∀ r r' c c' v, r < TERMFONT_LINES_PER_SCREEN → r' < TERMFONT_LINES_PER_SCREEN → r ≠ r' →
      cellAt { s with termBufferRows := writeCell s.termBufferRows (s.termBuffer r) c v } r' c' =
        cellAt s r' c') := by
  have hrot := reachable_rotation s hs
  obtain ⟨k, hk, hr⟩ := hrot
  simp only [TERMFONT_LINES_PER_SCREEN] at hk hr ⊢
  have hinj : ∀ r r', r < 8 → r' < 8 → r ≠ r' → s.termBuffer r ≠ s.termBuffer r' := by
    intro r r' h1 h2 hne e
    rw [hr r h1, hr r' h2] at e
    omega
  refine ⟨⟨k, hk, hr⟩, ?_, hinj, ?_⟩
  · intro p hp
    refine ⟨(p + 8 - k) % 8, ⟨by omega, ?_⟩, ?_⟩
    · rw [hr _ (by omega)]; omega
    · rintro y ⟨hy, e⟩
      rw [hr y hy] at e
      omega
  · intro r r' c c' v h1 h2 hne
    show writeCell s.termBufferRows (s.termBuffer r) c v (s.termBuffer r') c' = _
    rw [writeCell_apply, if_neg (fun h => hinj r r' h1 h2 hne h.1.symm)]
    rfl

theorem row_table_is_permutation_witness :
    Reachable (feed (TERM_Init 4 2 true 0) [65, 10, 10, 10, 10, 10, 10, 10, 10, 66]) ∧
    Rotation (feed (TERM_Init 4 2 true 0) [65, 10, 10, 10, 10, 10, 10, 10, 10, 66]).termBuffer :=
  ⟨reachable_feed _ _ (Reachable.init 4 2 true 0) (by decide),
    (row_table_is_permutation _
      (reachable_feed _ _ (Reachable.init 4 2 true 0) (by decide))).1⟩

/-! ## The accumulator index -/

/-- The dispatch on the terminating letter writes neither the accumulator nor
its index nor the escape flag. -/
theorem escapeSequence_escFields (s : TERM_terminal_t) (data : Nat) :
    (TERM_ProcessEscapeSequence s data).escapeSequence = s.escapeSequence ∧
    (TERM_ProcessEscapeSequence s data).escapeSequenceIndex = s.escapeSequenceIndex ∧
    (TERM_ProcessEscapeSequence s data).escapeSequenceActive = s.escapeSequenceActive := by
  apply escapeSequence_cases (fun x => x.escapeSequence = s.escapeSequence ∧
    x.escapeSequenceIndex = s.escapeSequenceIndex ∧
    x.escapeSequenceActive = s.escapeSequenceActive)
  · exact ⟨rfl, rfl, rfl⟩
  · exact ⟨rfl, rfl, rfl⟩
  · exact ⟨rfl, rfl, rfl⟩
  · exact ⟨rfl, rfl, rfl⟩
  · exact ⟨rfl, rfl, rfl⟩
  · exact ⟨rfl, rfl, rfl⟩
  · rw [cursorToColumn_frame]; exact ⟨rfl, rfl, rfl⟩
  · exact ⟨rfl, rfl, rfl⟩
  · rw [clearPartOfScreen_frame]; exact ⟨rfl, rfl, rfl⟩
  · rw [clearPartOfLine_frame]; exact ⟨rfl, rfl, rfl⟩
  · rw [hMode_frame]; exact ⟨rfl, rfl, rfl⟩
  · rw [lMode_frame]; exact ⟨rfl, rfl, rfl⟩
  · rw [sgr_frame]; exact ⟨rfl, rfl, rfl⟩
  · exact ⟨rfl, rfl, rfl⟩
  · exact ⟨rfl, rfl, rfl⟩
  · exact ⟨rfl, rfl, rfl⟩

/-- Outside an escape sequence the accumulator index is not written. -/
theorem ordinaryChar_index (s : TERM_terminal_t) (dataIn : Nat) :
    (TERM_ProcessOrdinaryChar s dataIn).escapeSequenceIndex = s.escapeSequenceIndex := by
  unfold TERM_ProcessOrdinaryChar
  simp only []
  split_ifs
  · rfl
  · rfl
  · rfl
  · rfl
  · unfold TERM_ProcessControlCharacter
    split_ifs
    · unfold TERM_ProcessBackspace
      split_ifs <;> rfl
    · unfold TERM_ProcessHorisontalTab
      simp only []
      split_ifs <;> rfl
    · unfold TERM_ProcessNewLine
      simp only []
      split_ifs <;> rfl
    · unfold TERM_ProcessVerticalTab
      simp only []
      split_ifs <;> rfl
    · rfl
    · rfl
    · rfl
  · rfl

/-- One byte keeps the accumulator index in -1..11. -/
theorem processChar_index (s : TERM_terminal_t) (dataIn : Nat)
    (h : -1 ≤ s.escapeSequenceIndex ∧ s.escapeSequenceIndex ≤ 11) :
    -1 ≤ (TERM_ProcessChar s dataIn).escapeSequenceIndex ∧
      (TERM_ProcessChar s dataIn).escapeSequenceIndex ≤ 11 := by
  unfold TERM_ProcessChar
  split_ifs
  · exact ⟨le_refl _, by show (-1 : Int) ≤ 11; omega⟩
  · rw [ordinaryChar_index]; exact h
  · exact ⟨by show (-1 : Int) ≤ 0; omega, by show (0 : Int) ≤ 11; omega⟩
  · unfold TERM_ProcessTerminalReset
    simp only []
    split_ifs
    · unfold TERM_EnableWriteThrough
      split_ifs
      · exact ⟨by show (-1 : Int) ≤ 0; omega, by show (0 : Int) ≤ 11; omega⟩
      · exact ⟨by show (-1 : Int) ≤ 0; omega, by show (0 : Int) ≤ 11; omega⟩
    · exact ⟨by show (-1 : Int) ≤ 0; omega, by show (0 : Int) ≤ 11; omega⟩
  · exact h
  · rw [escSeqChar_eq s dataIn (by omega)]
    by_cases hl : isLetter dataIn
    · rw [if_pos hl, (escapeSequence_escFields _ _).2.1]
      show -1 ≤ ite _ _ _ ∧ ite _ _ _ ≤ (11 : Int)
      split_ifs <;> omega
    · rw [if_neg hl]
      show -1 ≤ ite _ _ _ ∧ ite _ _ _ ≤ (11 : Int)
      split_ifs <;> omega

theorem reachable_index (s : TERM_terminal_t) (h : Reachable s) :
    -1 ≤ s.escapeSequenceIndex ∧ s.escapeSequenceIndex ≤ 11 := by
  induction h with
  | init tab verticaltab cursorVisible flagPadding =>
    exact ⟨by show (-1 : Int) ≤ 0; omega, by show (0 : Int) ≤ 11; omega⟩
  | processChar s dataIn _ _ ih => exact processChar_index s dataIn ih
  | enableWriteThrough s _ ih =>
    unfold TERM_EnableWriteThrough
    split_ifs
    · exact ih
    · exact ih
  | disableWriteThrough s _ ih =>
    unfold TERM_DisableWriteThrough
    split_ifs
    · exact ih
    · exact ih
  | enableVisibleCursor s _ ih =>
    unfold TERM_EnableVisibleCursor
    split_ifs
    · exact ih
    · exact ih
  | disableVisibleCursor s _ ih =>
    unfold TERM_DisableVisibleCursor
    split_ifs
    · exact ih
    · exact ih

/-- With the index at 11, bytes that are neither letters nor ESC leave the
index at 11 and the escape state active; they only overwrite accumulator
byte 11. -/
theorem feed_full_accumulator (bytes : List Nat) :
    ∀ (s : TERM_terminal_t), s.escapeSequenceActive = true → s.escapeSequenceIndex = 11 →
      (∀ b ∈ bytes, ¬ isLetter b ∧ b ≠ 27) →
      (feed s bytes).escapeSequenceIndex = 11 ∧ (feed s bytes).escapeSequenceActive = true := by
  induction bytes with
  | nil => intro s ha hi _; exact ⟨hi, ha⟩
  | cons b bs ih =>
    intro s ha hi hb
    have hb1 := hb b (List.mem_cons_self _ _)
    have step : TERM_ProcessChar s b =
        { s with
          escapeSequence := setAt s.escapeSequence s.escapeSequenceIndex.toNat b
          escapeSequenceIndex :=
            if s.escapeSequenceIndex < 11 then s.escapeSequenceIndex + 1
            else s.escapeSequenceIndex } := by
      unfold TERM_ProcessChar
      rw [if_neg (by simpa using hb1.2), if_neg (by simp [ha]), if_neg (by omega)]
      rw [escSeqChar_eq s b (by omega), if_neg hb1.1]
    show (feed (TERM_ProcessChar s b) bs).escapeSequenceIndex = 11 ∧
      (feed (TERM_ProcessChar s b) bs).escapeSequenceActive = true
    rw [step]
    exact ih _ ha (by show ite _ _ _ = (11 : Int); split_ifs <;> omega)
      (fun x hx => hb x (List.mem_cons_of_mem _ hx))

/-- C26: in every reachable terminal state the accumulator index is in -1..11.
`TERM_ProcessChar` hands a byte to `TERM_ProcessEscSeqChar` only in its last
branch (byte other than ESC, escape state active, index other than -1); the
index is then in 0..11 and the byte is stored at that index of the 12-byte
accumulator, which is the only accumulator byte written.  Once the index is 11,
any number of further bytes that are neither letters nor ESC leave it at 11
with the escape state active, and the next letter is recognised: it is
dispatched by `TERM_ProcessEscapeSequence` and the escape state ends. -/
theorem accumulator_index_in_range (s : TERM_terminal_t) (hs : Reachable s) :
    (-1 ≤ s.escapeSequenceIndex ∧ s.escapeSequenceIndex ≤ 11) ∧
    (∀ dataIn, dataIn ≠ TERMINAL_ESC → s.escapeSequenceActive = true →
      s.escapeSequenceIndex ≠ -1 →
        TERM_ProcessChar s dataIn = TERM_ProcessEscSeqChar s dataIn ∧
        0 ≤ s.escapeSequenceIndex ∧ s.escapeSequenceIndex.toNat < TERM_MAX_ESCAPE_LENGTH ∧
        (TERM_ProcessChar s dataIn).escapeSequence =
          setAt s.escapeSequence s.escapeSequenceIndex.toNat dataIn) ∧
    (∀ (bytes : List Nat) (letter : Nat), s.escapeSequenceActive = true →
      s.escapeSequenceIndex = 11 → (∀ b ∈ bytes, ¬ isLetter b ∧ b ≠ TERMINAL_ESC) →
      isLetter letter →
        (feed s bytes).escapeSequenceIndex = 11 ∧
        (feed s bytes).escapeSequenceActive = true ∧
        (feed s (bytes ++ [letter])).escapeSequenceActive = false ∧
        feed s (bytes ++ [letter]) =
          TERM_ProcessEscapeSequence
            { feed s bytes with
              escapeSequence := setAt (feed s bytes).escapeSequence 11 letter
              escapeSequenceActive := false } letter) := by
  have hidx := reachable_index s hs
  refine ⟨hidx, ?_, ?_⟩
  · intro dataIn hesc ha hi
    have e : TERM_ProcessChar s dataIn = TERM_ProcessEscSeqChar s dataIn := by
      unfold TERM_ProcessChar
      rw [if_neg hesc, if_neg (by simp [ha]), if_neg hi]
    refine ⟨e, by omega, by simp only [TERM_MAX_ESCAPE_LENGTH]; omega, ?_⟩
    rw [e, escSeqChar_eq s dataIn (by omega)]
    by_cases hl : isLetter dataIn
    · rw [if_pos hl, (escapeSequence_escFields _ _).1]
    · rw [if_neg hl]
  · intro bytes letter ha hi hb hl
    have hfull := feed_full_accumulator bytes s ha hi hb
    have hne : letter ≠ 27 := by
      intro e
      rw [e] at hl
      exact absurd hl (by decide)
    have step : feed s (bytes ++ [letter]) =
        TERM_ProcessEscapeSequence
          { feed s bytes with
            escapeSequence := setAt (feed s bytes).escapeSequence 11 letter
            escapeSequenceActive := false } letter := by
      rw [feed_append]
      show TERM_ProcessChar (feed s bytes) letter = _
      unfold TERM_ProcessChar
      rw [if_neg (by simpa using hne), if_neg (by simp [hfull.2]), if_neg (by rw [hfull.1]; omega)]
      rw [escSeqChar_eq _ letter (by rw [hfull.1]; omega), if_pos hl]
      simp only [hfull.1]
      rfl
    refine ⟨hfull.1, hfull.2, ?_, step⟩
    rw [step, (escapeSequence_escFields _ _).2.2]

theorem accumulator_index_in_range_witness :
    Reachable (feed (TERM_Init 4 2 true 0)
      [27, 91, 49, 50, 51, 52, 53, 54, 55, 56, 57, 48, 49, 50, 51, 52]) ∧
    (feed (TERM_Init 4 2 true 0)
      [27, 91, 49, 50, 51, 52, 53, 54, 55, 56, 57, 48, 49, 50, 51, 52]).escapeSequenceIndex = 11 ∧
    (feed (feed (TERM_Init 4 2 true 0)
      [27, 91, 49, 50, 51, 52, 53, 54, 55, 56, 57, 48, 49, 50, 51, 52])
      ([53, 59, 54] ++ [120])).escapeSequenceActive = false :=
  ⟨reachable_feed _ _ (Reachable.init 4 2 true 0) (by decide), by decide,
    ((accumulator_index_in_range _
      (reachable_feed _ _ (Reachable.init 4 2 true 0) (by decide))).2.2 [53, 59, 54] 120
      (by decide) (by decide) (by decide) (by decide)).2.2.1⟩

/-! ## Parameter extraction on any byte string -/

/-- What `TERM_ExtractParameter` does, read off the first four bytes at `str`. -/
theorem extract_first_four (str : Nat → Nat) (st : Nat) :
    (TERM_ExtractParameter str st).1 ≤ 4 ∧
    (∀ i, i < (TERM_ExtractParameter str st).1 → isAsciiDigit (str i) = true) ∧
    ((TERM_ExtractParameter str st).1 < 4 →
      isAsciiDigit (str (TERM_ExtractParameter str st).1) = false) ∧
    (0 < (TERM_ExtractParameter str st).1 →
      (TERM_ExtractParameter str st).2 =
        decimalValue ((List.range (TERM_ExtractParameter str st).1).map (fun i => str i - 48)) ∧
      (TERM_ExtractParameter str st).2 ≤ 9999) ∧
    ((TERM_ExtractParameter str st).1 = 0 → (TERM_ExtractParameter str st).2 = st) := by
  unfold isAsciiDigit
  by_cases d0 : 48 ≤ str 0 ∧ str 0 ≤ 57
  · by_cases d1 : 48 ≤ str 1 ∧ str 1 ≤ 57
    · by_cases d2 : 48 ≤ str 2 ∧ str 2 ≤ 57
      · by_cases d3 : 48 ≤ str 3 ∧ str 3 ≤ 57
        · simp only [TERM_ExtractParameter, TERM_MAXPARAMDIGITS, extractLoop, if_pos d0, if_pos d1,
            if_pos d2, if_pos d3]
          refine ⟨by omega, ?_, by omega, fun _ => ⟨?_, ?_⟩, by omega⟩
          · intro i hi
            have : i = 0 ∨ i = 1 ∨ i = 2 ∨ i = 3 := by omega
            rcases this with h | h | h | h <;> subst h <;> simpa using ‹_›
          · simp [decimalValue, List.range_succ]
            omega
          · simp only [gt_iff_lt, Nat.zero_add, Nat.reduceAdd, Nat.ofNat_pos, if_true, Nat.zero_mul]
            rw [Nat.mod_eq_of_lt (show str 0 - 48 < 65536 by omega)]
            rw [Nat.mod_eq_of_lt (show (str 0 - 48) * 10 + (str 1 - 48) < 65536 by omega)]
            rw [Nat.mod_eq_of_lt
              (show ((str 0 - 48) * 10 + (str 1 - 48)) * 10 + (str 2 - 48) < 65536 by omega)]
            rw [Nat.mod_eq_of_lt (show (((str 0 - 48) * 10 + (str 1 - 48)) * 10 + (str 2 - 48)) * 10 +
              (str 3 - 48) < 65536 by omega)]
            omega
        · simp only [TERM_ExtractParameter, TERM_MAXPARAMDIGITS, extractLoop, if_pos d0, if_pos d1,
            if_pos d2, if_neg d3]
          refine ⟨by omega, ?_, fun _ => by simpa using d3, fun _ => ⟨?_, ?_⟩, by omega⟩
          · intro i hi
            have : i = 0 ∨ i = 1 ∨ i = 2 := by omega
            rcases this with h | h | h <;> subst h <;> simpa using ‹_›
          · simp [decimalValue, List.range_succ]
            omega
          · simp only [gt_iff_lt, Nat.zero_add, Nat.reduceAdd, Nat.ofNat_pos, if_true, Nat.zero_mul]
            rw [Nat.mod_eq_of_lt (show str 0 - 48 < 65536 by omega)]
            rw [Nat.mod_eq_of_lt (show (str 0 - 48) * 10 + (str 1 - 48) < 65536 by omega)]
            rw [Nat.mod_eq_of_lt
              (show ((str 0 - 48) * 10 + (str 1 - 48)) * 10 + (str 2 - 48) < 65536 by omega)]
            omega
      · simp only [TERM_ExtractParameter, TERM_MAXPARAMDIGITS, extractLoop, if_pos d0, if_pos d1,
          if_neg d2]
        refine ⟨by omega, ?_, fun _ => by simpa using d2, fun _ => ⟨?_, ?_⟩, by omega⟩
        · intro i hi
          have : i = 0 ∨ i = 1 := by omega
          rcases this with h | h <;> subst h <;> simpa using ‹_›
        · simp [decimalValue, List.range_succ]
          omega
        · simp only [gt_iff_lt, Nat.zero_add, Nat.reduceAdd, Nat.ofNat_pos, if_true, Nat.zero_mul]
          rw [Nat.mod_eq_of_lt (show str 0 - 48 < 65536 by omega)]
          rw [Nat.mod_eq_of_lt (show (str 0 - 48) * 10 + (str 1 - 48) < 65536 by omega)]
          omega
    · simp only [TERM_ExtractParameter, TERM_MAXPARAMDIGITS, extractLoop, if_pos d0, if_neg d1]
      refine ⟨by omega, ?_, fun _ => by simpa using d1, fun _ => ⟨?_, ?_⟩, by omega⟩
      · intro i hi
        have : i = 0 := by omega
        subst this
        simpa using d0
      · simp [decimalValue, List.range_succ]
        omega
      · simp
        omega
  · simp only [TERM_ExtractParameter, TERM_MAXPARAMDIGITS, extractLoop, if_neg d0]
    refine ⟨by omega, ?_, fun _ => by simpa using d0, fun h => ?_, fun _ => ?_⟩
    · intro i hi
      omega
    · omega
    · simp

/-- Every byte of the leading run satisfies the test. -/
theorem takeWhile_run (p : Nat → Bool) (l : List Nat) :
    ∀ i, i < (l.takeWhile p).length → p (l.getD i 0) = true := by
  induction l with
  | nil => intro i hi; simp at hi
  | cons a tl ih =>
    intro i hi
    by_cases ha : p a = true
    · rw [List.takeWhile_cons_of_pos ha] at hi
      cases i with
      | zero => simpa using ha
      | succ j =>
        simp only [List.length_cons] at hi
        simpa using ih j (by omega)
    · rw [List.takeWhile_cons_of_neg ha] at hi
      simp at hi

/-- The byte behind the leading run, when there is one, fails the test. -/
theorem takeWhile_stop (p : Nat → Bool) (l : List Nat) :
    (l.takeWhile p).length < l.length → p (l.getD (l.takeWhile p).length 0) = false := by
  induction l with
  | nil => intro h; simp at h
  | cons a tl ih =>
    intro h
    by_cases ha : p a = true
    · rw [List.takeWhile_cons_of_pos ha] at h ⊢
      simp only [List.length_cons] at h ⊢
      simpa using ih (by omega)
    · rw [List.takeWhile_cons_of_neg ha]
      simpa using ha

theorem takeWhile_length_le (p : Nat → Bool) (l : List Nat) :
    (l.takeWhile p).length ≤ l.length := by
  induction l with
  | nil => simp
  | cons a tl ih =>
    by_cases ha : p a = true
    · rw [List.takeWhile_cons_of_pos ha]
      simp only [List.length_cons]
      omega
    · rw [List.takeWhile_cons_of_neg ha]
      simp

theorem take_map_eq_range (f : Nat → Nat) (str : Nat → Nat) (l : List Nat) (k : Nat)
    (hk : k ≤ l.length) (hstr : ∀ i, i < l.length → str i = l.getD i 0) :
    (List.range k).map (fun i => f (str i)) = (l.take k).map f := by
  apply List.ext_getElem
  · simp
    omega
  · intro i h1 h2
    simp only [List.length_map, List.length_range] at h1
    simp only [List.getElem_map, List.getElem_range, List.getElem_take]
    rw [hstr i (by omega), List.getD_eq_getElem _ _ (by omega)]

/-- C27: for every byte string `bytes` lying at `str` (when the string consists
of fewer than four digits and nothing else, the byte behind it, its terminator,
is not a digit), `TERM_ExtractParameter` returns
digitCount = min(4, number of leading ASCII digits of `bytes`); when the count
is positive the result storage holds the decimal value of exactly the first
digitCount bytes, computed without reduction modulo 2^16, and that value is at
most 9999; when the count is 0 the result storage keeps its content. -/
theorem parameter_extraction (str : Nat → Nat) (bytes : List Nat) (resultStorage : Nat)
    (hstr : ∀ i, i < bytes.length → str i = bytes.getD i 0)
    (hend : (bytes.takeWhile isAsciiDigit).length = bytes.length → bytes.length < 4 →
      isAsciiDigit (str bytes.length) = false) :
    (TERM_ExtractParameter str resultStorage).1 =
      min TERM_MAXPARAMDIGITS (bytes.takeWhile isAsciiDigit).length ∧
    (0 < (TERM_ExtractParameter str resultStorage).1 →
      (TERM_ExtractParameter str resultStorage).2 =
        decimalValue
          ((bytes.take (TERM_ExtractParameter str resultStorage).1).map (fun b => b - 48)) ∧
      (TERM_ExtractParameter str resultStorage).2 ≤ 9999 ∧
      (TERM_ExtractParameter str resultStorage).2 < 65536) ∧
    ((TERM_ExtractParameter str resultStorage).1 = 0 →
      (TERM_ExtractParameter str resultStorage).2 = resultStorage) := by
  obtain ⟨h4, hrun, hstop, hval, hzero⟩ := extract_first_four str resultStorage
  have hle := takeWhile_length_le isAsciiDigit bytes
  have hcount : (TERM_ExtractParameter str resultStorage).1 =
      min 4 (bytes.takeWhile isAsciiDigit).length := by
    apply le_antisymm
    · apply le_min h4
      by_contra hlt
      push_neg at hlt
      have hd := hrun _ hlt
      by_cases hfull : (bytes.takeWhile isAsciiDigit).length = bytes.length
      · have := hend hfull (by omega)
        rw [hfull] at hd
        rw [this] at hd
        exact absurd hd (by decide)
      · have hs := takeWhile_stop isAsciiDigit bytes (by omega)
        rw [hstr _ (by omega), hs] at hd
        exact absurd hd (by decide)
    · by_contra hlt
      push_neg at hlt
      have h1 : (TERM_ExtractParameter str resultStorage).1 < 4 := by omega
      have h2 : (TERM_ExtractParameter str resultStorage).1 <
          (bytes.takeWhile isAsciiDigit).length := by omega
      have hs := hstop h1
      have hr := takeWhile_run isAsciiDigit bytes _ h2
      rw [hstr _ (by omega), hr] at hs
      exact absurd hs (by decide)
  refine ⟨hcount, fun hpos => ?_, hzero⟩
  obtain ⟨hv, hb⟩ := hval hpos
  refine ⟨?_, hb, by omega⟩
  rw [hv]
  exact congrArg decimalValue
    (take_map_eq_range (fun b => b - 48) str bytes _ (by omega) hstr)

theorem parameter_extraction_witness :
    (TERM_ExtractParameter (fun i => [49, 50, 51, 52, 53, 54].getD i 0) 7).1 =
      min TERM_MAXPARAMDIGITS ([49, 50, 51, 52, 53, 54].takeWhile isAsciiDigit).length ∧
    (TERM_ExtractParameter (fun i => [49, 50, 51, 52, 53, 54].getD i 0) 7) = (4, 1234) :=
  ⟨(parameter_extraction (fun i => [49, 50, 51, 52, 53, 54].getD i 0) [49, 50, 51, 52, 53, 54] 7
      (fun _ _ => rfl) (by decide)).1, by decide⟩

/-! ## Reads stay inside the structure -/

/-- A pointer advanced by `k` reads what the accumulator pointer reads `k`
places further on. -/
theorem escPtr_shift (s : TERM_terminal_t) (k i : Nat) : escPtr s k i = escPtr s 0 (k + i) := by
  unfold escPtr
  simp only [Nat.zero_add]

/-- The reads of one extraction at `k`: indices from `k` on, at most four more,
and every index read behind another holds a digit there. -/
theorem extractReadsLoop_bound (s : TERM_terminal_t) (k remaining : Nat) :
    ∀ (digitCount j : Nat), j ∈ extractReadsLoop s k remaining digitCount →
      k + digitCount ≤ j ∧ j ≤ k + digitCount + remaining ∧
      ∀ m, k + digitCount ≤ m → m < j → 48 ≤ escPtr s 0 m ∧ escPtr s 0 m ≤ 57 := by
  induction remaining with
  | zero =>
    intro dc j hj
    simp only [extractReadsLoop, List.mem_singleton] at hj
    subst hj
    exact ⟨le_refl _, by omega, fun m h1 h2 => by omega⟩
  | succ n ih =>
    intro dc j hj
    simp only [extractReadsLoop, List.mem_cons] at hj
    rcases hj with hj | hj
    · subst hj
      exact ⟨le_refl _, by omega, fun m h1 h2 => by omega⟩
    · by_cases hd : 48 ≤ escPtr s k dc ∧ escPtr s k dc ≤ 57
      · rw [if_pos hd] at hj
        obtain ⟨a, b, c⟩ := ih (dc + 1) j hj
        refine ⟨by omega, by omega, fun m h1 h2 => ?_⟩
        by_cases hm : m = k + dc
        · subst hm
          rw [← escPtr_shift]
          exact hd
        · exact c m (by omega) h2
      · rw [if_neg hd] at hj
        simp at hj

/-- In a terminal with `NoDigitBehind` the bytes at offsets 12, 14 and 15 are
no digits. -/
theorem escPtr_behind (s : TERM_terminal_t) (h : NoDigitBehind s) (m : Nat)
    (hm : m = 12 ∨ m = 14 ∨ m = 15) : ¬ (48 ≤ escPtr s 0 m ∧ escPtr s 0 m ≤ 57) := by
  obtain ⟨h1, h2, h3, h4⟩ := h
  unfold escPtr
  simp only [TERM_MAX_ESCAPE_LENGTH, Nat.zero_add]
  rcases hm with e | e | e <;> subst e
  · rw [if_neg (by omega), if_pos rfl]
    omega
  · rw [if_neg (by omega), if_neg (by omega), if_neg (by omega), if_pos rfl]
    omega
  · rw [if_neg (by omega), if_neg (by omega), if_neg (by omega), if_neg (by omega), if_pos rfl]
    omega

/-- An SGR parameter changes the current attributes only. -/
theorem sgrParameter_noDigitBehind (s : TERM_terminal_t) (parameter : Nat)
    (h : NoDigitBehind s) : NoDigitBehind (TERM_ProcessSgrParameter s parameter) := by
  rw [sgrParameter_frame]
  exact h

/-- The SGR loop started at an index up to 13, or at 15, reads no index behind
15. -/
theorem sgrReads_bound (passes : Nat) :
    ∀ (s : TERM_terminal_t) (k : Nat), NoDigitBehind s → (k ≤ 13 ∨ k = 15) →
      ∀ j ∈ sgrReads passes s k, j ≤ 15 := by
  induction passes with
  | zero => intro s k _ _ j hj; simp [sgrReads] at hj
  | succ n ih =>
    intro s k hs hk j hj
    have h12 := escPtr_behind s hs 12 (Or.inl rfl)
    have h14 := escPtr_behind s hs 14 (Or.inr (Or.inl rfl))
    have h15 := escPtr_behind s hs 15 (Or.inr (Or.inr rfl))
    obtain ⟨c4, crun, _, _, _⟩ := extract_first_four (escPtr s k) uninitialised
    have hrun : ∀ i, i < (TERM_ExtractParameter (escPtr s k) uninitialised).1 →
        48 ≤ escPtr s 0 (k + i) ∧ escPtr s 0 (k + i) ≤ 57 := by
      intro i hi
      have := crun i hi
      rw [escPtr_shift] at this
      simpa [isAsciiDigit] using this
    simp only [sgrReads, List.mem_append] at hj
    rcases hj with hj | hj
    · obtain ⟨a, b, c⟩ := extractReadsLoop_bound s k 4 0 j hj
      by_contra hgt
      rcases hk with hk | hk
      · by_cases hk12 : k ≤ 12
        · exact h12 (c 12 (by omega) (by omega))
        · exact h14 (c 14 (by omega) (by omega))
      · exact h15 (c 15 (by omega) (by omega))
    · by_cases hp : (TERM_ExtractParameter (escPtr s k) uninitialised).1 ≠ 0
      · rw [if_pos hp] at hj
        have hpos : 0 < (TERM_ExtractParameter (escPtr s k) uninitialised).1 :=
          Nat.pos_of_ne_zero hp
        have hnext : k + (TERM_ExtractParameter (escPtr s k) uninitialised).1 + 1 ≤ 13 ∨
            k + (TERM_ExtractParameter (escPtr s k) uninitialised).1 + 1 = 15 := by
          rcases hk with hk | hk
          · by_cases hk13 : k = 13
            · subst hk13
              by_cases h1 : (TERM_ExtractParameter (escPtr s 13) uninitialised).1 = 1
              · right; omega
              · exact absurd (hrun 1 (by omega)) h14
            · left
              by_contra hgt
              have := hrun (12 - k) (by omega)
              rw [show k + (12 - k) = 12 by omega] at this
              exact h12 this
          · subst hk
            exact absurd (hrun 0 hpos) h15
        refine ih _ _ ?_ hnext j hj
        split_ifs <;> first | exact hs | exact sgrParameter_noDigitBehind s _ hs
      · rw [if_neg hp] at hj
        simp at hj

/-- No handler of a completed sequence reads behind offset 15. -/
theorem escapeSequenceReads_bound (x : TERM_terminal_t) (hx : NoDigitBehind x) (data : Nat) :
    ∀ j ∈ escapeSequenceReads x data, j ≤ 15 := by
  intro j hj
  unfold escapeSequenceReads at hj
  by_cases g1 : data = 65 ∨ data = 66 ∨ data = 67 ∨ data = 68 ∨ data = 69 ∨ data = 70 ∨
      data = 71 ∨ data = 74 ∨ data = 75 ∨ data = 104 ∨ data = 108
  · rw [if_pos g1] at hj
    obtain ⟨a, b, c⟩ := extractReadsLoop_bound x 0 4 0 j hj
    omega
  · rw [if_neg g1] at hj
    by_cases g2 : data = 72 ∨ data = 102
    · rw [if_pos g2, List.mem_append] at hj
      rcases hj with hj | hj
      · obtain ⟨a, b, c⟩ := extractReadsLoop_bound x 0 4 0 j hj
        omega
      · obtain ⟨a, b, c⟩ := extractReadsLoop_bound x _ 4 0 j hj
        have := (extract_first_four (escPtr x 0) uninitialised).1
        omega
    · rw [if_neg g2] at hj
      by_cases g3 : data = 109
      · rw [if_pos g3] at hj
        exact sgrReads_bound _ x 0 hx (Or.inl (by omega)) j hj
      · rw [if_neg g3] at hj
        simp at hj

/-- No reachable terminal makes the interpreter read behind offset 15 of the
accumulator pointer: the reads stay inside `TERM_terminal_t`. -/
theorem reads_within_structure (s : TERM_terminal_t) (hs : Reachable s) (dataIn : Nat) :
    ∀ j ∈ processCharReads s dataIn, j ≤ 15 := by
  intro j hj
  have hidx := reachable_index s hs
  obtain ⟨hc, _⟩ := reachable_inv s hs
  unfold processCharReads at hj
  simp only [TERM_MAX_ESCAPE_LENGTH] at hj
  split_ifs at hj with h1 h2 h3 h4 h5 h6
  all_goals first
    | (simp at hj; done)
    | (refine (fun hx => escapeSequenceReads_bound _ hx _ j hj) ⟨?_, ?_, hc.2.2.1, hc.2.2.2⟩
       · first
           | (show (0 : Int) ≤ s.escapeSequenceIndex + 1; omega)
           | (show (0 : Int) ≤ s.escapeSequenceIndex; omega)
       · first
           | (show s.escapeSequenceIndex + 1 ≤ (11 : Int); omega)
           | (show s.escapeSequenceIndex ≤ (11 : Int); omega))

/-! ## The display flags and the buffer state -/

/-- Switching the cursor off changes no field but `cursorVisible`. -/
theorem disableVisibleCursor_agrees (s : TERM_terminal_t) :
    agreeExceptDisplayFlags s (TERM_DisableVisibleCursor s) := by
  unfold TERM_DisableVisibleCursor
  split_ifs
  · exact ⟨rfl, rfl, rfl, rfl, rfl, rfl, rfl, rfl, rfl, rfl, rfl, rfl, rfl, rfl⟩
  · exact ⟨rfl, rfl, rfl, rfl, rfl, rfl, rfl, rfl, rfl, rfl, rfl, rfl, rfl, rfl⟩

/-- C28 fails on the code: the buffer state can depend on `cursorVisible`.
`TERM_Init(4, 2, true)` on memory whose flag byte has the padding bits 0011,
then the bytes `ESC [ 1;1;1;1;1;11`, `ESC`, `[`, `9`: the accumulator holds `9`
at index 0 and stale bytes of the first sequence behind it, with the digits
`11` at indices 10 and 11.  The terminal `s` reached (a reachable state) and
the terminal `t` that `TERM_DisableVisibleCursor` makes of it agree on every
field except `cursorVisible`.  The byte `m` is stored at index 1 and starts
the SGR loop, which reads the accumulator indices 0..15 in both terminals: it
takes `9`, then the stale parameters `1`, `1`, `1`, `1` and `11`, steps from
index 10 over the index byte at 12 and extracts at 13, the flag byte.  That
byte is the digit `4` (underline) in `s` and the digit `0` (reset) in `t`.
Afterwards `s` has underline and strikethrough set and `t` has all attributes
clear, so the two no longer agree on `currentAttributes`. -/
theorem display_flag_read_as_sgr_parameter :
    Reachable (feed (TERM_Init 4 2 true 3)
        [27, 91, 49, 59, 49, 59, 49, 59, 49, 59, 49, 59, 49, 49, 27, 91, 57]) ∧
    agreeExceptDisplayFlags
      (feed (TERM_Init 4 2 true 3)
        [27, 91, 49, 59, 49, 59, 49, 59, 49, 59, 49, 59, 49, 49, 27, 91, 57])
      (TERM_DisableVisibleCursor (feed (TERM_Init 4 2 true 3)
        [27, 91, 49, 59, 49, 59, 49, 59, 49, 59, 49, 59, 49, 49, 27, 91, 57])) ∧
    processCharReads (feed (TERM_Init 4 2 true 3)
        [27, 91, 49, 59, 49, 59, 49, 59, 49, 59, 49, 59, 49, 49, 27, 91, 57]) 109 =
      [0, 1, 2, 3, 4, 5, 6, 7, 8, 9, 10, 11, 12, 13, 14, 15] ∧
    processCharReads (TERM_DisableVisibleCursor (feed (TERM_Init 4 2 true 3)
        [27, 91, 49, 59, 49, 59, 49, 59, 49, 59, 49, 59, 49, 49, 27, 91, 57])) 109 =
      [0, 1, 2, 3, 4, 5, 6, 7, 8, 9, 10, 11, 12, 13, 14, 15] ∧
    (TERM_ProcessChar (feed (TERM_Init 4 2 true 3)
        [27, 91, 49, 59, 49, 59, 49, 59, 49, 59, 49, 59, 49, 49, 27, 91, 57]) 109).currentAttributes =
      { singleUnderline := true, strikeThrough := true, imageInverted := false } ∧
    (TERM_ProcessChar (TERM_DisableVisibleCursor (feed (TERM_Init 4 2 true 3)
        [27, 91, 49, 59, 49, 59, 49, 59, 49, 59, 49, 59, 49, 49, 27, 91, 57])) 109).currentAttributes =
      { singleUnderline := false, strikeThrough := false, imageInverted := false } ∧
    ¬ agreeExceptDisplayFlags
      (TERM_ProcessChar (feed (TERM_Init 4 2 true 3)
        [27, 91, 49, 59, 49, 59, 49, 59, 49, 59, 49, 59, 49, 49, 27, 91, 57]) 109)
      (TERM_ProcessChar (TERM_DisableVisibleCursor (feed (TERM_Init 4 2 true 3)
        [27, 91, 49, 59, 49, 59, 49, 59, 49, 59, 49, 59, 49, 49, 27, 91, 57])) 109) := by
  have e1 : (TERM_ProcessChar (feed (TERM_Init 4 2 true 3)
        [27, 91, 49, 59, 49, 59, 49, 59, 49, 59, 49, 59, 49, 49, 27, 91, 57]) 109).currentAttributes =
      { singleUnderline := true, strikeThrough := true, imageInverted := false } := by decide
  have e2 : (TERM_ProcessChar (TERM_DisableVisibleCursor (feed (TERM_Init 4 2 true 3)
        [27, 91, 49, 59, 49, 59, 49, 59, 49, 59, 49, 59, 49, 49, 27, 91, 57])) 109).currentAttributes =
      { singleUnderline := false, strikeThrough := false, imageInverted := false } := by decide
  refine ⟨reachable_feed _ _ (Reachable.init 4 2 true 3) (by decide),
    disableVisibleCursor_agrees _, by decide, by decide, e1, e2, ?_⟩
  intro h
  have h3 := h.2.2.1
  rw [e1, e2] at h3
  exact absurd h3 (by decide)

end Terminal

namespace Fifo

/-! ## The FIFO refines a queue -/

theorem wrap_next (n x base : Nat) (hx : x < n) :
    (if base + x = base + n - 1 then base else base + x + 1) = base + (x + 1) % n := by
  by_cases h : x = n - 1
  · have e : x + 1 = n := by omega
    rw [if_pos (by omega), e, Nat.mod_self]
    rfl
  · rw [if_neg (by omega), Nat.mod_eq_of_lt (by omega)]
    rfl

theorem wrap_distinct (n a i j : Nat) (hij : i < j) (hj : j < n) :
    (a + i) % n ≠ (a + j) % n := by
  intro e
  have h := Nat.sub_mod_eq_zero_of_mod_eq e.symm
  have e2 : a + j - (a + i) = j - i := by omega
  rw [e2, Nat.mod_eq_of_lt (by omega)] at h
  omega

/-- Normal form of a put that does not wait and has no consumer to notify. -/
theorem put_eq (code : Nat → FIFO_handle_t → Option FIFO_handle_t) (handle : FIFO_handle_t)
    (data : Nat) (hfree : handle.itemsFree ≠ 0) (hc : handle.ConsumerCallback = none) :
    FIFO_InternalPutData code handle data =
      some { handle with
        memory := store handle.memory handle.head data
        head := if handle.head = handle.bufferEnd then handle.bufferStart else handle.head + 1
        itemsFree := (handle.itemsFree + 255) % 256
        itemsUsed := (handle.itemsUsed + 1) % 256 } := by
  unfold FIFO_InternalPutData
  rw [if_neg hfree]
  by_cases h1 : handle.head = handle.bufferEnd <;> by_cases h2 : handle.itemsUsed = 0 <;>
    simp [h1, h2, hc]

/-- Normal form of a get that does not wait and has no producer to notify. -/
theorem get_eq (code : Nat → FIFO_handle_t → Option FIFO_handle_t) (handle : FIFO_handle_t)
    (hused : handle.itemsUsed ≠ 0) (hp : handle.ProducerCallback = none) :
    FIFO_InternalGetData code handle =
      some (handle.memory
          (if handle.tail = handle.bufferEnd then handle.bufferStart else handle.tail + 1),
        { handle with
          tail := if handle.tail = handle.bufferEnd then handle.bufferStart else handle.tail + 1
          itemsFree := (handle.itemsFree + 1) % 256
          itemsUsed := (handle.itemsUsed + 255) % 256 }) := by
  unfold FIFO_InternalGetData
  rw [if_neg hused]
  by_cases h1 : handle.tail = handle.bufferEnd <;> by_cases h2 : handle.itemsFree = 0 <;>
    simp [h1, h2, hp]

/-- A put into a FIFO that holds `queue` and is not full returns, and the FIFO
then holds `queue ++ [data]`. -/
theorem put_spec (code : Nat → FIFO_handle_t → Option FIFO_handle_t) (n base : Nat)
    (handle : FIFO_handle_t) (queue : List Nat) (data : Nat) (hn : n ≤ 255)
    (hinv : FifoInv n base handle queue) (hroom : queue.length < n) :
    ∃ h, FIFO_InternalPutData code handle data = some h ∧ FifoInv n base h (queue ++ [data]) := by
  obtain ⟨hs, he, hp, hc, hu, hf, t, ht, htail, hhead, hmem⟩ := hinv
  have hfree : handle.itemsFree ≠ 0 := by omega
  have hlt : (t + 1 + queue.length) % n < n := Nat.mod_lt _ (by omega)
  have hnext := wrap_next n ((t + 1 + queue.length) % n) base hlt
  rw [Nat.mod_add_mod, ← hhead, ← he, ← hs] at hnext
  refine ⟨_, put_eq code handle data hfree hc, hs, he, hp, hc, ?_, ?_, t, ht, htail, ?_, ?_⟩
  · show (handle.itemsUsed + 1) % 256 = (queue ++ [data]).length
    rw [List.length_append, List.length_singleton, hu]
    omega
  · show (handle.itemsFree + 255) % 256 + (queue ++ [data]).length = n
    rw [List.length_append, List.length_singleton]
    omega
  · show (if handle.head = handle.bufferEnd then handle.bufferStart else handle.head + 1) =
      base + (t + 1 + (queue ++ [data]).length) % n
    rw [List.length_append, List.length_singleton, hnext, hs, ← Nat.add_assoc]
  · intro i hi
    rw [List.length_append, List.length_singleton] at hi
    show store handle.memory handle.head data (base + (t + 1 + i) % n) = _
    unfold store
    by_cases hlast : i = queue.length
    · subst hlast
      rw [if_pos (by rw [hhead])]
      rw [List.getD_append_right _ _ _ _ (le_refl _), Nat.sub_self]
      rfl
    · have hi2 : i < queue.length := by omega
      have hne : (t + 1 + i) % n ≠ (t + 1 + queue.length) % n :=
        wrap_distinct n (t + 1) i queue.length hi2 hroom
      rw [if_neg (by rw [hhead]; omega), hmem i hi2, List.getD_append _ _ _ _ hi2]

/-- A get from a FIFO that holds `x :: rest` returns `x`, and the FIFO then
holds `rest`. -/
theorem get_spec (code : Nat → FIFO_handle_t → Option FIFO_handle_t) (n base : Nat)
    (handle : FIFO_handle_t) (x : Nat) (rest : List Nat) (hn : n ≤ 255)
    (hinv : FifoInv n base handle (x :: rest)) :
    ∃ h, FIFO_InternalGetData code handle = some (x, h) ∧ FifoInv n base h rest := by
  obtain ⟨hs, he, hp, hc, hu, hf, t, ht, htail, hhead, hmem⟩ := hinv
  simp only [List.length_cons] at hu hf hhead hmem
  have hused : handle.itemsUsed ≠ 0 := by omega
  have hnext := wrap_next n t base ht
  rw [← htail, ← he, ← hs] at hnext
  have hx : handle.memory (handle.bufferStart + (t + 1) % n) = x := by
    have := hmem 0 (by omega)
    rw [hs]
    simpa using this
  have hget := get_eq code handle hused hp
  rw [hnext, hx] at hget
  refine ⟨_, hget, hs, he, hp, hc, ?_, ?_, (t + 1) % n, Nat.mod_lt _ (by omega), ?_, ?_, ?_⟩
  · show (handle.itemsUsed + 255) % 256 = rest.length
    omega
  · show (handle.itemsFree + 1) % 256 + rest.length = n
    omega
  · show handle.bufferStart + (t + 1) % n = base + (t + 1) % n
    rw [hs]
  · show handle.head = base + ((t + 1) % n + 1 + rest.length) % n
    rw [hhead, Nat.add_assoc ((t + 1) % n), Nat.mod_add_mod]
    congr 2
    omega
  · intro i hi
    show handle.memory (base + ((t + 1) % n + 1 + i) % n) = _
    rw [Nat.add_assoc ((t + 1) % n), Nat.mod_add_mod]
    have := hmem (i + 1) (by omega)
    rw [List.getD_cons_succ] at this
    rw [← this]
    congr 3
    omega

theorem init_fifoInv (memory : Nat → Nat) (buffer n : Nat) (hn : 1 ≤ n) :
    FifoInv n buffer (FIFO_Init memory buffer n) [] := by
  refine ⟨rfl, rfl, rfl, rfl, rfl, rfl, n - 1, by omega, ?_, ?_, ?_⟩
  · show buffer + n - 1 = buffer + (n - 1)
    omega
  · show buffer = buffer + (n - 1 + 1 + 0) % n
    have e : n - 1 + 1 + 0 = n := by omega
    rw [e, Nat.mod_self]
    rfl
  · intro i hi
    simp at hi

/-- Simulation: from a FIFO that holds `queue`, every admissible sequence of
operations runs to the end on the FIFO and on the abstract queue, with the
same bytes returned, and the FIFO holds the abstract queue afterwards. -/
theorem run_simulation (code : Nat → FIFO_handle_t → Option FIFO_handle_t) (n base : Nat)
    (hn : n ≤ 255) (ops : List FifoOp) :
    ∀ (handle : FIFO_handle_t) (queue : List Nat), FifoInv n base handle queue →
      admissible code handle ops = true →
      ∃ h q outs, fifoRun code handle ops = some (h, outs) ∧
        queueRun n queue ops = some (q, outs) ∧ FifoInv n base h q ∧
        outs ++ q = queue ++ putsOf ops := by
  induction ops with
  | nil =>
    intro handle queue hinv _
    exact ⟨handle, queue, [], rfl, rfl, hinv, by simp [putsOf]⟩
  | cons op ops ih =>
    intro handle queue hinv hadm
    cases op with
    | put data =>
      simp only [admissible, Bool.and_eq_true, decide_eq_true_eq] at hadm
      have hroom : queue.length < n := by
        obtain ⟨_, _, _, _, _, hf, _⟩ := hinv
        omega
      obtain ⟨h1, e1, hinv1⟩ := put_spec code n base handle queue data hn hinv hroom
      have hstep : fifoStep code handle (FifoOp.put data) = some (h1, none) := by
        simp only [fifoStep, FIFO_PutUint8, e1]
      rw [hstep] at hadm
      obtain ⟨h, q, outs, r1, r2, hinv2, hout⟩ := ih h1 (queue ++ [data]) hinv1 hadm.2
      refine ⟨h, q, outs, ?_, ?_, hinv2, ?_⟩
      · simp only [fifoRun, hstep, r1, Option.toList, List.nil_append]
      · simp only [queueRun, queueStep, if_pos hroom, r2, Option.toList, List.nil_append]
      · rw [hout]
        simp [putsOf]
    | get =>
      simp only [admissible, Bool.and_eq_true, decide_eq_true_eq] at hadm
      cases queue with
      | nil =>
        obtain ⟨_, _, _, _, hu, _⟩ := hinv
        simp only [List.length_nil] at hu
        omega
      | cons x rest =>
        obtain ⟨h1, e1, hinv1⟩ := get_spec code n base handle x rest hn hinv
        have hstep : fifoStep code handle FifoOp.get = some (h1, some x) := by
          simp only [fifoStep, FIFO_GetUint8, e1]
        rw [hstep] at hadm
        obtain ⟨h, q, outs, r1, r2, hinv2, hout⟩ := ih h1 rest hinv1 hadm.2
        refine ⟨h, q, x :: outs, ?_, ?_, hinv2, ?_⟩
        · simp only [fifoRun, hstep, r1, Option.toList, List.singleton_append]
        · simp only [queueRun, queueStep, r2, Option.toList, List.singleton_append]
        · rw [List.cons_append, hout]
          simp [putsOf]

/-- C21: a FIFO initialised by `FIFO_Init` with a buffer of `n` bytes
(1 <= n <= 255, the range of `FIFO_size_t`) and no callbacks registered, run
through any sequence of single-byte puts and gets in which a put is only
issued when `itemsFree > 0` and a get only when `itemsUsed > 0`: every
operation returns, the gets return exactly what the abstract queue of capacity
`n` returns on the same sequence, the bytes returned followed by the bytes
still queued are the bytes put, in the order they were put, `itemsUsed` is the
length of the abstract queue and `itemsFree + itemsUsed = n`.  The sequence is
arbitrary, so this holds after every operation and across any number of
wrap-arounds of `head` and `tail`. -/
theorem fifo_order (code : Nat → FIFO_handle_t → Option FIFO_handle_t) (memory : Nat → Nat)
    (buffer n : Nat) (ops : List FifoOp) (h1 : 1 ≤ n) (h255 : n ≤ 255)
    (hadm : admissible code (FIFO_Init memory buffer n) ops = true) :
    ∃ h q outs, fifoRun code (FIFO_Init memory buffer n) ops = some (h, outs) ∧
      queueRun n [] ops = some (q, outs) ∧
      outs ++ q = putsOf ops ∧
      h.itemsUsed = q.length ∧ h.itemsFree + h.itemsUsed = n := by
  obtain ⟨h, q, outs, r1, r2, hinv, hout⟩ :=
    run_simulation code n buffer h255 ops _ [] (init_fifoInv memory buffer n h1) hadm
  obtain ⟨_, _, _, _, hu, hf, _⟩ := hinv
  exact ⟨h, q, outs, r1, r2, by simpa using hout, hu, by omega⟩

theorem fifo_order_witness :
    admissible (fun _ _ => none) (FIFO_Init (fun _ => 0) 100 3)
      [FifoOp.put 1, FifoOp.put 2, FifoOp.get, FifoOp.put 3, FifoOp.put 4, FifoOp.get,
        FifoOp.get, FifoOp.get] = true ∧
    ∃ h q outs, fifoRun (fun _ _ => none) (FIFO_Init (fun _ => 0) 100 3)
        [FifoOp.put 1, FifoOp.put 2, FifoOp.get, FifoOp.put 3, FifoOp.put 4, FifoOp.get,
          FifoOp.get, FifoOp.get] = some (h, outs) ∧
      queueRun 3 [] [FifoOp.put 1, FifoOp.put 2, FifoOp.get, FifoOp.put 3, FifoOp.put 4,
        FifoOp.get, FifoOp.get, FifoOp.get] = some (q, outs) ∧
      outs ++ q = putsOf [FifoOp.put 1, FifoOp.put 2, FifoOp.get, FifoOp.put 3, FifoOp.put 4,
        FifoOp.get, FifoOp.get, FifoOp.get] ∧
      h.itemsUsed = q.length ∧ h.itemsFree + h.itemsUsed = 3 :=
  ⟨by decide, fifo_order (fun _ _ => none) (fun _ => 0) 100 3 _ (by decide) (by decide)
    (by decide)⟩

/-! ## A get that triggers the producer callback -/

/-- C30 fails on the code.  A FIFO of 3 bytes is filled with 1, 2, 3 and a
producer callback that inserts the byte 99 is registered.  The get returns 99,
the byte the callback has just inserted, not the oldest byte 1: the callback
runs before the byte is read through `tail`, and in a full FIFO it stores at
`head`, which is the place `tail` has just been moved to.  With the callback
taken away again, the next three gets return 2, 3, 99: the byte 1 is never
returned and the byte 99 is returned twice. -/
theorem get_returns_callback_byte :
    ∃ full h1 h2,
      fifoRun (insertingProducer 99) (FIFO_RegisterProducer (FIFO_Init (fun _ => 0) 100 3) (some 1))
        [FifoOp.put 1, FifoOp.put 2, FifoOp.put 3] = some (full, []) ∧
      full.itemsFree = 0 ∧ full.itemsUsed = 3 ∧
      full.memory (if full.tail = full.bufferEnd then full.bufferStart else full.tail + 1) = 1 ∧
      FIFO_GetUint8 (insertingProducer 99) full = some (99, h1) ∧
      fifoRun (insertingProducer 99) (FIFO_RegisterProducer h1 none)
        [FifoOp.get, FifoOp.get, FifoOp.get] = some (h2, [2, 3, 99]) :=
  ⟨_, _, _, rfl, rfl, rfl, rfl, rfl, rfl⟩

end Fifo

namespace Joystick

/-! ## Debouncing -/

/-- The polling handler leaves `lastSample` equal to the sample it was called
with, whichever branch it takes. -/
theorem pollingHandler_lastSample (d : JOYSTICK_driver_t) (newState : Nat) :
    (JOYSTICK_PollingHandler d newState).1.lastSample = newState := by
  unfold JOYSTICK_PollingHandler
  by_cases h : newState ≠ d.lastSample
  · rw [if_pos h]
  · rw [if_neg h]
    simp only []
    have e : newState = d.lastSample := by
      by_contra hne
      exact h hne
    split_ifs
    · exact e.symm
    · exact e.symm

/-- After any sequence of calls `lastSample` is the sample of the last polling
call. -/
theorem calls_lastSample (cs : List JoystickCall) :
    ∀ d : JOYSTICK_driver_t, (calls d cs).lastSample = lastPolled d.lastSample cs := by
  induction cs with
  | nil => intro d; rfl
  | cons c cs ih =>
    intro d
    show (calls (call d c) cs).lastSample = lastPolled _ cs
    rw [ih]
    cases c with
    | poll sample =>
      show lastPolled (JOYSTICK_PollingHandler d sample).1.lastSample cs = lastPolled sample cs
      rw [pollingHandler_lastSample]
    | init p q => rfl
    | setEventHandler e => rfl
    | releaseEventHandler => rfl

/-- C22: the driver is run from its power-on variables through any sequence
of calls (polling steps with any samples, `JOYSTICK_Init`,
`JOYSTICK_SetEventHandler`, `JOYSTICK_ReleaseEventHandler`), and then polled
with sample `s`.  When `s` differs from the sample of the preceding polling
step (0 when there was none), the step leaves `JOYSTICK_currentState` as it
was and no event is passed to the handler; when `s` equals it,
`JOYSTICK_currentState` becomes `s`.  So the debounced state changes in a step
only if the sample equals that of the preceding step. -/
theorem joystick_debouncing (cs : List JoystickCall) (s : Nat) :
    (s ≠ lastPolled 0 cs →
      (JOYSTICK_PollingHandler (calls powerOn cs) s).1.JOYSTICK_currentState =
        (calls powerOn cs).JOYSTICK_currentState ∧
      (JOYSTICK_PollingHandler (calls powerOn cs) s).2 = none) ∧
    (s = lastPolled 0 cs →
      (JOYSTICK_PollingHandler (calls powerOn cs) s).1.JOYSTICK_currentState = s) ∧
    ((JOYSTICK_PollingHandler (calls powerOn cs) s).1.JOYSTICK_currentState ≠
        (calls powerOn cs).JOYSTICK_currentState → s = lastPolled 0 cs) := by
  have hl : (calls powerOn cs).lastSample = lastPolled 0 cs := calls_lastSample cs powerOn
  have hne : s ≠ lastPolled 0 cs →
      (JOYSTICK_PollingHandler (calls powerOn cs) s).1.JOYSTICK_currentState =
        (calls powerOn cs).JOYSTICK_currentState ∧
      (JOYSTICK_PollingHandler (calls powerOn cs) s).2 = none := by
    intro h
    unfold JOYSTICK_PollingHandler
    rw [if_pos (by rw [hl]; exact h)]
    exact ⟨rfl, rfl⟩
  refine ⟨hne, ?_, ?_⟩
  · intro h
    unfold JOYSTICK_PollingHandler
    rw [if_neg (by rw [hl]; exact not_not.mpr h)]
    simp only []
    split_ifs
    · rfl
    · rfl
  · intro hchg
    by_contra h
    exact hchg (hne h).1

/-! ## Events are well formed -/

/-- A byte that meets the single bit `2 ^ i` has that bit set. -/
theorem testBit_of_and_two_pow (x i : Nat) (h : x &&& 2 ^ i ≠ 0) : x.testBit i = true := by
  by_contra hb
  apply h
  apply Nat.eq_of_testBit_eq
  intro j
  rw [Nat.testBit_and, Nat.testBit_two_pow, Nat.zero_testBit]
  by_cases e : i = j
  · subst e
    simp [hb]
  · simp [e]

/-- What one pass of the loop does to the two masks and to `buttonMask`. -/
theorem pollButton_masks (p q clicked still i : Nat) (v : PollLoop) :
    ((pollButton p q clicked still i v).pressAndHoldMask = v.pressAndHoldMask ∨
      (still &&& v.buttonMask ≠ 0 ∧
        (pollButton p q clicked still i v).pressAndHoldMask =
          v.pressAndHoldMask ||| v.buttonMask)) ∧
    ((pollButton p q clicked still i v).doubleClickMask = v.doubleClickMask ∨
      (clicked &&& v.buttonMask ≠ 0 ∧
        (pollButton p q clicked still i v).doubleClickMask =
          v.doubleClickMask ||| v.buttonMask)) ∧
    (pollButton p q clicked still i v).buttonMask = (v.buttonMask * 2) % 256 := by
  unfold pollButton
  simp only []
  refine ⟨?_, ?_, ?_⟩
  · split_ifs <;> first | exact Or.inl rfl | exact Or.inr ⟨‹_›, rfl⟩
  · split_ifs <;> first | exact Or.inl rfl | exact Or.inr ⟨‹_›, rfl⟩
  · split_ifs <;> rfl

/-- Loop invariant: before the pass for bit `i`, `buttonMask` is that bit, and
every bit set in a mask is a bit below `i` that is set in `still`
(`pressAndHoldMask`) or in `clicked` (`doubleClickMask`). -/
theorem pollButtons_masks (p q clicked still : Nat) (remaining : Nat) :
    ∀ (i : Nat) (v : PollLoop), i + remaining ≤ 8 → (i < 8 → v.buttonMask = 2 ^ i) →
      (∀ j, v.pressAndHoldMask.testBit j = true → j < i ∧ still.testBit j = true) →
      (∀ j, v.doubleClickMask.testBit j = true → j < i ∧ clicked.testBit j = true) →
      (∀ j, (pollButtons p q clicked still i remaining v).pressAndHoldMask.testBit j = true →
        j < i + remaining ∧ still.testBit j = true) ∧
      (∀ j, (pollButtons p q clicked still i remaining v).doubleClickMask.testBit j = true →
        j < i + remaining ∧ clicked.testBit j = true) := by
  induction remaining with
  | zero => intro i v _ _ hh hd; exact ⟨hh, hd⟩
  | succ r ih =>
    intro i v hi hb hh hd
    have hi8 : i < 8 := by omega
    have hbm := hb hi8
    obtain ⟨m1, m2, m3⟩ := pollButton_masks p q clicked still i v
    have key := ih (i + 1) (pollButton p q clicked still i v) (by omega) ?_ ?_ ?_
    · obtain ⟨k1, k2⟩ := key
      refine ⟨fun j hj => ?_, fun j hj => ?_⟩
      · have := k1 j hj
        exact ⟨by omega, this.2⟩
      · have := k2 j hj
        exact ⟨by omega, this.2⟩
    · intro h8
      rw [m3, hbm, ← Nat.pow_succ]
      exact Nat.mod_eq_of_lt (by
        show 2 ^ (i + 1) < 2 ^ 8
        exact Nat.pow_lt_pow_right (by omega) h8)
    · intro j hj
      rcases m1 with e | ⟨hs, e⟩
      · rw [e] at hj
        have := hh j hj
        exact ⟨by omega, this.2⟩
      · rw [e, Nat.testBit_or, hbm, Nat.testBit_two_pow] at hj
        rw [hbm] at hs
        by_cases hji : i = j
        · subst hji
          exact ⟨by omega, testBit_of_and_two_pow still i hs⟩
        · simp only [hji, decide_False, Bool.or_false] at hj
          have := hh j hj
          exact ⟨by omega, this.2⟩
    · intro j hj
      rcases m2 with e | ⟨hs, e⟩
      · rw [e] at hj
        have := hd j hj
        exact ⟨by omega, this.2⟩
      · rw [e, Nat.testBit_or, hbm, Nat.testBit_two_pow] at hj
        rw [hbm] at hs
        by_cases hji : i = j
        · subst hji
          exact ⟨by omega, testBit_of_and_two_pow clicked i hs⟩
        · simp only [hji, decide_False, Bool.or_false] at hj
          have := hd j hj
          exact ⟨by omega, this.2⟩

/-- The bit masks computed at the start of the second branch of the handler. -/
theorem changed_masks (cur new : Nat) :
    ((cur ^^^ new) &&& new) &&& new = (cur ^^^ new) &&& new ∧
    ((cur ^^^ new) &&& cur) &&& new = 0 ∧
    ((cur ^^^ new) &&& new) &&& ((cur ^^^ new) &&& cur) = 0 ∧
    ((cur ^^^ new) &&& new) ||| ((cur ^^^ new) &&& cur) = cur ^^^ new := by
  refine ⟨?_, ?_, ?_, ?_⟩ <;>
  · apply Nat.eq_of_testBit_eq
    intro j
    simp only [Nat.testBit_and, Nat.testBit_xor, Nat.testBit_or, Nat.zero_testBit]
    cases cur.testBit j <;> cases new.testBit j <;> rfl

/-- A mask whose set bits are all set in `x` is a part of `x`. -/
theorem and_eq_of_bits (m x : Nat) (h : ∀ j, m.testBit j = true → x.testBit j = true) :
    m &&& x = m := by
  apply Nat.eq_of_testBit_eq
  intro j
  rw [Nat.testBit_and]
  cases hm : m.testBit j
  · rfl
  · rw [h j hm]
    rfl

/-- A mask whose set bits are all clear in `x` does not meet `x`. -/
theorem and_eq_zero_of_bits (m x : Nat) (h : ∀ j, m.testBit j = true → x.testBit j = false) :
    m &&& x = 0 := by
  apply Nat.eq_of_testBit_eq
  intro j
  rw [Nat.testBit_and, Nat.zero_testBit]
  cases hm : m.testBit j
  · rfl
  · rw [h j hm]
    rfl

/-- C23: every event that `JOYSTICK_PollingHandler` passes to the registered
handler, from whatever driver variables and sample, has `clicked` inside
`state`, `released` and `state` disjoint, `clicked` and `released` disjoint,
`dclick` inside `clicked`, `held` inside `state`, `held` and `clicked`
disjoint, and `clicked | released | held | dclick` non-zero; its `state` is
the sample, and a handler is registered. -/
theorem event_well_formed (d : JOYSTICK_driver_t) (newState : Nat) (e : JOYSTICK_event_t)
    (h : (JOYSTICK_PollingHandler d newState).2 = some e) :
    e.clicked &&& e.state = e.clicked ∧
    e.released &&& e.state = 0 ∧
    e.clicked &&& e.released = 0 ∧
    e.dclick &&& e.clicked = e.dclick ∧
    e.held &&& e.state = e.held ∧
    e.held &&& e.clicked = 0 ∧
    (e.clicked ||| e.released ||| e.held ||| e.dclick) ≠ 0 ∧
    e.state = newState ∧ d.JOYSTICK_EventHandler ≠ none := by
  obtain ⟨c1, c2, c3, c4⟩ := changed_masks d.JOYSTICK_currentState newState
  obtain ⟨k1, k2⟩ := pollButtons_masks d.JOYSTICK_pressAndHoldDelay d.JOYSTICK_doubleClickDelay
    ((d.JOYSTICK_currentState ^^^ newState) &&& newState)
    ((255 ^^^ (d.JOYSTICK_currentState ^^^ newState)) &&& newState) 8 0
    { pressAndHoldCountdown := d.pressAndHoldCountdown
      doubleClickCountdown := d.doubleClickCountdown
      pressAndHoldMask := 0
      doubleClickMask := 0
      buttonMask := 1 } (by omega) (fun _ => rfl)
    (fun j hj => by simp at hj) (fun j hj => by simp at hj)
  unfold JOYSTICK_PollingHandler at h
  by_cases hs : newState ≠ d.lastSample
  · rw [if_pos hs] at h
    exact absurd h (by simp)
  · rw [if_neg hs] at h
    simp only [] at h
    split_ifs at h with hev
    · have he := (Option.some.inj (by simpa using h) : _ = e)
      subst he
      refine ⟨c1, c2, c3, ?_, ?_, ?_, ?_, rfl, hev.1⟩
      · exact and_eq_of_bits _ _ (fun j hj => (k2 j hj).2)
      · apply and_eq_of_bits
        intro j hj
        have := (k1 j hj).2
        rw [Nat.testBit_and] at this
        exact (Bool.and_eq_true_iff.mp this).2
      · apply and_eq_zero_of_bits
        intro j hj
        obtain ⟨hj8, hst⟩ := k1 j (by simpa using hj)
        rw [Nat.testBit_and, Nat.testBit_xor] at hst
        have h255 : (255 : Nat).testBit j = true := by
          have := Nat.testBit_two_pow_sub_one 8 j
          simpa [hj8] using this
        rw [h255] at hst
        rw [Nat.testBit_and]
        cases hc : (d.JOYSTICK_currentState ^^^ newState).testBit j
        · rfl
        · rw [hc] at hst
          simp at hst
      · show ((d.JOYSTICK_currentState ^^^ newState) &&& newState |||
          (d.JOYSTICK_currentState ^^^ newState) &&& d.JOYSTICK_currentState ||| _ ||| _) ≠ 0
        rw [c4]
        exact hev.2

theorem event_well_formed_witness :
    (JOYSTICK_PollingHandler
      (calls powerOn [JoystickCall.init 3 5, JoystickCall.setEventHandler (some 1),
        JoystickCall.poll 128, JoystickCall.poll 128, JoystickCall.poll 0, JoystickCall.poll 0,
        JoystickCall.poll 136]) 136).2 =
      some { state := 136, clicked := 136, released := 0, held := 0, dclick := 128 } ∧
    (128 : Nat) &&& 136 = 128 :=
  ⟨by decide,
    (event_well_formed
      (calls powerOn [JoystickCall.init 3 5, JoystickCall.setEventHandler (some 1),
        JoystickCall.poll 128, JoystickCall.poll 128, JoystickCall.poll 0, JoystickCall.poll 0,
        JoystickCall.poll 136])
      136 { state := 136, clicked := 136, released := 0, held := 0, dclick := 128 }
      (by decide)).2.2.2.1⟩

end Joystick

namespace Forms

/-- C24: a form initialised with `FORMS_Init`, to which three active elements
of height 1 are appended with `FORMS_AddBottomElement` (whatever the scrollbar
option and the focused pages of the elements): the focused element is the
first one; after two `FORMS_NavigateDown` calls it is the third one; a third
`FORMS_NavigateDown` leaves the focus on the third element, it does not wrap
to the first.  The `hasFocus` flags of the three elements say the same. -/
theorem forms_navigation_does_not_wrap (useScrollbar : Bool) (p1 p2 p3 : Nat) :
    (threeElementForm useScrollbar p1 p2 p3).elements.length = 3 ∧
    (threeElementForm useScrollbar p1 p2 p3).focusedElement = some 0 ∧
    (threeElementForm useScrollbar p1 p2 p3).elements.map (fun e => e.hasFocus) =
      [true, false, false] ∧
    (FORMS_NavigateDown (FORMS_NavigateDown
      (threeElementForm useScrollbar p1 p2 p3))).focusedElement = some 2 ∧
    (FORMS_NavigateDown (FORMS_NavigateDown
      (threeElementForm useScrollbar p1 p2 p3))).elements.map (fun e => e.hasFocus) =
      [false, false, true] ∧
    (FORMS_NavigateDown (FORMS_NavigateDown (FORMS_NavigateDown
      (threeElementForm useScrollbar p1 p2 p3)))).focusedElement = some 2 ∧
    (FORMS_NavigateDown (FORMS_NavigateDown (FORMS_NavigateDown
      (threeElementForm useScrollbar p1 p2 p3)))).elements.map (fun e => e.hasFocus) =
      [false, false, true] :=
  ⟨rfl, rfl, rfl, rfl, rfl, rfl, rfl⟩

end Forms
